import Mathlib

set_option maxRecDepth 100000

/-!
# Verification of the Obsidian–Todoist workspace mirror core

This file gives a shallow embedding, in Lean 4, of the dual-state
reconciliation core of the plugin: the JavaScript-string utilities it
relies on, the frontmatter codec (`FileGenerator.serializeFrontmatter`,
`FrontmatterParser.parseFrontmatter` / `parseYaml`), the file-name
sanitizer (`FileGenerator.sanitizeFileName`), the remote mirror
(`TodoistState`), the local mirror (`ObsidianState`), the materializer
(`FileGenerator.createOrUpdate*Note`) and the reconciliation engine
(`SyncEngine`).  Effects on the vault and on the remote API are made
explicit as values; ambient clocks (`Date.now()`) are explicit `Nat`
millisecond parameters; ISO-8601 timestamps, which the source only ever
produces with `Date.toISOString()` and consumes with
`new Date(s).getTime()`, are modelled at that library boundary as their
millisecond values.

JavaScript strings are modelled as Lean `String`s; the handful of
JavaScript string/regex primitives the source uses are implemented
explicitly on the character lists below, mirroring ECMAScript semantics.
-/

/-! ## JavaScript string primitives -/

/-- ASCII whitespace as recognised by JavaScript `String.prototype.trim`
(the source never feeds it non-ASCII whitespace). -/
def jsWhitespace (c : Char) : Bool :=
  c = ' ' || c = '\t' || c = '\n' || c = '\r' || c = '\x0b' || c = '\x0c'

/-- `trim()` on a character list: drop whitespace from both ends. -/
def trimL (cs : List Char) : List Char :=
  ((cs.dropWhile jsWhitespace).reverse.dropWhile jsWhitespace).reverse

/-- JavaScript `s.trim()`. -/
def jsTrim (s : String) : String := ⟨trimL s.data⟩

/-- Worker for `String.prototype.split` with a single-character
separator: accumulates the current field (reversed) and emits it at each
separator.  `split` always yields at least one field. -/
def splitOnCharAux (sep : Char) : List Char → List Char → List (List Char)
  | [], acc => [acc.reverse]
  | c :: cs, acc =>
    if c = sep then acc.reverse :: splitOnCharAux sep cs []
    else splitOnCharAux sep cs (c :: acc)

/-- JavaScript `content.split('\n')`. -/
def jsSplitLines (s : String) : List String :=
  (splitOnCharAux '\n' s.data []).map (⟨·⟩)

/-- JavaScript `lines.join('\n')`. -/
def jsJoinLines (ls : List String) : String :=
  ⟨(ls.map String.data).intersperse ['\n'] |>.flatten⟩

/-- Characters replaced by `_` in `sanitizeFileName`: the regex class
`[<>:\"/\\|?*]`. -/
def fsBadChar (c : Char) : Bool :=
  c = '<' || c = '>' || c = ':' || c = '"' || c = '/' || c = '\\' ||
  c = '|' || c = '?' || c = '*'

/-! ## The markdown-link regex of `sanitizeFileName`

`name.replace(/\[([^\]]+)\]\((.*?)\)/g, '$1')`: at each position, a
match needs `[`, a non-empty maximal run of non-`]` characters, `]`,
`(`, then — because `(.*?)` is lazy and `.` does not match newlines —
the run of characters up to the first `)` provided none of them is a
newline, and finally `)`.  A successful match is replaced by the text
between the brackets; otherwise the scanner advances one character. -/

/-- Try to match the markdown-link regex at the head of the list;
returns the captured link text and the remainder after the match. -/
def mdLinkAt : List Char → Option (List Char × List Char)
  | '[' :: cs =>
    let text := cs.takeWhile (· ≠ ']')
    match text, cs.dropWhile (· ≠ ']') with
    | [], _ => none
    | _ :: _, ']' :: '(' :: cs2 =>
      let url := cs2.takeWhile (· ≠ ')')
      match cs2.dropWhile (· ≠ ')') with
      | ')' :: rest => if url.all (· ≠ '\n') then some (text, rest) else none
      | _ => none
    | _, _ => none
  | _ => none

/-- Global-replace scan for the markdown-link regex.  The fuel argument
is only a termination device: every step, matched or not, consumes at
least one character, so `fuel = length` never runs out. -/
def collapseMdLinksAux : Nat → List Char → List Char
  | 0, cs => cs
  | _ + 1, [] => []
  | fuel + 1, c :: cs =>
    match mdLinkAt (c :: cs) with
    | some (text, rest) => text ++ collapseMdLinksAux fuel rest
    | none => c :: collapseMdLinksAux fuel cs

/-- `name.replace(/\[([^\]]+)\]\((.*?)\)/g, '$1')`. -/
def collapseMdLinksL (cs : List Char) : List Char :=
  collapseMdLinksAux cs.length cs

/-- `v.replace(/_+/g, '_')`: every maximal run of underscores becomes a
single underscore (the fold keeps one `_` per run). -/
def collapseUnderscoresL (cs : List Char) : List Char :=
  cs.foldr (fun c acc => if c = '_' ∧ acc.head? = some '_' then acc else c :: acc) []

namespace FileGenerator

/-- `FileGenerator.sanitizeFileName`, on character lists: collapse
markdown links, replace the filesystem-hostile class with `_`, replace
dots with `_`, trim, truncate to 100 characters, collapse underscore
runs, and fall back to `untitled` when empty. -/
def sanitizeFileNameL (name : List Char) : List Char :=
  let v1 := collapseMdLinksL name
  let v2 := v1.map fun c => if fsBadChar c then '_' else c
  let v3 := v2.map fun c => if c = '.' then '_' else c
  let v4 := (trimL v3).take 100
  let v5 := collapseUnderscoresL v4
  if v5.isEmpty then "untitled".data else v5

/-- `FileGenerator.sanitizeFileName`. -/
def sanitizeFileName (name : String) : String := ⟨sanitizeFileNameL name.data⟩

end FileGenerator

/-! ## Frontmatter values

The property bags the codec works on are JavaScript objects whose
values, in this system, are strings, numbers, booleans or string
arrays.  Bags are modelled as association lists in object-insertion
order (`Object.entries` enumerates string keys in that order); a
`null`/`undefined` entry is modelled by its absence. -/

/-- A frontmatter property value.  `num` is an integer-valued
JavaScript number (the only numbers this system produces: priorities
and the parser's decimal-integer results).  `numNonInt` records a
numeric-looking source string whose JavaScript number value lies
outside the exactly modelled decimal-integer fragment (floats,
exponent/radix notation, `Infinity`); the parser can produce such
values but the system never serializes them. -/
inductive FMValue where
  | str (s : String)
  | num (n : Int)
  | numNonInt (raw : String)
  | bool (b : Bool)
  | arr (xs : List String)
deriving DecidableEq, Repr

/-! ## Number formatting and recognition (JavaScript `Number`) -/

/-- Decimal digit recogniser. -/
def isDigitChar (c : Char) : Bool := '0' ≤ c && c ≤ '9'

/-- Nonempty and all decimal digits. -/
def allDigits (cs : List Char) : Bool := !cs.isEmpty && cs.all isDigitChar

/-- Value of a decimal digit string. -/
def digitsVal (cs : List Char) : Nat :=
  cs.foldl (fun a c => 10 * a + (c.toNat - 48)) 0

/-- Digits of `n`, most significant first; the fuel is a termination
device (`n / 10 < n` for `n ≥ 10`) and `n + 1` steps always suffice. -/
def natDigitsAux : Nat → Nat → List Char → List Char
  | 0, _, acc => acc
  | fuel + 1, n, acc =>
    if n < 10 then Char.ofNat (48 + n) :: acc
    else natDigitsAux fuel (n / 10) (Char.ofNat (48 + n % 10) :: acc)

/-- Decimal digit string of a natural number. -/
def natToDigits (n : Nat) : List Char := natDigitsAux (n + 1) n []

/-- JavaScript number-to-string conversion, modelled on the
integer-valued numbers in the fixed-decimal-notation range that this
system produces. -/
def jsNumToString (n : Int) : String :=
  match n with
  | .ofNat m => ⟨natToDigits m⟩
  | .negSucc m => ⟨'-' :: natToDigits (m + 1)⟩

/-- `sign? digits+` with all input consumed. -/
def signedAllDigits : List Char → Bool
  | '+' :: cs => allDigits cs
  | '-' :: cs => allDigits cs
  | cs => allDigits cs

/-- Optional exponent suffix: empty, or `e`/`E` then `sign? digits+`. -/
def expTail : List Char → Bool
  | [] => true
  | 'e' :: cs => signedAllDigits cs
  | 'E' :: cs => signedAllDigits cs
  | _ => false

/-- Decimal numeric literal body (after an optional sign):
`digits+ ('.' digits*)? exp?` or `'.' digits+ exp?`. -/
def decCore (cs : List Char) : Bool :=
  let intPart := cs.takeWhile isDigitChar
  let rest := cs.dropWhile isDigitChar
  if intPart.isEmpty then
    match rest with
    | '.' :: cs2 =>
      allDigits (cs2.takeWhile isDigitChar) && expTail (cs2.dropWhile isDigitChar)
    | _ => false
  else
    match rest with
    | '.' :: cs2 => expTail (cs2.dropWhile isDigitChar)
    | cs2 => expTail cs2

/-- Hexadecimal digit. -/
def isHexDigitChar (c : Char) : Bool :=
  isDigitChar c || ('a' ≤ c && c ≤ 'f') || ('A' ≤ c && c ≤ 'F')

/-- Radix literals `0x…`, `0o…`, `0b…` (no sign allowed). -/
def radixNum : List Char → Bool
  | '0' :: 'x' :: cs => !cs.isEmpty && cs.all isHexDigitChar
  | '0' :: 'X' :: cs => !cs.isEmpty && cs.all isHexDigitChar
  | '0' :: 'o' :: cs => !cs.isEmpty && cs.all (fun c => '0' ≤ c && c ≤ '7')
  | '0' :: 'O' :: cs => !cs.isEmpty && cs.all (fun c => '0' ≤ c && c ≤ '7')
  | '0' :: 'b' :: cs => !cs.isEmpty && cs.all (fun c => c = '0' || c = '1')
  | '0' :: 'B' :: cs => !cs.isEmpty && cs.all (fun c => c = '0' || c = '1')
  | _ => false

/-- Trimmed nonempty string recognised by `Number(...)` as a number. -/
def jsNumericLikeCore : List Char → Bool
  | '+' :: cs => decCore cs || cs = "Infinity".data
  | '-' :: cs => decCore cs || cs = "Infinity".data
  | cs => decCore cs || cs = "Infinity".data || radixNum cs

/-- `!isNaN(Number(s))`: `Number` trims whitespace and maps the empty
remainder to `0`. -/
def jsIsNumeric (cs : List Char) : Bool :=
  let t := trimL cs
  t.isEmpty || jsNumericLikeCore t

/-- The value `Number(s)` as an `FMValue`: exact on whitespace and
`sign? digits+`, symbolic (`numNonInt`) on the rest of the numeric
syntax. -/
def jsNumberValue (cs : List Char) : FMValue :=
  match trimL cs with
  | '-' :: ds => if allDigits ds then .num (-(digitsVal ds : Int)) else .numNonInt ⟨cs⟩
  | '+' :: ds => if allDigits ds then .num (digitsVal ds) else .numNonInt ⟨cs⟩
  | ds =>
    if allDigits ds then .num (digitsVal ds)
    else if ds.isEmpty then .num 0
    else .numNonInt ⟨cs⟩

/-! ## `FileGenerator.serializeFrontmatter` -/

/-- `value.replace(/\r\n/g, '\n').replace(/\r/g, '\n')`. -/
def normNewlinesL : List Char → List Char
  | [] => []
  | '\r' :: '\n' :: cs => '\n' :: normNewlinesL cs
  | '\r' :: cs => '\n' :: normNewlinesL cs
  | c :: cs => c :: normNewlinesL cs

/-- `value.replace(/\n+$/, '')`. -/
def stripTrailingNL (cs : List Char) : List Char :=
  (cs.reverse.dropWhile (· = '\n')).reverse

/-- `value.replace(/"/g, '\\"')`. -/
def escapeQuotesL : List Char → List Char
  | [] => []
  | '"' :: cs => '\\' :: '"' :: escapeQuotesL cs
  | c :: cs => c :: escapeQuotesL cs

namespace FileGenerator

/-- The lines one bag entry contributes in
`FileGenerator.serializeFrontmatter`: arrays as a bare `key:` line
followed by `  - item` lines; strings with newlines as a `key: |`
block with two-space-indented lines (after newline normalisation and
trailing-newline stripping); the literal strings `true`/`false`
unquoted; other single-line strings double-quoted with internal quotes
escaped; numbers and booleans as bare scalars. -/
def serializeEntryLines : String × FMValue → List String
  | (key, .arr xs) => (key ++ ":") :: xs.map (fun item => "  - " ++ item)
  | (key, .str s) =>
    if s.data.contains '\n' then
      let lines := splitOnCharAux '\n' (stripTrailingNL (normNewlinesL s.data)) []
      (key ++ ": |") :: lines.map (fun l => "  " ++ (⟨l⟩ : String))
    else if s = "true" then [key ++ ": true"]
    else if s = "false" then [key ++ ": false"]
    else [key ++ ": \"" ++ (⟨escapeQuotesL s.data⟩ : String) ++ "\""]
  | (key, .num n) => [key ++ ": " ++ jsNumToString n]
  | (key, .numNonInt raw) => [key ++ ": " ++ raw]
  | (key, .bool b) => [key ++ ": " ++ (if b then "true" else "false")]

/-- `FileGenerator.serializeFrontmatter`: `---`, the entry lines each
terminated by a newline, then a closing `---` with no trailing
newline. -/
def serializeFrontmatter (fm : List (String × FMValue)) : String :=
  "---\n" ++ String.join (((fm.map serializeEntryLines).flatten).map (· ++ "\n")) ++ "---"

end FileGenerator

/-! ## `FrontmatterParser` -/

namespace FrontmatterParser

/-- `trimmed.indexOf(':')` with the corresponding split: `none` models
index `-1`. -/
def breakOnColon : List Char → Option (List Char × List Char)
  | [] => none
  | c :: cs =>
    if c = ':' then some ([], cs)
    else (breakOnColon cs).map fun p => (c :: p.1, p.2)

/-- Remove one layer of matching double or single quotes
(`value.startsWith('"') && value.endsWith('"')`, then `slice(1, -1)`;
a single quote character satisfies both tests and strips to empty,
exactly as `slice(1, -1)` does). -/
def stripMatchingQuotes (cs : List Char) : List Char :=
  if cs.head? = some '"' ∧ cs.getLast? = some '"' then (cs.drop 1).dropLast
  else if cs.head? = some '\'' ∧ cs.getLast? = some '\'' then (cs.drop 1).dropLast
  else cs

/-- Scalar dispatch of `FrontmatterParser.parseYaml` on the
quote-stripped value: bracketed comma-separated arrays (items trimmed,
then all quote characters deleted), the literals `true`/`false`,
numbers by `Number(...)`, and strings otherwise. -/
def parseScalar (v : List Char) : FMValue :=
  if v.head? = some '[' ∧ v.getLast? = some ']' then
    let arrayContent := trimL ((v.drop 1).dropLast)
    if arrayContent.isEmpty then .arr []
    else .arr ((splitOnCharAux ',' arrayContent []).map fun item =>
      ⟨(trimL item).filter fun c => !(c = '\'' || c = '"')⟩)
  else if v = "true".data then .bool true
  else if v = "false".data then .bool false
  else if jsIsNumeric v ∧ ¬ v.isEmpty then jsNumberValue v
  else .str ⟨v⟩

/-- One line of `parseYaml`: skip blank and `#` comment lines and lines
without a colon; otherwise split at the first colon, trim both parts,
strip matching quotes from the value and dispatch on the scalar. -/
def parseYamlLine (line : String) : Option (String × FMValue) :=
  let trimmed := trimL line.data
  if trimmed.isEmpty then none
  else if trimmed.head? = some '#' then none
  else
    match breakOnColon trimmed with
    | none => none
    | some (k, rest) => some (⟨trimL k⟩, parseScalar (stripMatchingQuotes (trimL rest)))

/-- JavaScript object insertion: an existing key is updated in place,
a new key is appended. -/
def insertJs (m : List (String × FMValue)) (k : String) (v : FMValue) :
    List (String × FMValue) :=
  if m.any (fun p => p.1 = k) then m.map fun p => if p.1 = k then (k, v) else p
  else m ++ [(k, v)]

/-- `FrontmatterParser.parseYaml`. -/
def parseYaml (content : String) : List (String × FMValue) :=
  (jsSplitLines content).foldl
    (fun acc line =>
      match parseYamlLine line with
      | some (k, v) => insertJs acc k v
      | none => acc)
    []

/-- The loop `for i in 1..: if lines[i] === '---'` of
`parseFrontmatter`: split off everything before the first `---`. -/
def findDelim : List String → Option (List String × List String)
  | [] => none
  | l :: ls =>
    if l = "---" then some ([], ls)
    else (findDelim ls).map fun p => (l :: p.1, p.2)

/-- `FrontmatterParser.parseFrontmatter`: the document must open with a
`---` line and contain a second one; the lines between are YAML, the
lines after are the body. -/
def parseFrontmatter (content : String) :
    Option (List (String × FMValue) × String) :=
  match jsSplitLines content with
  | [] => none
  | first :: rest =>
    if first ≠ "---" then none
    else
      match findDelim rest with
      | none => none
      | some (fmLines, bodyLines) =>
        some (parseYaml (jsJoinLines fmLines), jsJoinLines bodyLines)

end FrontmatterParser

/-! ## Data model (src/models/types.ts)

Timestamps the engine actually compares (`date_added` on tasks,
`last_sync` in frontmatter, `Date.now()`) are modelled as natural
numbers of milliseconds: the source only ever produces them with
`Date.toISOString()`/`Date.now()` and consumes them with
`new Date(s).getTime()`, so the ISO-8601 text form is a bijective
library boundary. -/

/-- `TodoistDue`. -/
structure TodoistDue where
  date : String
  is_recurring : Bool
  datetime : Option String
  string : String
  timezone : Option String
deriving DecidableEq, Repr

/-- `TodoistTask` (`date_added` as milliseconds, see above). -/
structure TodoistTask where
  id : String
  user_id : Nat
  project_id : String
  content : String
  description : String
  priority : Int
  due : Option TodoistDue
  parent_id : Option String
  child_order : Int
  section_id : Option String
  day_order : Int
  collapsed : Bool
  labels : List String
  added_by_uid : Nat
  assigned_by_uid : Option Nat
  responsible_uid : Option Nat
  checked : Bool
  in_history : Bool
  is_deleted : Bool
  date_added : Nat
  date_completed : Option String
  sync_id : Option String
deriving DecidableEq, Repr

/-- `TodoistProject`. -/
structure TodoistProject where
  id : String
  name : String
  color : String
  parent_id : Option String
  child_order : Int
  collapsed : Bool
  shared : Bool
  is_deleted : Bool
  is_archived : Bool
  is_favorite : Bool
  sync_id : Option String
  inbox_project : Option Bool
  team_inbox : Option Bool
deriving DecidableEq, Repr

/-- `TodoistSection`. -/
structure TodoistSection where
  id : String
  name : String
  project_id : String
  section_order : Int
  collapsed : Bool
  sync_id : Option String
  is_deleted : Bool
  date_added : String
deriving DecidableEq, Repr

/-- `TodoistLabel`. -/
structure TodoistLabel where
  id : String
  name : String
  color : String
  item_order : Int
  is_deleted : Bool
  is_favorite : Bool
deriving DecidableEq, Repr

/-- `SyncState` (timestamps in milliseconds). -/
structure SyncState where
  syncToken : String
  lastFullSync : Nat
  lastIncrementalSync : Nat
deriving DecidableEq, Repr

/-- `TodoistSyncResponse`. -/
structure TodoistSyncResponse where
  sync_token : String
  full_sync : Bool
  projects : List TodoistProject
  items : List TodoistTask
  sections : List TodoistSection
  labels : List TodoistLabel
  temp_id_mapping : List (String × String)
deriving DecidableEq, Repr

/-! ## JavaScript `Map<string, V>`

Modelled as an association list in insertion order.  `set` updates an
existing key in place (keeping its position, as JavaScript `Map.set`
does) and appends a new key; `delete` removes the entry. -/

/-- A JavaScript `Map` with string keys. -/
abbrev JsMap (α : Type) : Type := List (String × α)

/-- `map.get(k)` (`undefined` is `none`): the value of the (unique)
entry under the key. -/
def JsMap.get? {α} : JsMap α → String → Option α
  | [], _ => none
  | p :: m, k => if p.1 = k then some p.2 else JsMap.get? m k

/-- `map.set(k, v)`. -/
def JsMap.set {α} (m : JsMap α) (k : String) (v : α) : JsMap α :=
  if m.any (fun p => decide (p.1 = k)) then
    m.map fun p => if p.1 = k then (k, v) else p
  else m ++ [(k, v)]

/-- `map.delete(k)`. -/
def JsMap.del {α} (m : JsMap α) (k : String) : JsMap α :=
  m.filter fun p => decide (p.1 ≠ k)

/-- `Array.from(map.values())`. -/
def JsMap.values {α} (m : JsMap α) : List α :=
  m.map Prod.snd

/-- `Array.from(map.entries())`. -/
def JsMap.entries {α} (m : JsMap α) : List (String × α) := m

/-- `map.size`. -/
def JsMap.size {α} (m : JsMap α) : Nat := m.length

/-- The keys of the map, in insertion order. -/
def JsMap.keys {α} (m : JsMap α) : List String :=
  m.map Prod.fst

/-- `new Map(entries)`: insert every pair in order. -/
def JsMap.ofEntries {α} (es : List (String × α)) : JsMap α :=
  es.foldl (fun m p => m.set p.1 p.2) ([] : JsMap α)

/-- The shared upsert/tombstone replay loop of
`TodoistState.updateFromSync`: deleted entities are removed from the
map, others are upserted under their id. -/
def JsMap.applyUpserts {α} (key : α → String) (isDel : α → Bool)
    (m : JsMap α) (es : List α) : JsMap α :=
  es.foldl (fun m e => if isDel e then m.del (key e) else m.set (key e) e) m

/-- The last element of the list satisfying the predicate (the record
that wins a last-write-wins replay). -/
def lastMatch {α} (p : α → Bool) : List α → Option α
  | [] => none
  | x :: xs =>
    match lastMatch p xs with
    | some y => some y
    | none => if p x then some x else none

/-- A map whose entries are keyed by the given key function, without
duplicate keys — the shape every replay-built entity map has. -/
def JsMap.KeyedBy {α} (key : α → String) (m : JsMap α) : Prop :=
  (m.map Prod.fst).Nodup ∧ ∀ p ∈ m, key p.2 = p.1

/-! ## `TodoistState` (src/state/todoistState.ts) -/

/-- Source A: the in-memory mirror of the remote workspace. -/
structure TodoistState where
  tasks : JsMap TodoistTask
  projects : JsMap TodoistProject
  sections : JsMap TodoistSection
  labels : JsMap TodoistLabel
  syncState : SyncState
deriving DecidableEq, Repr

namespace TodoistState

/-- The field initialisers of the class: empty maps and the sentinel
sync state. -/
def initial : TodoistState :=
  { tasks := {}, projects := {}, sections := {}, labels := {},
    syncState := { syncToken := "*", lastFullSync := 0, lastIncrementalSync := 0 } }

/-- `TodoistState.updateFromSync` (`now` is `Date.now()`): record the
token, stamp the incremental-sync time, clear all four maps on a full
sync (also stamping the full-sync time), then replay every entity
array with delete-on-tombstone / upsert-by-id semantics. -/
def updateFromSync (now : Nat) (resp : TodoistSyncResponse) (st : TodoistState) :
    TodoistState :=
  let sync1 : SyncState :=
    { syncToken := resp.sync_token,
      lastIncrementalSync := now,
      lastFullSync := if resp.full_sync then now else st.syncState.lastFullSync }
  let base : TodoistState :=
    if resp.full_sync then
      { tasks := {}, projects := {}, sections := {}, labels := {}, syncState := sync1 }
    else { st with syncState := sync1 }
  { base with
    tasks := base.tasks.applyUpserts (·.id) (·.is_deleted) resp.items,
    projects := base.projects.applyUpserts (·.id) (·.is_deleted) resp.projects,
    sections := base.sections.applyUpserts (·.id) (·.is_deleted) resp.sections,
    labels := base.labels.applyUpserts (·.id) (·.is_deleted) resp.labels }

/-- `getAllTasks`: values, non-deleted only. -/
def getAllTasks (st : TodoistState) : List TodoistTask :=
  st.tasks.values.filter fun t => !t.is_deleted

/-- `getTask`. -/
def getTask (st : TodoistState) (id : String) : Option TodoistTask :=
  st.tasks.get? id

/-- `getAllProjects`: values, non-deleted and non-archived only. -/
def getAllProjects (st : TodoistState) : List TodoistProject :=
  st.projects.values.filter fun p => !p.is_deleted && !p.is_archived

/-- `getProject`. -/
def getProject (st : TodoistState) (id : String) : Option TodoistProject :=
  st.projects.get? id

/-- `getAllSections`: values, non-deleted only. -/
def getAllSections (st : TodoistState) : List TodoistSection :=
  st.sections.values.filter fun s => !s.is_deleted

/-- `getAllLabels`: values, non-deleted only. -/
def getAllLabels (st : TodoistState) : List TodoistLabel :=
  st.labels.values.filter fun l => !l.is_deleted

/-- `needsFullSync` (`now` is `Date.now()`; the JavaScript subtraction
can be negative, in which case the 24-hour comparison is false, which
truncated `Nat` subtraction also gives). -/
def needsFullSync (now : Nat) (st : TodoistState) : Bool :=
  st.syncState.syncToken = "*" || st.syncState.lastFullSync = 0 ||
    now - st.syncState.lastFullSync > 24 * 60 * 60 * 1000

/-! ### Persistence

`serialize` passes `{tasks: entries, …, syncState}` to the standard
library's `JSON.stringify`, and `deserialize` feeds the stored string
to `JSON.parse` and rebuilds the maps with `new Map(parsed.X || [])`
and the bookkeeping with `parsed.syncState || default`.  The JSON text
itself is the standard library's concern; the repository code is
modelled from the parse outcome on.  Because the source is dynamically
typed, a string can parse and construct without throwing and still
leave ill-typed data behind: `new Map` accepts entry pairs whose keys
and values are arbitrary values, and `x || default` keeps any truthy
`x` of any shape.  `JsDyn` represents such a dynamic value: either a
value of the entity shape the rest of the system expects, or any other
parsed value, identified by a tag (primitives up to JavaScript
SameValueZero key identity by their text; objects and arrays, each
fresh, by an identity tag the parse outcome supplies). -/

end TodoistState

/-- A dynamic JavaScript value in a slot that the rest of the system
expects to hold an `α`. -/
inductive JsDyn (α : Type) where
  | typed (a : α)
  | other (tag : String)
deriving DecidableEq, Repr

/-- `map.set(k, v)` on a dynamically keyed map: update in place or
append (SameValueZero key identity). -/
def dynSet {κ α : Type} [DecidableEq κ] (m : List (κ × α)) (k : κ) (v : α) :
    List (κ × α) :=
  if m.any (fun p => decide (p.1 = k)) then
    m.map fun p => if p.1 = k then (k, v) else p
  else m ++ [(k, v)]

/-- `new Map(entries)` on dynamic entry pairs: insert every pair in
order, later pairs with the same key overwriting earlier ones. -/
def dynOfEntries {κ α : Type} [DecidableEq κ] (es : List (κ × α)) : List (κ × α) :=
  es.foldl (fun m p => dynSet m p.1 p.2) []

namespace TodoistState

/-- What `deserialize` reads off a successfully parsed value, at the
granularity the code consumes it.  Each entry field is `none` when
absent or falsy (`x || []` then yields `new Map([])`), and otherwise
holds the entry pairs of a truthy array — dynamic keys and values,
which `new Map` accepts whether or not they are entity-shaped.
`syncState` is `none` when absent or falsy (the `||` default fires)
and otherwise the truthy parsed value, of whatever shape.  A truthy
entry field that is not an array of entry-shaped items makes
`new Map(...)` throw; that outcome is `ParsedPersist.failure`. -/
structure RawPersist where
  tasks : Option (List (JsDyn String × JsDyn TodoistTask))
  projects : Option (List (JsDyn String × JsDyn TodoistProject))
  sections : Option (List (JsDyn String × JsDyn TodoistSection))
  labels : Option (List (JsDyn String × JsDyn TodoistLabel))
  syncState : Option (JsDyn SyncState)
deriving DecidableEq, Repr

/-- Outcome of `JSON.parse` plus the map constructions on the stored
string: `failure` models any exception inside the `try` — a string
`JSON.parse` rejects, a property access on a parsed `null`, or a
`new Map(...)` construction on a truthy non-entry-iterable. -/
inductive ParsedPersist where
  | failure
  | ok (p : RawPersist)
deriving DecidableEq, Repr

/-- The state of the class's fields right after `deserialize` returns:
the same five slots as `TodoistState`, but holding whatever dynamic
values the construction produced. -/
structure RawTodoistState where
  tasks : List (JsDyn String × JsDyn TodoistTask)
  projects : List (JsDyn String × JsDyn TodoistProject)
  sections : List (JsDyn String × JsDyn TodoistSection)
  labels : List (JsDyn String × JsDyn TodoistLabel)
  syncState : JsDyn SyncState
deriving DecidableEq, Repr

/-- The initial field values, viewed dynamically: four empty maps and
the sentinel sync record. -/
def rawInitial : RawTodoistState :=
  { tasks := [], projects := [], sections := [], labels := [],
    syncState := JsDyn.typed
      { syncToken := "*", lastFullSync := 0, lastIncrementalSync := 0 } }

/-- A well-typed state, viewed dynamically. -/
def raw (st : TodoistState) : RawTodoistState :=
  { tasks := st.tasks.map fun p => (JsDyn.typed p.1, JsDyn.typed p.2),
    projects := st.projects.map fun p => (JsDyn.typed p.1, JsDyn.typed p.2),
    sections := st.sections.map fun p => (JsDyn.typed p.1, JsDyn.typed p.2),
    labels := st.labels.map fun p => (JsDyn.typed p.1, JsDyn.typed p.2),
    syncState := JsDyn.typed st.syncState }

/-- `TodoistState.serialize`: all four entry lists and the sync
bookkeeping, every slot well-typed. -/
def serialize (st : TodoistState) : RawPersist :=
  { tasks := some (st.tasks.entries.map fun p => (JsDyn.typed p.1, JsDyn.typed p.2)),
    projects :=
      some (st.projects.entries.map fun p => (JsDyn.typed p.1, JsDyn.typed p.2)),
    sections :=
      some (st.sections.entries.map fun p => (JsDyn.typed p.1, JsDyn.typed p.2)),
    labels := some (st.labels.entries.map fun p => (JsDyn.typed p.1, JsDyn.typed p.2)),
    syncState := some (JsDyn.typed st.syncState) }

/-- `TodoistState.deserialize`: on an exception anywhere inside the
`try`, reset to the initial state (the `catch` clears all four maps
and restores the sentinel, so partially assigned fields are wiped
too); otherwise rebuild each map with `new Map(parsed.X || [])` and
keep `parsed.syncState || default` — whatever values those hold. -/
def deserialize (d : ParsedPersist) : RawTodoistState :=
  match d with
  | .failure => rawInitial
  | .ok p =>
    { tasks := dynOfEntries (p.tasks.getD []),
      projects := dynOfEntries (p.projects.getD []),
      sections := dynOfEntries (p.sections.getD []),
      labels := dynOfEntries (p.labels.getD []),
      syncState := p.syncState.getD (JsDyn.typed
        { syncToken := "*", lastFullSync := 0, lastIncrementalSync := 0 }) }

/-- The maps-keyed-by-id invariant every reachable `TodoistState`
satisfies: every map entry's key is its value's id, and keys are not
duplicated.  (`initial` satisfies it and `updateFromSync` preserves
it.) -/
def WF (st : TodoistState) : Prop :=
  st.tasks.KeyedBy (·.id) ∧ st.projects.KeyedBy (·.id) ∧
  st.sections.KeyedBy (·.id) ∧ st.labels.KeyedBy (·.id)

end TodoistState

/-! ## Obsidian-side data model -/

/-- `TaskFrontmatter` (optional fields are `undefined` when `none`;
`last_sync` in milliseconds at the ISO-8601 library boundary). -/
structure TaskFrontmatter where
  todoist_id : Option String := none
  todoist_type : Option String := none
  todoist_project : Option String := none
  todoist_section : Option String := none
  title : Option String := none
  due_date : Option String := none
  due_datetime : Option String := none
  priority : Option Int := none
  labels : Option (List String) := none
  completed : Option Bool := none
  content : Option String := none
  description : Option String := none
  parent_task : Option String := none
  sync_status : Option String := none
  last_sync : Option Nat := none
deriving DecidableEq, Repr

/-- `ProjectFrontmatter`. -/
structure ProjectFrontmatter where
  todoist_id : Option String := none
  todoist_type : String := "project"
  title : Option String := none
  color : Option String := none
  parent_project : Option String := none
  is_favorite : Option Bool := none
  sync_status : Option String := none
  last_sync : Option Nat := none
deriving DecidableEq, Repr

/-- `SectionFrontmatter`. -/
structure SectionFrontmatter where
  todoist_id : Option String := none
  todoist_type : String := "section"
  title : Option String := none
  todoist_project : Option String := none
  sync_status : Option String := none
  last_sync : Option Nat := none
deriving DecidableEq, Repr

/-- `ObsidianTaskNote`. -/
structure ObsidianTaskNote where
  filePath : String
  todoistId : String
  content : String
  frontmatter : TaskFrontmatter
  lastModified : Nat
deriving DecidableEq, Repr

/-- `ObsidianProjectNote`. -/
structure ObsidianProjectNote where
  filePath : String
  todoistId : String
  name : String
  frontmatter : ProjectFrontmatter
  lastModified : Nat
deriving DecidableEq, Repr

/-- `ObsidianSectionNote`. -/
structure ObsidianSectionNote where
  filePath : String
  todoistId : String
  name : String
  projectId : String
  frontmatter : SectionFrontmatter
  lastModified : Nat
deriving DecidableEq, Repr

/-! ## `ObsidianState` (Source B) -/

/-- Source B: the scanned mirror of the vault's sync-scoped notes. -/
structure ObsidianState where
  taskNotes : JsMap ObsidianTaskNote
  projectNotes : JsMap ObsidianProjectNote
  sectionNotes : JsMap ObsidianSectionNote
  filePathToTodoistId : JsMap String
deriving DecidableEq, Repr

namespace ObsidianState

/-- Empty maps (the field initialisers / a scan of a missing folder). -/
def empty : ObsidianState :=
  { taskNotes := [], projectNotes := [], sectionNotes := [], filePathToTodoistId := [] }

/-- `getTaskNote`. -/
def getTaskNote (st : ObsidianState) (todoistId : String) : Option ObsidianTaskNote :=
  st.taskNotes.get? todoistId

/-- `getProjectNote`. -/
def getProjectNote (st : ObsidianState) (todoistId : String) : Option ObsidianProjectNote :=
  st.projectNotes.get? todoistId

/-- `getSectionNote`. -/
def getSectionNote (st : ObsidianState) (todoistId : String) : Option ObsidianSectionNote :=
  st.sectionNotes.get? todoistId

/-- `setTaskNote`: update the map and the path→id reverse index. -/
def setTaskNote (st : ObsidianState) (todoistId : String) (note : ObsidianTaskNote) :
    ObsidianState :=
  { st with
    taskNotes := st.taskNotes.set todoistId note,
    filePathToTodoistId := st.filePathToTodoistId.set note.filePath todoistId }

/-- `setProjectNote`. -/
def setProjectNote (st : ObsidianState) (todoistId : String) (note : ObsidianProjectNote) :
    ObsidianState :=
  { st with
    projectNotes := st.projectNotes.set todoistId note,
    filePathToTodoistId := st.filePathToTodoistId.set note.filePath todoistId }

/-- `setSectionNote`. -/
def setSectionNote (st : ObsidianState) (todoistId : String) (note : ObsidianSectionNote) :
    ObsidianState :=
  { st with
    sectionNotes := st.sectionNotes.set todoistId note,
    filePathToTodoistId := st.filePathToTodoistId.set note.filePath todoistId }

/-- `getAllTaskNotes`. -/
def getAllTaskNotes (st : ObsidianState) : List ObsidianTaskNote := st.taskNotes.values

/-- `getAllProjectNotes`. -/
def getAllProjectNotes (st : ObsidianState) : List ObsidianProjectNote :=
  st.projectNotes.values

/-- `getAllSectionNotes`. -/
def getAllSectionNotes (st : ObsidianState) : List ObsidianSectionNote :=
  st.sectionNotes.values

/-- `getModifiedSince`. -/
def getModifiedSince (st : ObsidianState) (timestamp : Nat) :
    List ObsidianTaskNote × List ObsidianProjectNote × List ObsidianSectionNote :=
  (st.getAllTaskNotes.filter fun n => n.lastModified > timestamp,
   st.getAllProjectNotes.filter fun n => n.lastModified > timestamp,
   st.getAllSectionNotes.filter fun n => n.lastModified > timestamp)

end ObsidianState

/-! ## Vault and effects

The storage and remote collaborators are consumed through narrow
interfaces; their calls are recorded as explicit effect values, and
the vault itself is a folder set plus a path-indexed file map. -/

/-- One storage or remote call issued by the engine. -/
inductive Effect where
  | createFolder (path : String)
  | createFile (path content : String)
  | modifyFile (path content : String)
  | deleteFile (path : String)
  | apiCloseTask (id : String)
  | apiReopenTask (id : String)
  | apiUpdateTask (id : String)
deriving DecidableEq, Repr

/-- Document (file) writes: creation, modification, deletion. -/
def Effect.isDocWrite : Effect → Bool
  | .createFile _ _ => true
  | .modifyFile _ _ => true
  | .deleteFile _ => true
  | _ => false

/-- Any storage write, folder creation included. -/
def Effect.isStorageWrite : Effect → Bool
  | .createFolder _ => true
  | .createFile _ _ => true
  | .modifyFile _ _ => true
  | .deleteFile _ => true
  | _ => false

/-- Remote mutation calls. -/
def Effect.isRemoteMutation : Effect → Bool
  | .apiCloseTask _ => true
  | .apiReopenTask _ => true
  | .apiUpdateTask _ => true
  | _ => false

/-- The path an effect touches (the id, for remote calls). -/
def Effect.path : Effect → String
  | .createFolder p => p
  | .createFile p _ => p
  | .modifyFile p _ => p
  | .deleteFile p => p
  | .apiCloseTask i => i
  | .apiReopenTask i => i
  | .apiUpdateTask i => i

/-- The vault: existing folders and file contents by path. -/
structure Vault where
  folders : List String
  files : JsMap String
deriving DecidableEq, Repr

/-- A file exists at the path (`getAbstractFileByPath` returns a
`TFile`). -/
def Vault.isFile (v : Vault) (p : String) : Bool := (v.files.get? p).isSome

/-- A folder exists at the path. -/
def Vault.isFolder (v : Vault) (p : String) : Bool := v.folders.contains p

/-- `getAbstractFileByPath` returns something (file or folder). -/
def Vault.pathExists (v : Vault) (p : String) : Bool := v.isFile p || v.isFolder p

/-- `vault.createFolder`. -/
def Vault.createFolder (v : Vault) (p : String) : Vault :=
  { v with folders := v.folders ++ [p] }

/-- `vault.create` / `vault.modify`: create-or-replace the file. -/
def Vault.write (v : Vault) (p c : String) : Vault :=
  { v with files := v.files.set p c }

/-- `vault.read` (`none`: no file at the path, the call would throw). -/
def Vault.read (v : Vault) (p : String) : Option String := v.files.get? p

/-- `vault.delete`. -/
def Vault.deleteFile (v : Vault) (p : String) : Vault :=
  { v with files := v.files.del p }

/-! ## JavaScript truthiness helpers -/

/-- Truthiness of an optional string (`undefined` and `''` are falsy). -/
def jsTruthyStr : Option String → Bool
  | none => false
  | some s => decide (s ≠ "")

/-- Truthiness of an optional frontmatter value.  (`numNonInt` values
are produced only for nonempty numeric syntax; the zero-valued floats
among them, e.g. `0.0`, are not distinguished — no modelled claim
depends on that corner.) -/
def jsTruthy : Option FMValue → Bool
  | none => false
  | some (.str s) => decide (s ≠ "")
  | some (.num n) => decide (n ≠ 0)
  | some (.numNonInt _) => true
  | some (.bool b) => b
  | some (.arr _) => true

/-- `Date.toISOString()` at the library boundary: an injective text
form of the millisecond value, consumed only by
`new Date(s).getTime()`, which inverts it. -/
def isoString (ms : Nat) : String := toString ms

/-! ## `FileGenerator` (src/obsidian/fileGenerator.ts) -/

namespace FileGenerator

/-- The per-field inclusion toggles of the settings object. -/
structure EnabledProps where
  content : Bool
  dueDate : Bool
  priority : Bool
  labels : Bool
  project : Bool
  «section» : Bool
deriving DecidableEq, Repr

/-- The constructor arguments plus the dry-run flag. -/
structure Config where
  syncFolderPath : String
  scopeTag : String
  enabledProperties : EnabledProps
  dryRun : Bool
deriving DecidableEq, Repr

/-- The create-folder-if-absent step used for the sync folder and for
each note's parent folder (it runs in every mode, dry-run included). -/
def ensureFolderAt (v : Vault) (p : String) : Vault × List Effect :=
  if v.pathExists p then (v, [])
  else (v.createFolder p, [Effect.createFolder p])

/-- `ensureSyncFolder`: create the sync folder when nothing exists at
its path. -/
def ensureSyncFolder (fg : Config) (v : Vault) : Vault × List Effect :=
  ensureFolderAt v fg.syncFolderPath

/-- `getTaskFolderPath`: sync root, then the sanitized project folder
if a project name is (truthily) present, then the sanitized section
folder. -/
def getTaskFolderPath (fg : Config) (projectName sectionName : Option String) : String :=
  if jsTruthyStr projectName then
    let base := fg.syncFolderPath ++ "/" ++ sanitizeFileName (projectName.getD "")
    if jsTruthyStr sectionName then base ++ "/" ++ sanitizeFileName (sectionName.getD "")
    else base
  else fg.syncFolderPath

/-- `buildTaskFrontmatter` (`now` is `Date.now()`). -/
def buildTaskFrontmatter (fg : Config) (now : Nat) (task : TodoistTask)
    (projectName sectionName : Option String) : TaskFrontmatter :=
  { todoist_id := some task.id,
    todoist_type := some "task",
    sync_status := some "synced",
    last_sync := some now,
    title := if fg.enabledProperties.content then some task.content else none,
    due_date :=
      if fg.enabledProperties.dueDate then
        task.due.bind fun d => if d.date ≠ "" then some d.date else none
      else none,
    due_datetime :=
      if fg.enabledProperties.dueDate then
        task.due.bind fun d => d.datetime.bind fun s => if s ≠ "" then some s else none
      else none,
    priority := if fg.enabledProperties.priority then some task.priority else none,
    labels :=
      if fg.enabledProperties.labels && decide (task.labels.length > 0) then some task.labels
      else none,
    todoist_project :=
      if fg.enabledProperties.project && jsTruthyStr projectName then projectName else none,
    todoist_section :=
      if fg.enabledProperties.«section» && jsTruthyStr sectionName then sectionName else none,
    completed := some task.checked,
    description := if task.description ≠ "" then some task.description else none,
    parent_task := task.parent_id.bind fun p => if p ≠ "" then some p else none,
    content := none }

/-- `buildProjectFrontmatter` (`project.parent_id || undefined` is
falsy also on the empty string). -/
def buildProjectFrontmatter (now : Nat) (project : TodoistProject) : ProjectFrontmatter :=
  { todoist_id := some project.id,
    todoist_type := "project",
    title := some project.name,
    color := some project.color,
    parent_project := project.parent_id.bind fun p => if p = "" then none else some p,
    is_favorite := some project.is_favorite,
    sync_status := some "synced",
    last_sync := some now }

/-- `buildSectionFrontmatter`. -/
def buildSectionFrontmatter (now : Nat) (s : TodoistSection) : SectionFrontmatter :=
  { todoist_id := some s.id,
    todoist_type := "section",
    title := some s.name,
    todoist_project := some s.project_id,
    sync_status := some "synced",
    last_sync := some now }

/-- One optional bag entry. -/
def optEntry (k : String) : Option FMValue → List (String × FMValue)
  | none => []
  | some x => [(k, x)]

/-- The property bag of a `TaskFrontmatter`, in the object insertion
order fixed by `buildTaskFrontmatter` (absent fields contribute no
entry, as `serializeFrontmatter` skips `undefined`). -/
def taskFMEntries (fm : TaskFrontmatter) : List (String × FMValue) :=
  optEntry "todoist_id" (fm.todoist_id.map .str) ++
  optEntry "todoist_type" (fm.todoist_type.map .str) ++
  optEntry "sync_status" (fm.sync_status.map .str) ++
  optEntry "last_sync" (fm.last_sync.map fun t => .str (isoString t)) ++
  optEntry "title" (fm.title.map .str) ++
  optEntry "due_date" (fm.due_date.map .str) ++
  optEntry "due_datetime" (fm.due_datetime.map .str) ++
  optEntry "priority" (fm.priority.map .num) ++
  optEntry "labels" (fm.labels.map .arr) ++
  optEntry "todoist_project" (fm.todoist_project.map .str) ++
  optEntry "todoist_section" (fm.todoist_section.map .str) ++
  optEntry "completed" (fm.completed.map .bool) ++
  optEntry "description" (fm.description.map .str) ++
  optEntry "parent_task" (fm.parent_task.map .str)

/-- The property bag of a `ProjectFrontmatter`, in
`buildProjectFrontmatter`'s insertion order. -/
def projectFMEntries (fm : ProjectFrontmatter) : List (String × FMValue) :=
  optEntry "todoist_id" (fm.todoist_id.map .str) ++
  [("todoist_type", .str fm.todoist_type)] ++
  optEntry "title" (fm.title.map .str) ++
  optEntry "color" (fm.color.map .str) ++
  optEntry "parent_project" (fm.parent_project.map .str) ++
  optEntry "is_favorite" (fm.is_favorite.map .bool) ++
  optEntry "sync_status" (fm.sync_status.map .str) ++
  optEntry "last_sync" (fm.last_sync.map fun t => .str (isoString t))

/-- The property bag of a `SectionFrontmatter`, in
`buildSectionFrontmatter`'s insertion order. -/
def sectionFMEntries (fm : SectionFrontmatter) : List (String × FMValue) :=
  optEntry "todoist_id" (fm.todoist_id.map .str) ++
  [("todoist_type", .str fm.todoist_type)] ++
  optEntry "title" (fm.title.map .str) ++
  optEntry "todoist_project" (fm.todoist_project.map .str) ++
  optEntry "sync_status" (fm.sync_status.map .str) ++
  optEntry "last_sync" (fm.last_sync.map fun t => .str (isoString t))

/-- `buildTaskContent`: frontmatter only, plus the trailing newline. -/
def buildTaskContent (fm : TaskFrontmatter) : String :=
  serializeFrontmatter (taskFMEntries fm) ++ "\n"

/-- `buildProjectContent`. -/
def buildProjectContent (fm : ProjectFrontmatter) : String :=
  serializeFrontmatter (projectFMEntries fm) ++ "\n"

/-- `buildSectionContent`. -/
def buildSectionContent (fm : SectionFrontmatter) : String :=
  serializeFrontmatter (sectionFMEntries fm) ++ "\n"

/-- `filePath.lastIndexOf('/')` ≥ 0 ? `substring(0, idx)` : default. -/
def dirnameOr (dflt : String) (p : String) : String :=
  if p.data.contains '/' then ⟨((p.data.reverse.dropWhile (· ≠ '/')).drop 1).reverse⟩
  else dflt

/-- `createOrUpdateTaskNote`: reuse a (truthy) existing path, else
derive the path from the sanitized title under the project/section
folder; ensure the sync and task folders exist (in every mode); under
dry-run return the would-be note without touching any file, else
modify the file if one exists at the path and create it otherwise.
The note's `lastModified` is the write-time clock.

`taskNotePaths` is its path computation: the (truthy) existing path
with its folder derived by `lastIndexOf('/')`, or the computed
`<folder>/<sanitized title>.md`. -/
def taskNotePaths (fg : Config) (task : TodoistTask)
    (projectName sectionName existingFilePath : Option String) : String × String :=
  if jsTruthyStr existingFilePath then
    let p := existingFilePath.getD ""
    (p, dirnameOr fg.syncFolderPath p)
  else
    let fileName :=
      sanitizeFileName (if task.content = "" then "Task " ++ task.id else task.content)
    let folderPath := getTaskFolderPath fg projectName sectionName
    (folderPath ++ "/" ++ fileName ++ ".md", folderPath)

/-- The final write of each `createOrUpdate*Note`: skipped entirely
under dry-run, else `vault.modify` if a file already exists at the
path and `vault.create` otherwise. -/
def writeNoteFile (fg : Config) (v : Vault) (path content : String) :
    Vault × List Effect :=
  if fg.dryRun then (v, [])
  else if v.isFile path then (v.write path content, [Effect.modifyFile path content])
  else (v.write path content, [Effect.createFile path content])

/-- The result of materializing one note. -/
structure Materialized (N : Type) where
  note : N
  vault : Vault
  effects : List Effect
deriving DecidableEq, Repr

def createOrUpdateTaskNote (fg : Config) (v : Vault) (now : Nat) (task : TodoistTask)
    (projectName sectionName existingFilePath : Option String) :
    Materialized ObsidianTaskNote :=
  let r1 := ensureSyncFolder fg v
  let pp := taskNotePaths fg task projectName sectionName existingFilePath
  let r2 := ensureFolderAt r1.1 pp.2
  let fm := buildTaskFrontmatter fg now task projectName sectionName
  let content := buildTaskContent fm
  let r3 := writeNoteFile fg r2.1 pp.1 content
  { note := { filePath := pp.1, todoistId := task.id, content := content,
              frontmatter := fm, lastModified := now },
    vault := r3.1, effects := r1.2 ++ r2.2 ++ r3.2 }

/-- `createOrUpdateProjectNote`: the path is always recomputed from
the sanitized current project name (`<root>/<name>/_project.md`); no
existing path is consulted. -/
def createOrUpdateProjectNote (fg : Config) (v : Vault) (now : Nat)
    (project : TodoistProject) : Materialized ObsidianProjectNote :=
  let r1 := ensureSyncFolder fg v
  let projectFolder := fg.syncFolderPath ++ "/" ++ sanitizeFileName project.name
  let filePath := projectFolder ++ "/_project.md"
  let r2 := ensureFolderAt r1.1 projectFolder
  let fm := buildProjectFrontmatter now project
  let content := buildProjectContent fm
  let r3 := writeNoteFile fg r2.1 filePath content
  { note := { filePath := filePath, todoistId := project.id, name := project.name,
              frontmatter := fm, lastModified := now },
    vault := r3.1, effects := r1.2 ++ r2.2 ++ r3.2 }

/-- `createOrUpdateSectionNote`
(`<root>/<project>/<section>/_section.md`, likewise recomputed). -/
def createOrUpdateSectionNote (fg : Config) (v : Vault) (now : Nat)
    (sec : TodoistSection) (projectName : String) :
    Materialized ObsidianSectionNote :=
  let r1 := ensureSyncFolder fg v
  let sectionFolder := fg.syncFolderPath ++ "/" ++ sanitizeFileName projectName ++ "/" ++
    sanitizeFileName sec.name
  let filePath := sectionFolder ++ "/_section.md"
  let r2 := ensureFolderAt r1.1 sectionFolder
  let fm := buildSectionFrontmatter now sec
  let content := buildSectionContent fm
  let r3 := writeNoteFile fg r2.1 filePath content
  { note := { filePath := filePath, todoistId := sec.id, name := sec.name,
              projectId := sec.project_id, frontmatter := fm, lastModified := now },
    vault := r3.1, effects := r1.2 ++ r2.2 ++ r3.2 }

/-- `deleteNote`: nothing under dry-run, else delete the file if one
exists at the path. -/
def deleteNote (fg : Config) (v : Vault) (filePath : String) : Vault × List Effect :=
  if fg.dryRun then (v, [])
  else if v.isFile filePath then (v.deleteFile filePath, [Effect.deleteFile filePath])
  else (v, [])

end FileGenerator

/-! ## `SyncEngine` (src/sync/syncEngine.ts)

The remote HTTP client, the Obsidian metadata cache that `scanVault`
reads, and the host's clocks are collaborators: the engine entry
points take the connection-test result, the fetched payloads, the
scanned Local State and `Date.now()` as parameters and record every
storage/remote call as an `Effect`. -/

namespace SyncEngine

/-- The per-entity outcome of a reconcile step. -/
inductive Decision where
  | created
  | updated
  | skipped
deriving DecidableEq, Repr

/-- Per-kind counters of the reconciliation stats object. -/
structure KindCounts where
  tasks : Nat
  projects : Nat
  sections : Nat
deriving DecidableEq, Repr

/-- All-zero counters. -/
def KindCounts.zero : KindCounts := ⟨0, 0, 0⟩

/-- The `stats` object of `reconcileStates`. -/
structure RecStats where
  created : KindCounts
  updated : KindCounts
  skipped : KindCounts
deriving DecidableEq, Repr

/-- All-zero stats. -/
def RecStats.zero : RecStats := ⟨KindCounts.zero, KindCounts.zero, KindCounts.zero⟩

/-- `stats[result].tasks++`. -/
def RecStats.bumpTasks (s : RecStats) : Decision → RecStats
  | .created => { s with created := { s.created with tasks := s.created.tasks + 1 } }
  | .updated => { s with updated := { s.updated with tasks := s.updated.tasks + 1 } }
  | .skipped => { s with skipped := { s.skipped with tasks := s.skipped.tasks + 1 } }

/-- `stats[result].projects++`. -/
def RecStats.bumpProjects (s : RecStats) : Decision → RecStats
  | .created => { s with created := { s.created with projects := s.created.projects + 1 } }
  | .updated => { s with updated := { s.updated with projects := s.updated.projects + 1 } }
  | .skipped => { s with skipped := { s.skipped with projects := s.skipped.projects + 1 } }

/-- `stats[result].sections++`. -/
def RecStats.bumpSections (s : RecStats) : Decision → RecStats
  | .created => { s with created := { s.created with sections := s.created.sections + 1 } }
  | .updated => { s with updated := { s.updated with sections := s.updated.sections + 1 } }
  | .skipped => { s with skipped := { s.skipped with sections := s.skipped.sections + 1 } }

/-- `parseLastSyncTime`: absent (or unparseable, which the millisecond
model has no inhabitant for) is time zero, "never synced". -/
def parseLastSyncTime : Option Nat → Nat
  | none => 0
  | some t => t

/-- The result of one per-entity reconcile step. -/
structure Reconciled where
  decision : Decision
  obs : ObsidianState
  vault : Vault
  effects : List Effect
deriving DecidableEq, Repr

/-- `reconcileTask`: no note → create; `date_added` newer than the
note's `last_sync` → update at the existing path; else skip. -/
def reconcileTask (fg : FileGenerator.Config) (now : Nat) (task : TodoistTask)
    (projectName sectionName : Option String) (obs : ObsidianState) (v : Vault) :
    Reconciled :=
  match obs.getTaskNote task.id with
  | none =>
    let r := FileGenerator.createOrUpdateTaskNote fg v now task projectName sectionName none
    ⟨.created, obs.setTaskNote task.id r.note, r.vault, r.effects⟩
  | some existingNote =>
    if task.date_added > parseLastSyncTime existingNote.frontmatter.last_sync then
      let r := FileGenerator.createOrUpdateTaskNote fg v now task projectName
        sectionName (some existingNote.filePath)
      ⟨.updated, obs.setTaskNote task.id r.note, r.vault, r.effects⟩
    else ⟨.skipped, obs, v, []⟩

/-- `reconcileProject`: no note → create; name, color or favourite flag
differing → update (path recomputed from the current name); else
skip. -/
def reconcileProject (fg : FileGenerator.Config) (now : Nat) (project : TodoistProject)
    (obs : ObsidianState) (v : Vault) : Reconciled :=
  match obs.getProjectNote project.id with
  | none =>
    let r := FileGenerator.createOrUpdateProjectNote fg v now project
    ⟨.created, obs.setProjectNote project.id r.note, r.vault, r.effects⟩
  | some existingNote =>
    if existingNote.name ≠ project.name ∨
        existingNote.frontmatter.color ≠ some project.color ∨
        existingNote.frontmatter.is_favorite ≠ some project.is_favorite then
      let r := FileGenerator.createOrUpdateProjectNote fg v now project
      ⟨.updated, obs.setProjectNote project.id r.note, r.vault, r.effects⟩
    else ⟨.skipped, obs, v, []⟩

/-- `reconcileSection`: no note → create; name differing → update; else
skip. -/
def reconcileSection (fg : FileGenerator.Config) (now : Nat) (sec : TodoistSection)
    (projectName : String) (obs : ObsidianState) (v : Vault) : Reconciled :=
  match obs.getSectionNote sec.id with
  | none =>
    let r := FileGenerator.createOrUpdateSectionNote fg v now sec projectName
    ⟨.created, obs.setSectionNote sec.id r.note, r.vault, r.effects⟩
  | some existingNote =>
    if existingNote.name ≠ sec.name then
      let r := FileGenerator.createOrUpdateSectionNote fg v now sec projectName
      ⟨.updated, obs.setSectionNote sec.id r.note, r.vault, r.effects⟩
    else ⟨.skipped, obs, v, []⟩

/-- The accumulating state of one `reconcileStates` pass. -/
structure RecPass where
  stats : RecStats
  obs : ObsidianState
  vault : Vault
  effects : List Effect
  projectMap : JsMap String
  sectionMap : JsMap String
deriving DecidableEq, Repr

/-- One project of the first loop: reconcile, count, and record
`id → name` in the lookup map. -/
def reconcileProjectStep (fg : FileGenerator.Config) (now : Nat) (acc : RecPass)
    (project : TodoistProject) : RecPass :=
  let r := reconcileProject fg now project acc.obs acc.vault
  { acc with
    stats := acc.stats.bumpProjects r.decision, obs := r.obs, vault := r.vault,
    effects := acc.effects ++ r.effects,
    projectMap := acc.projectMap.set project.id project.name }

/-- One section of the second loop: reconciled (and counted, and
recorded in the section lookup map) only when the owning project's
name resolved truthily; otherwise nothing at all happens for it. -/
def reconcileSectionStep (fg : FileGenerator.Config) (now : Nat) (acc : RecPass)
    (sec : TodoistSection) : RecPass :=
  let projectName := acc.projectMap.get? sec.project_id
  if jsTruthyStr projectName then
    let r := reconcileSection fg now sec (projectName.getD "") acc.obs acc.vault
    { acc with
      stats := acc.stats.bumpSections r.decision, obs := r.obs, vault := r.vault,
      effects := acc.effects ++ r.effects,
      sectionMap := acc.sectionMap.set sec.id sec.name }
  else acc

/-- One task of the third loop: the project and section names are
looked up (possibly absent) and the task is reconciled regardless. -/
def reconcileTaskStep (fg : FileGenerator.Config) (now : Nat) (acc : RecPass)
    (task : TodoistTask) : RecPass :=
  let projectName := acc.projectMap.get? task.project_id
  let sectionName :=
    match task.section_id with
    | some sid => if sid ≠ "" then acc.sectionMap.get? sid else none
    | none => none
  let r := reconcileTask fg now task projectName sectionName acc.obs acc.vault
  { acc with
    stats := acc.stats.bumpTasks r.decision, obs := r.obs, vault := r.vault,
    effects := acc.effects ++ r.effects }

/-- `reconcileStates`: all projects, then all sections, then all
tasks, in the accessor order of Source A. -/
def reconcileStates (fg : FileGenerator.Config) (now : Nat) (td : TodoistState)
    (obs : ObsidianState) (v : Vault) : RecPass :=
  let p0 : RecPass := ⟨RecStats.zero, obs, v, [], [], []⟩
  let p1 := td.getAllProjects.foldl (reconcileProjectStep fg now) p0
  let p2 := td.getAllSections.foldl (reconcileSectionStep fg now) p1
  td.getAllTasks.foldl (reconcileTaskStep fg now) p2

/-! ### Local-edit extraction (`FrontmatterParser` helpers) -/

/-- A `[x]` occurrence: what the checkbox regex scan reports as a
completed checkbox (`/\[([x\s])\]/g` and `match.includes('x')`). -/
def hasCheckedBox : List Char → Bool
  | '[' :: 'x' :: ']' :: _ => true
  | _ :: cs => hasCheckedBox cs
  | [] => false

/-- `FrontmatterParser.extractCheckboxStatus`. -/
def extractCheckboxStatus (body : String) : Bool := hasCheckedBox body.data

/-- The line scan of `extractTitleFromContent`: first line whose trim
starts with `#`, with `^#+\s*` stripped and the rest trimmed. -/
def extractTitleLines : List String → Option String
  | [] => none
  | l :: ls =>
    let t := trimL l.data
    if t.head? = some '#' then
      some ⟨trimL ((t.dropWhile (· = '#')).dropWhile fun c => jsWhitespace c)⟩
    else extractTitleLines ls

/-- `FrontmatterParser.extractTitleFromContent`. -/
def extractTitleFromContent (body : String) : Option String :=
  extractTitleLines (jsSplitLines body)

/-- `FrontmatterParser.isInSyncScope`: the frontmatter parses and has a
`todoist_id` property (`!== undefined`, not truthiness). -/
def isInSyncScope (content : String) : Bool :=
  match FrontmatterParser.parseFrontmatter content with
  | some (fm, _) => (JsMap.get? fm "todoist_id").isSome
  | none => false

/-- The fields of `extractTaskChanges`'s result that its consumers
read: `frontmatter?.todoist_id`, `frontmatter?.priority`, `completed`
and `title` (a `none` frontmatter field models the `frontmatter: null`
result). -/
structure TaskChanges where
  fmTodoistId : Option FMValue
  fmPriority : Option FMValue
  completed : Option Bool
  title : Option FMValue
deriving DecidableEq, Repr

/-- `FrontmatterParser.extractTaskChanges`: `null` results unless the
frontmatter parses, has a truthy `todoist_id` and is not typed
`project`/`section`; the completion flag comes from the body checkbox
scan and the title from the `title` property, falling back to the
first heading. -/
def extractTaskChanges (content : String) : TaskChanges :=
  match FrontmatterParser.parseFrontmatter content with
  | none => ⟨none, none, some false, none⟩
  | some (fm, body) =>
    let tid := JsMap.get? fm "todoist_id"
    let ttype := JsMap.get? fm "todoist_type"
    if ¬ jsTruthy tid ∨ ttype = some (.str "project") ∨ ttype = some (.str "section") then
      ⟨none, none, some false, none⟩
    else
      let title :=
        if jsTruthy (JsMap.get? fm "title") then JsMap.get? fm "title"
        else (extractTitleFromContent body).map .str
      ⟨tid, JsMap.get? fm "priority", some (extractCheckboxStatus body), title⟩

/-- The fields of `extractProjectChanges`'s result that its consumers
read. -/
structure ProjectChanges where
  fmTodoistId : Option FMValue
  title : Option FMValue
deriving DecidableEq, Repr

/-- `FrontmatterParser.extractProjectChanges`. -/
def extractProjectChanges (content : String) : ProjectChanges :=
  match FrontmatterParser.parseFrontmatter content with
  | none => ⟨none, none⟩
  | some (fm, body) =>
    if JsMap.get? fm "todoist_type" ≠ some (.str "project") then ⟨none, none⟩
    else
      let title :=
        if jsTruthy (JsMap.get? fm "title") then JsMap.get? fm "title"
        else (extractTitleFromContent body).map .str
      ⟨JsMap.get? fm "todoist_id", title⟩

/-! ### Local → remote push -/

/-- `SyncEngine.serializeFrontmatter` (the engine has its own, simpler
serializer used only by `updateFileSyncTimestamp`): strings are quoted
only when they contain a colon, everything else renders bare. -/
def serializeEntryLines : String × FMValue → List String
  | (key, .arr xs) => (key ++ ":") :: xs.map ("  - " ++ ·)
  | (key, .str s) =>
    if s.data.contains ':' then [key ++ ": \"" ++ s ++ "\""]
    else [key ++ ": " ++ s]
  | (key, .num n) => [key ++ ": " ++ jsNumToString n]
  | (key, .numNonInt raw) => [key ++ ": " ++ raw]
  | (key, .bool b) => [key ++ ": " ++ (if b then "true" else "false")]

/-- `SyncEngine.serializeFrontmatter`. -/
def serializeFrontmatter (fm : List (String × FMValue)) : String :=
  "---\n" ++ String.join (((fm.map serializeEntryLines).flatten).map (· ++ "\n")) ++ "---"

/-- `updateFileSyncTimestamp`: re-read the file, stamp `last_sync` and
`sync_status` in its parsed frontmatter, re-serialize with the
engine's serializer and write back (a missing file or unparseable
frontmatter leaves everything untouched — the errors are caught). -/
def updateFileSyncTimestamp (now : Nat) (v : Vault) (path : String) :
    Vault × List Effect :=
  match v.read path with
  | none => (v, [])
  | some content =>
    match FrontmatterParser.parseFrontmatter content with
    | none => (v, [])
    | some (fm, body) =>
      let fm' := FrontmatterParser.insertJs
        (FrontmatterParser.insertJs fm "last_sync" (.str (isoString now)))
        "sync_status" (.str "synced")
      let newContent := serializeFrontmatter fm' ++ "\n" ++ body
      (v.write path newContent, [Effect.modifyFile path newContent])

/-- `syncTaskChangesToTodoist` (`todoistId` is whatever value the
caller read off the frontmatter — `Map.get` misses on non-string
keys): close/reopen on a completion-flag difference, one field-update
call when title or priority differ, then stamp the file's sync
timestamp — each mutation replaced by a log line under dry-run (and
the stamp skipped when the caller passed no file). -/
def syncTaskChangesToTodoist (dry : Bool) (td : TodoistState) (todoistId : FMValue)
    (changes : TaskChanges) (file : Option String) (now : Nat) (v : Vault) :
    Vault × List Effect :=
  match todoistId with
  | .str tid =>
    match td.getTask tid with
    | none => (v, [])
    | some existingTask =>
      let hasCompleted : Bool :=
        match changes.completed with
        | some b => decide (b ≠ existingTask.checked)
        | none => false
      let e1 : List Effect :=
        if hasCompleted && !dry then
          match changes.completed with
          | some true => [Effect.apiCloseTask tid]
          | _ => [Effect.apiReopenTask tid]
        else []
      let titleUpd : Bool :=
        match changes.title with
        | some t => jsTruthy (some t) && decide (t ≠ FMValue.str existingTask.content)
        | none => false
      let prioUpd : Bool :=
        match changes.fmPriority with
        | some pv => decide (pv ≠ FMValue.num existingTask.priority)
        | none => false
      let hasFieldUpdates := titleUpd || prioUpd
      let e2 : List Effect :=
        if hasFieldUpdates && !dry then [Effect.apiUpdateTask tid] else []
      if (hasCompleted || hasFieldUpdates) && !dry then
        match file with
        | some path =>
          let r3 := updateFileSyncTimestamp now v path
          (r3.1, e1 ++ e2 ++ r3.2)
        | none => (v, e1 ++ e2)
      else (v, e1 ++ e2)
  | _ => (v, [])

/-- `syncProjectChangesToTodoist`: one update call when the title
differs from the remote name (issued, as in the source, through the
task-update API). -/
def syncProjectChangesToTodoist (dry : Bool) (td : TodoistState) (todoistId : FMValue)
    (title : Option FMValue) : List Effect :=
  match todoistId with
  | .str tid =>
    match td.getProject tid with
    | none => []
    | some existingProject =>
      let upd : Bool :=
        match title with
        | some t => jsTruthy (some t) && decide (t ≠ FMValue.str existingProject.name)
        | none => false
      if upd && !dry then [Effect.apiUpdateTask tid] else []
  | _ => []

/-- `processFileChange`: read the file (silently skipping a missing
one), check sync scope, then dispatch on the extracted task or project
changes. -/
def processFileChange (dry : Bool) (td : TodoistState) (now : Nat) (v : Vault)
    (path : String) : Vault × List Effect :=
  match v.read path with
  | none => (v, [])
  | some content =>
    if ¬ isInSyncScope content then (v, [])
    else
      let tc := extractTaskChanges content
      if jsTruthy tc.fmTodoistId then
        syncTaskChangesToTodoist dry td (tc.fmTodoistId.getD (.str "")) tc (some path) now v
      else
        let pc := extractProjectChanges content
        if jsTruthy pc.fmTodoistId then
          (v, syncProjectChangesToTodoist dry td (pc.fmTodoistId.getD (.str "")) pc.title)
        else (v, [])

/-- `processPendingChanges`: nothing on an empty queue, else process
every queued path in insertion order (the caller clears the queue). -/
def processPendingChanges (dry : Bool) (td : TodoistState) (now : Nat) (v : Vault)
    (pending : List (String × Nat)) : Vault × List Effect :=
  if pending.isEmpty then (v, [])
  else
    pending.foldl
      (fun (acc : Vault × List Effect) p =>
        let r := processFileChange dry td now acc.1 p.1
        (r.1, acc.2 ++ r.2))
      (v, [])

/-- The changes record `syncTaskToTodoist` builds from a scanned note's
typed frontmatter. -/
def taskChangesOfNote (note : ObsidianTaskNote) : TaskChanges :=
  { fmTodoistId := note.frontmatter.todoist_id.map .str,
    fmPriority := note.frontmatter.priority.map .num,
    completed := note.frontmatter.completed,
    title := note.frontmatter.title.map .str }

/-- `syncToTodoist`: drain the pending queue, then push every note
modified since the previous run's completion timestamp ­— tasks
through `syncTaskToTodoist` (which passes no file, so no timestamp
stamping), projects through `syncProjectToTodoist`.  (After the drain
the pending queue is empty, so the early return fires exactly when all
three modified lists are empty.) -/
def syncToTodoist (dry : Bool) (td : TodoistState) (obs : ObsidianState) (now : Nat)
    (lastSyncTime : Nat) (pending : List (String × Nat)) (v : Vault) :
    Vault × List Effect :=
  let r1 := processPendingChanges dry td now v pending
  let modified := obs.getModifiedSince lastSyncTime
  if modified.1.isEmpty ∧ modified.2.1.isEmpty ∧ modified.2.2.isEmpty then r1
  else
    let r2 :=
      modified.1.foldl
        (fun (acc : Vault × List Effect) note =>
          let r := syncTaskChangesToTodoist dry td (.str note.todoistId)
            (taskChangesOfNote note) none now acc.1
          (r.1, acc.2 ++ r.2))
        (r1.1, [])
    let e3 :=
      modified.2.1.foldl
        (fun acc note =>
          acc ++ syncProjectChangesToTodoist dry td (.str note.todoistId)
            (note.frontmatter.title.map .str))
        []
    (r2.1, r1.2 ++ r2.2 ++ e3)

/-! ### Run entry points -/

/-- `SyncEngineSettings`. -/
structure Settings where
  todoistApiToken : String
  syncFolderPath : String
  scopeTag : String
  enabledProperties : FileGenerator.EnabledProps
  realTimeSyncEnabled : Bool
  dryRunMode : Bool
deriving DecidableEq, Repr

/-- The `FileGenerator` the engine constructs from its settings (the
dry-run flag is propagated). -/
def Settings.fgConfig (s : Settings) : FileGenerator.Config :=
  { syncFolderPath := s.syncFolderPath, scopeTag := s.scopeTag,
    enabledProperties := s.enabledProperties, dryRun := s.dryRunMode }

/-- The engine's own mutable state. -/
structure Engine where
  settings : Settings
  todoistState : TodoistState
  obsidianState : ObsidianState
  isRunning : Bool
  lastSyncTime : Nat
  pendingChanges : List (String × Nat)
deriving DecidableEq, Repr

/-- A `{ success, message }` run outcome. -/
structure Outcome where
  success : Bool
  message : String
deriving DecidableEq, Repr

/-- The remote collaborator's behaviour during one run:
`incrementalResponse = none` models a sync-API error (falling back to
REST), and the `rest*` lists are the full REST fetch. -/
structure ApiEnv where
  connectionOk : Bool
  incrementalResponse : Option TodoistSyncResponse
  restProjects : List TodoistProject
  restTasks : List TodoistTask
  restSections : List TodoistSection
  restLabels : List TodoistLabel
deriving DecidableEq, Repr

/-- `syncFromTodoist`: incremental sync when no full sync is needed and
a real token is held (and the sync API call succeeds); otherwise the
full REST fetch replayed as a synthetic full payload. -/
def syncFromTodoist (api : ApiEnv) (now : Nat) (td : TodoistState) : TodoistState :=
  match
    (if !(td.needsFullSync now) && decide (td.syncState.syncToken ≠ "*") then
      api.incrementalResponse
    else none) with
  | some r => td.updateFromSync now r
  | none =>
    td.updateFromSync now
      { sync_token := "rest_" ++ toString now, full_sync := true,
        projects := api.restProjects, items := api.restTasks,
        sections := api.restSections, labels := api.restLabels,
        temp_id_mapping := [] }

/-- The observable result of a pipeline run. -/
structure RunResult where
  outcome : Outcome
  stats : RecStats
  engine : Engine
  vault : Vault
  effects : List Effect
deriving DecidableEq, Repr

/-- `performSync` (`scanned` is the Local State `scanObsidianChanges`
rebuilds at the metadata-cache boundary): single-flight guard, token
guard, connection test, fetch, scan, push local→remote, reconcile
remote→local, completion timestamp. -/
def performSync (eng : Engine) (api : ApiEnv) (scanned : ObsidianState) (v : Vault)
    (now : Nat) : RunResult :=
  if eng.isRunning then ⟨⟨false, "Sync already in progress"⟩, RecStats.zero, eng, v, []⟩
  else if eng.settings.todoistApiToken = "" then
    ⟨⟨false, "Todoist API token not configured"⟩, RecStats.zero, eng, v, []⟩
  else if !api.connectionOk then
    ⟨⟨false, "Sync failed: Failed to connect to Todoist API"⟩, RecStats.zero, eng, v, []⟩
  else
    let td1 := syncFromTodoist api now eng.todoistState
    let obs1 := scanned
    let r1 := syncToTodoist eng.settings.dryRunMode td1 obs1 now eng.lastSyncTime
      eng.pendingChanges v
    let pass := reconcileStates eng.settings.fgConfig now td1 obs1 r1.1
    ⟨⟨true, "Sync completed successfully"⟩, pass.stats,
     { eng with
       todoistState := td1, obsidianState := pass.obs, lastSyncTime := now,
       pendingChanges := [] },
     pass.vault, r1.2 ++ pass.effects⟩

/-- `fetchFromTodoist` (the fetch-only diagnostic entry point). -/
def fetchFromTodoist (eng : Engine) (api : ApiEnv) (now : Nat) : Outcome × Engine :=
  if eng.isRunning then (⟨false, "Sync already in progress"⟩, eng)
  else if eng.settings.todoistApiToken = "" then
    (⟨false, "Todoist API token not configured"⟩, eng)
  else
    (⟨true, "Fetched from Todoist"⟩,
     { eng with
       todoistState := syncFromTodoist api now eng.todoistState,
       lastSyncTime := now })

/-- `scan` (the scan-only diagnostic entry point). -/
def scan (eng : Engine) (scanned : ObsidianState) (now : Nat) : Outcome × Engine :=
  if eng.isRunning then (⟨false, "Sync already in progress"⟩, eng)
  else
    (⟨true, "Scanned Obsidian"⟩,
     { eng with obsidianState := scanned, lastSyncTime := now })

/-- `pull`: fetch + scan + reconcile, skipping the local→remote push. -/
def pull (eng : Engine) (api : ApiEnv) (scanned : ObsidianState) (v : Vault) (now : Nat) :
    RunResult :=
  if eng.isRunning then ⟨⟨false, "Sync already in progress"⟩, RecStats.zero, eng, v, []⟩
  else if eng.settings.todoistApiToken = "" then
    ⟨⟨false, "Todoist API token not configured"⟩, RecStats.zero, eng, v, []⟩
  else
    let td1 := syncFromTodoist api now eng.todoistState
    let pass := reconcileStates eng.settings.fgConfig now td1 scanned v
    ⟨⟨true, "Pull completed"⟩, pass.stats,
     { eng with todoistState := td1, obsidianState := pass.obs, lastSyncTime := now },
     pass.vault, pass.effects⟩

end SyncEngine

/-! ## Concrete fixtures

Sample inputs used by counterexamples and witnesses. -/

namespace Fix

/-- All per-field toggles on. -/
def props : FileGenerator.EnabledProps := ⟨true, true, true, true, true, true⟩

/-- Engine settings with a configured token, dry-run off. -/
def settings : SyncEngine.Settings :=
  { todoistApiToken := "tok123", syncFolderPath := "Todoist", scopeTag := "#todoist",
    enabledProperties := props, realTimeSyncEnabled := false, dryRunMode := false }

/-- A file-generator configuration, dry-run off. -/
def fg : FileGenerator.Config :=
  { syncFolderPath := "Todoist", scopeTag := "#todoist", enabledProperties := props,
    dryRun := false }

/-- An empty vault. -/
def vault : Vault := ⟨[], []⟩

/-- A sample project. -/
def p1 : TodoistProject :=
  { id := "p1", name := "P1", color := "blue", parent_id := none, child_order := 1,
    collapsed := false, shared := false, is_deleted := false, is_archived := false,
    is_favorite := false, sync_id := none, inbox_project := none, team_inbox := none }

/-- A sample task under `p1`. -/
def t1 : TodoistTask :=
  { id := "t1", user_id := 1, project_id := "p1", content := "T1", description := "",
    priority := 1, due := none, parent_id := none, child_order := 1, section_id := none,
    day_order := 1, collapsed := false, labels := [], added_by_uid := 1,
    assigned_by_uid := none, responsible_uid := none, checked := false,
    in_history := false, is_deleted := false, date_added := 5000,
    date_completed := none, sync_id := none }

/-- A sample section under `p1`. -/
def s1 : TodoistSection :=
  { id := "s1", name := "S1", project_id := "p1", section_order := 1, collapsed := false,
    sync_id := none, is_deleted := false, date_added := "2024-01-01T00:00:00Z" }

/-- Remote state holding exactly `p1` and `t1`, with a live token. -/
def td : TodoistState :=
  { tasks := [("t1", t1)], projects := [("p1", p1)], sections := [], labels := [],
    syncState := ⟨"tok", 1, 1⟩ }

/-- Remote state holding `t1` but no project that resolves its
`project_id`. -/
def tdOrphan : TodoistState :=
  { tasks := [("t1", t1)], projects := [], sections := [], labels := [],
    syncState := ⟨"tok", 1, 1⟩ }

/-- A scanned project note for `p1`, materialized when the project was
still named `A`. -/
def p1NoteOld : ObsidianProjectNote :=
  { filePath := "Todoist/A/_project.md", todoistId := "p1", name := "A",
    frontmatter :=
      { todoist_id := some "p1", todoist_type := "project", title := some "A",
        color := some "blue", parent_project := none, is_favorite := some false,
        sync_status := some "synced", last_sync := some 100 },
    lastModified := 100 }

/-- Local state holding only that old-named project note. -/
def obsWithP1Old : ObsidianState :=
  { taskNotes := [], projectNotes := [("p1", p1NoteOld)], sectionNotes := [],
    filePathToTodoistId := [("Todoist/A/_project.md", "p1")] }

/-- A vault holding the old-named project document. -/
def vaultWithOld : Vault :=
  ⟨["Todoist", "Todoist/A"], [("Todoist/A/_project.md", "old contents")]⟩

/-- `p1` after a remote rename to `B`. -/
def p1RenamedB : TodoistProject := { p1 with name := "B" }

/-- `t1` tombstoned. -/
def t1del : TodoistTask := { t1 with is_deleted := true }

/-- A payload that tombstones `t1` and then re-adds it: the id appears
twice, the deleted record first. -/
def respDelThenAdd : TodoistSyncResponse :=
  { sync_token := "tok2", full_sync := false, projects := [], items := [t1del, t1],
    sections := [], labels := [], temp_id_mapping := [] }

/-- A payload holding only the tombstone for `t1`. -/
def respDelOnly : TodoistSyncResponse :=
  { sync_token := "tok3", full_sync := false, projects := [], items := [t1del],
    sections := [], labels := [], temp_id_mapping := [] }

/-- An idle engine over `td`. -/
def engine : SyncEngine.Engine :=
  { settings := settings, todoistState := td, obsidianState := ObsidianState.empty,
    isRunning := false, lastSyncTime := 0, pendingChanges := [] }

/-- The same engine while a run is in flight. -/
def engineRunning : SyncEngine.Engine := { engine with isRunning := true }

/-- A healthy remote with nothing to fetch. -/
def api : SyncEngine.ApiEnv := ⟨true, none, [], [], [], []⟩

end Fix

/-! ## Note/entity agreement predicates

The per-entity conditions under which the reconcile step decides
"skip": used to state reconcile idempotence. -/

/-- The local project note exists and agrees with the remote project
on the fields `reconcileProject` compares. -/
def ProjNoteMatches (obs : ObsidianState) (p : TodoistProject) : Prop :=
  ∃ n, obs.getProjectNote p.id = some n ∧ n.name = p.name ∧
    n.frontmatter.color = some p.color ∧ n.frontmatter.is_favorite = some p.is_favorite

/-- The local section note exists and agrees on the name. -/
def SectNoteMatches (obs : ObsidianState) (s : TodoistSection) : Prop :=
  ∃ n, obs.getSectionNote s.id = some n ∧ n.name = s.name

/-- The local task note exists and its `last_sync` is at or after the
task's `date_added`. -/
def TaskNoteSynced (obs : ObsidianState) (t : TodoistTask) : Prop :=
  ∃ n, obs.getTaskNote t.id = some n ∧
    t.date_added ≤ SyncEngine.parseLastSyncTime n.frontmatter.last_sync

/-- The project-name lookup map a reconcile pass builds from Source A
(a pure function of the remote state). -/
def projectNameMap (td : TodoistState) : JsMap String :=
  td.getAllProjects.foldl (fun m p => m.set p.id p.name) []

/-! ## Round-trippable property bags

The fragment of the bag space on which the serializer/parser pair is a
codec: keys that survive the parser's trimming and colon split, and
scalar values whose serialized spelling the parser maps back to the
same value. -/

/-- A key the codec transports faithfully: nonempty, trim-stable, no
colon (the parser splits at the first one), no newline (the serializer
would break the line), and not opening a `#` comment. -/
def SerKey (k : String) : Prop :=
  k ≠ "" ∧ trimL k.data = k.data ∧ ':' ∉ k.data ∧ '\n' ∉ k.data ∧
    k.data.head? ≠ some '#'

/-- A value the codec transports faithfully: booleans, integer
numbers, and single-line quote-free strings that are not spelled like
a boolean, an opening bracket, or a number. -/
def SerVal : FMValue → Prop
  | .str s => '\n' ∉ s.data ∧ '"' ∉ s.data ∧ s ≠ "true" ∧ s ≠ "false" ∧
      s.data.head? ≠ some '[' ∧ ¬ (jsIsNumeric s.data = true ∧ s ≠ "")
  | .num _ => True
  | .numNonInt _ => False
  | .bool _ => True
  | .arr _ => False

instance : ∀ k, Decidable (SerKey k) := fun k => by
  unfold SerKey; infer_instance

instance : ∀ v, Decidable (SerVal v) := fun v => by
  cases v <;> (unfold SerVal; infer_instance)

/-!
# Theorems

Helper lemmas first, then, per claim, the counterexample/amended or
confirmed theorem and its witness.
-/

/-! ### Association-map helper lemmas -/

theorem jsMap_get_nil {α} (k : String) : JsMap.get? ([] : JsMap α) k = none := rfl

theorem jsMap_get_singleton {α} (k : String) (x : α) :
    JsMap.get? [(k, x)] k = some x := by
  simp [JsMap.get?]

theorem jsMap_set_nil {α} (k : String) (x : α) :
    JsMap.set ([] : JsMap α) k x = [(k, x)] := rfl

/-- C9: `sanitizeFileName` applies, in order, markdown-link collapse,
the `<>:"/\|?*` class and dot replacement, trim, truncation to 100,
underscore-run collapse and the `untitled` fallback; in particular on
the three exemplar inputs it returns `"Read Guide and take notes"`,
`"untitled"` and `"a_b"`. -/
theorem c9_sanitize_examples :
    FileGenerator.sanitizeFileName "Read [Guide](https://x.y) and take notes" =
        "Read Guide and take notes" ∧
    FileGenerator.sanitizeFileName "" = "untitled" ∧
    FileGenerator.sanitizeFileName ("a" ++ ⟨List.replicate 50 '.'⟩ ++ "b") = "a_b" :=
  ⟨by decide, by decide, by decide⟩

/-- C8: while a run is in flight (`isRunning = true`), each of the four
entry points — `performSync`, `fetchFromTodoist`, `scan`, `pull` —
returns the in-progress failure outcome immediately, executes no
pipeline step (no effects), and leaves the engine state (pending queue
included) and the vault untouched. -/
theorem c8_entry_points_reject_while_running
    (eng : SyncEngine.Engine) (api : SyncEngine.ApiEnv) (scanned : ObsidianState)
    (v : Vault) (now : Nat) (h : eng.isRunning = true) :
    SyncEngine.performSync eng api scanned v now =
      ⟨⟨false, "Sync already in progress"⟩, SyncEngine.RecStats.zero, eng, v, []⟩ ∧
    SyncEngine.fetchFromTodoist eng api now = (⟨false, "Sync already in progress"⟩, eng) ∧
    SyncEngine.scan eng scanned now = (⟨false, "Sync already in progress"⟩, eng) ∧
    SyncEngine.pull eng api scanned v now =
      ⟨⟨false, "Sync already in progress"⟩, SyncEngine.RecStats.zero, eng, v, []⟩ := by
  refine ⟨?_, ?_, ?_, ?_⟩ <;>
    simp [SyncEngine.performSync, SyncEngine.fetchFromTodoist, SyncEngine.scan,
      SyncEngine.pull, h]

/-- Witness for C8 at a concrete in-flight engine. -/
theorem c8_entry_points_reject_while_running_witness :
    Fix.engineRunning.isRunning = true ∧
    SyncEngine.performSync Fix.engineRunning Fix.api ObsidianState.empty Fix.vault 7 =
      ⟨⟨false, "Sync already in progress"⟩, SyncEngine.RecStats.zero, Fix.engineRunning,
        Fix.vault, []⟩ :=
  ⟨rfl,
   (c8_entry_points_reject_while_running Fix.engineRunning Fix.api ObsidianState.empty
     Fix.vault 7 rfl).1⟩

/-- C2 (counterexample): with a task whose owning project id resolves
to no reconciled project, the reconcile pass does not skip the task —
it decides "created" for it and writes a document. -/
theorem c2_counterexample :
    Fix.tdOrphan.getAllProjects = [] ∧
    (SyncEngine.reconcileStates Fix.fg 9999 Fix.tdOrphan ObsidianState.empty
        Fix.vault).stats.created.tasks = 1 ∧
    ((SyncEngine.reconcileStates Fix.fg 9999 Fix.tdOrphan ObsidianState.empty
        Fix.vault).effects.filter Effect.isDocWrite).length = 1 :=
  ⟨by decide, by decide, by decide⟩

/-- C2 (amended): a task whose owning project id does not resolve is
still reconciled in the same pass — its document is materialized
directly under the sync root, with no project or section folder, and
it contributes a created decision; it is sections with unresolved
project ids whose reconciliation is skipped for the pass (no decision,
no state change, no write). -/
theorem c2_amended
    (fg : FileGenerator.Config) (now : Nat) (ss : SyncState) (task : TodoistTask)
    (sec : TodoistSection) (obs : ObsidianState) (v : Vault)
    (htask : task.is_deleted = false) (hsec : sec.is_deleted = false) :
    ((SyncEngine.reconcileStates fg now
        { tasks := [(task.id, task)], projects := [], sections := [], labels := [],
          syncState := ss }
        ObsidianState.empty v).stats.created.tasks = 1 ∧
     ((SyncEngine.reconcileStates fg now
        { tasks := [(task.id, task)], projects := [], sections := [], labels := [],
          syncState := ss }
        ObsidianState.empty v).obs.getTaskNote task.id).map (·.filePath) =
       some (fg.syncFolderPath ++ "/" ++
         FileGenerator.sanitizeFileName
           (if task.content = "" then "Task " ++ task.id else task.content) ++ ".md")) ∧
    SyncEngine.reconcileStates fg now
        { tasks := [], projects := [], sections := [(sec.id, sec)], labels := [],
          syncState := ss }
        obs v = ⟨SyncEngine.RecStats.zero, obs, v, [], [], []⟩ := by
  constructor
  · simp [SyncEngine.reconcileStates, TodoistState.getAllTasks, TodoistState.getAllProjects,
      TodoistState.getAllSections, JsMap.values, htask, SyncEngine.reconcileTaskStep,
      SyncEngine.reconcileTask, ObsidianState.getTaskNote, ObsidianState.empty,
      jsMap_get_nil, jsTruthyStr, SyncEngine.RecStats.bumpTasks,
      SyncEngine.RecStats.zero, SyncEngine.KindCounts.zero,
      FileGenerator.createOrUpdateTaskNote, FileGenerator.taskNotePaths,
      FileGenerator.getTaskFolderPath, ObsidianState.setTaskNote, JsMap.set,
      JsMap.get?]
  · simp [SyncEngine.reconcileStates, TodoistState.getAllTasks, TodoistState.getAllProjects,
      TodoistState.getAllSections, JsMap.values, hsec, SyncEngine.reconcileSectionStep,
      jsMap_get_nil, jsTruthyStr]

/-- Witness for C2 (amended) at the concrete orphan task. -/
theorem c2_amended_witness :
    Fix.t1.is_deleted = false ∧ Fix.s1.is_deleted = false ∧
    (SyncEngine.reconcileStates Fix.fg 9999
        { tasks := [("t1", Fix.t1)], projects := [], sections := [], labels := [],
          syncState := ⟨"tok", 1, 1⟩ }
        ObsidianState.empty Fix.vault).stats.created.tasks = 1 :=
  ⟨rfl, rfl,
   (c2_amended Fix.fg 9999 ⟨"tok", 1, 1⟩ Fix.t1 Fix.s1 ObsidianState.empty Fix.vault
     rfl rfl).1.1⟩

/-- C3 (counterexample): for projects the anti-duplication contract
fails — re-materializing project `p1` (existing document at
`Todoist/A/_project.md` recorded in Local State) after a remote rename
to `B` writes `Todoist/B/_project.md` and leaves the old document in
place: two files for the one entity. -/
theorem c3_counterexample :
    (SyncEngine.reconcileProject Fix.fg 200 Fix.p1RenamedB Fix.obsWithP1Old
        Fix.vaultWithOld).decision = SyncEngine.Decision.updated ∧
    ((SyncEngine.reconcileProject Fix.fg 200 Fix.p1RenamedB Fix.obsWithP1Old
        Fix.vaultWithOld).obs.getProjectNote "p1").map (·.filePath) =
      some "Todoist/B/_project.md" ∧
    (SyncEngine.reconcileProject Fix.fg 200 Fix.p1RenamedB Fix.obsWithP1Old
        Fix.vaultWithOld).vault.isFile "Todoist/A/_project.md" = true ∧
    (SyncEngine.reconcileProject Fix.fg 200 Fix.p1RenamedB Fix.obsWithP1Old
        Fix.vaultWithOld).vault.isFile "Todoist/B/_project.md" = true :=
  ⟨by decide, by decide, by decide, by decide⟩

/-- C3 (amended): the anti-duplication contract holds for tasks: with a
(nonempty) existing path supplied from Local State, re-materializing
the task — any title included — returns a note at exactly that path and
every document write it issues targets that path (so no second file for
the entity can appear); projects and sections take no existing path and
recompute theirs from the current sanitized name, so a rename leaves
the old document behind next to the new one. -/
theorem c3_amended
    (fg : FileGenerator.Config) (v : Vault) (now : Nat) (task : TodoistTask)
    (projectName sectionName : Option String) (p : String) (hp : p ≠ "") :
    (FileGenerator.createOrUpdateTaskNote fg v now task projectName sectionName
        (some p)).note.filePath = p ∧
    ∀ e ∈ (FileGenerator.createOrUpdateTaskNote fg v now task projectName sectionName
        (some p)).effects, Effect.isDocWrite e = true →
      e = Effect.modifyFile p (FileGenerator.createOrUpdateTaskNote fg v now task
            projectName sectionName (some p)).note.content ∨
      e = Effect.createFile p (FileGenerator.createOrUpdateTaskNote fg v now task
            projectName sectionName (some p)).note.content := by
  have hpath : (FileGenerator.taskNotePaths fg task projectName sectionName (some p)).1 = p := by
    simp [FileGenerator.taskNotePaths, jsTruthyStr, hp]
  constructor
  · simp [FileGenerator.createOrUpdateTaskNote, hpath]
  · intro e he hw
    simp only [FileGenerator.createOrUpdateTaskNote, List.mem_append] at he
    rcases he with (he | he) | he
    · exact absurd hw (by
        revert he
        simp [FileGenerator.ensureSyncFolder, FileGenerator.ensureFolderAt]
        split <;> simp_all [Effect.isDocWrite])
    · exact absurd hw (by
        revert he
        simp [FileGenerator.ensureFolderAt]
        split <;> simp_all [Effect.isDocWrite])
    · revert he
      simp only [FileGenerator.writeNoteFile, FileGenerator.createOrUpdateTaskNote, hpath]
      split
      · simp
      · split <;> · intro he; simp_all [hpath]

/-- Witness for C3 (amended) at a concrete existing path. -/
theorem c3_amended_witness :
    ("Todoist/A/T1.md" : String) ≠ "" ∧
    (FileGenerator.createOrUpdateTaskNote Fix.fg Fix.vault 300 Fix.t1 none none
        (some "Todoist/A/T1.md")).note.filePath = "Todoist/A/T1.md" :=
  ⟨by decide,
   (c3_amended Fix.fg Fix.vault 300 Fix.t1 none none "Todoist/A/T1.md" (by decide)).1⟩

/-- Each per-project step of `reconcileStates` only appends to the
accumulated effect list. -/
theorem reconcileProjectStep_effects (fg : FileGenerator.Config) (now : Nat)
    (acc : SyncEngine.RecPass) (p : TodoistProject) :
    ∃ e, (SyncEngine.reconcileProjectStep fg now acc p).effects = acc.effects ++ e :=
  ⟨_, rfl⟩

/-- Each per-section step only appends to the effect list. -/
theorem reconcileSectionStep_effects (fg : FileGenerator.Config) (now : Nat)
    (acc : SyncEngine.RecPass) (x : TodoistSection) :
    ∃ e, (SyncEngine.reconcileSectionStep fg now acc x).effects = acc.effects ++ e := by
  by_cases h : jsTruthyStr (JsMap.get? acc.projectMap x.project_id) = true
  · exact ⟨(SyncEngine.reconcileSection fg now x
      ((JsMap.get? acc.projectMap x.project_id).getD "") acc.obs acc.vault).effects,
      by simp [SyncEngine.reconcileSectionStep, h]⟩
  · exact ⟨[], by simp [SyncEngine.reconcileSectionStep, h]⟩

/-- Each per-task step only appends to the effect list. -/
theorem reconcileTaskStep_effects (fg : FileGenerator.Config) (now : Nat)
    (acc : SyncEngine.RecPass) (t : TodoistTask) :
    ∃ e, (SyncEngine.reconcileTaskStep fg now acc t).effects = acc.effects ++ e :=
  ⟨_, rfl⟩

/-- Folding effect-appending steps only appends to the effect list. -/
theorem recPass_foldl_effects {β} (f : SyncEngine.RecPass → β → SyncEngine.RecPass)
    (hf : ∀ acc x, ∃ e, (f acc x).effects = acc.effects ++ e) :
    ∀ (l : List β) (acc : SyncEngine.RecPass),
      ∃ e, (l.foldl f acc).effects = acc.effects ++ e := by
  intro l
  induction l with
  | nil => exact fun acc => ⟨[], by simp⟩
  | cons x xs ih =>
    intro acc
    obtain ⟨e1, h1⟩ := hf acc x
    obtain ⟨e2, h2⟩ := ih (f acc x)
    exact ⟨e1 ++ e2, by rw [List.foldl_cons, h2, h1, List.append_assoc]⟩

/-- C6: on a Remote State holding project `P1` and task `T1` under it,
with no matching local documents, one reconcile pass creates exactly
one project document and one task document, the project document
first; and in every pass the effect trace is the project phase's,
extended by the section phase's, extended by the task phase's —
projects, then sections, then tasks. -/
theorem c6_reconcile_order :
    ((SyncEngine.reconcileStates Fix.fg 9999 Fix.td ObsidianState.empty
        Fix.vault).stats =
      ⟨⟨1, 1, 0⟩, ⟨0, 0, 0⟩, ⟨0, 0, 0⟩⟩ ∧
     ((SyncEngine.reconcileStates Fix.fg 9999 Fix.td ObsidianState.empty
        Fix.vault).effects.filter Effect.isDocWrite).map Effect.path =
      ["Todoist/P1/_project.md", "Todoist/P1/T1.md"]) ∧
    ∀ (fg : FileGenerator.Config) (now : Nat) (td : TodoistState) (obs : ObsidianState)
      (v : Vault),
      ∃ e2 e3,
        (td.getAllSections.foldl (SyncEngine.reconcileSectionStep fg now)
            (td.getAllProjects.foldl (SyncEngine.reconcileProjectStep fg now)
              ⟨SyncEngine.RecStats.zero, obs, v, [], [], []⟩)).effects =
          (td.getAllProjects.foldl (SyncEngine.reconcileProjectStep fg now)
            ⟨SyncEngine.RecStats.zero, obs, v, [], [], []⟩).effects ++ e2 ∧
        (SyncEngine.reconcileStates fg now td obs v).effects =
          (td.getAllProjects.foldl (SyncEngine.reconcileProjectStep fg now)
            ⟨SyncEngine.RecStats.zero, obs, v, [], [], []⟩).effects ++ e2 ++ e3 := by
  refine ⟨⟨by decide, by decide⟩, ?_⟩
  intro fg now td obs v
  obtain ⟨e2, h2⟩ := recPass_foldl_effects _ (reconcileSectionStep_effects fg now)
    td.getAllSections
    (td.getAllProjects.foldl (SyncEngine.reconcileProjectStep fg now)
      ⟨SyncEngine.RecStats.zero, obs, v, [], [], []⟩)
  obtain ⟨e3, h3⟩ := recPass_foldl_effects _ (reconcileTaskStep_effects fg now)
    td.getAllTasks
    (td.getAllSections.foldl (SyncEngine.reconcileSectionStep fg now)
      (td.getAllProjects.foldl (SyncEngine.reconcileProjectStep fg now)
        ⟨SyncEngine.RecStats.zero, obs, v, [], [], []⟩))
  refine ⟨e2, e3, h2, ?_⟩
  show (td.getAllTasks.foldl (SyncEngine.reconcileTaskStep fg now) _).effects = _
  rw [h3, h2, List.append_assoc]

/-- Unfolding lemma for `get?` on a nonempty map. -/
theorem jsMap_get_cons {α} (p : String × α) (m : JsMap α) (k : String) :
    JsMap.get? (p :: m) k = if p.1 = k then some p.2 else JsMap.get? m k := rfl

/-- `get?` over the in-place-update branch of `set`. -/
theorem jsMap_get_map_replace {α} (m : JsMap α) (k : String) (v : α)
    (hm : m.any (fun q => decide (q.1 = k)) = true) :
    JsMap.get? (m.map fun q => if q.1 = k then (k, v) else q) k = some v := by
  induction m with
  | nil => simp at hm
  | cons p m ih =>
    by_cases hpk : p.1 = k
    · rw [List.map_cons, if_pos hpk, jsMap_get_cons, if_pos rfl]
    · have hm' : m.any (fun q => decide (q.1 = k)) = true := by
        simpa [hpk] using hm
      rw [List.map_cons, if_neg hpk, jsMap_get_cons, if_neg hpk]
      exact ih hm'

/-- `get?` over the append branch of `set` (the key is new). -/
theorem jsMap_get_append_single {α} (m : JsMap α) (k : String) (v : α)
    (hm : ¬ m.any (fun q => decide (q.1 = k)) = true) :
    JsMap.get? (m ++ [(k, v)]) k = some v := by
  induction m with
  | nil => simp [JsMap.get?]
  | cons p m ih =>
    have hpk : ¬ p.1 = k := fun hc => hm (by simp [hc])
    have hm' : ¬ m.any (fun q => decide (q.1 = k)) = true := fun hc => hm (by simp [hc])
    rw [List.cons_append, jsMap_get_cons, if_neg hpk]
    exact ih hm'

/-- `set` stores the value under the key. -/
theorem jsMap_get_set_self {α} (m : JsMap α) (k : String) (v : α) :
    JsMap.get? (m.set k v) k = some v := by
  by_cases hm : m.any (fun q => decide (q.1 = k)) = true
  · rw [JsMap.set, if_pos hm]
    exact jsMap_get_map_replace m k v hm
  · rw [JsMap.set, if_neg hm]
    exact jsMap_get_append_single m k v hm

/-- `set` leaves other keys alone. -/
theorem jsMap_get_set_ne {α} (m : JsMap α) (k k' : String) (v : α) (h : k' ≠ k) :
    JsMap.get? (m.set k v) k' = JsMap.get? m k' := by
  by_cases hm : m.any (fun q => decide (q.1 = k)) = true
  · rw [JsMap.set, if_pos hm]
    clear hm
    induction m with
    | nil => simp
    | cons p m ih =>
      by_cases hpk : p.1 = k
      · have hp' : ¬ p.1 = k' := by rw [hpk]; exact Ne.symm h
        rw [List.map_cons, if_pos hpk, jsMap_get_cons, jsMap_get_cons, if_neg hp',
          if_neg (show ¬ ((k, v) : String × α).1 = k' from Ne.symm h)]
        exact ih
      · rw [List.map_cons, if_neg hpk, jsMap_get_cons, jsMap_get_cons]
        by_cases hpk' : p.1 = k'
        · rw [if_pos hpk', if_pos hpk']
        · rw [if_neg hpk', if_neg hpk']
          exact ih
  · rw [JsMap.set, if_neg hm]
    induction m with
    | nil => simp [JsMap.get?, Ne.symm h]
    | cons p m ih =>
      have hm' : ¬ m.any (fun q => decide (q.1 = k)) = true := fun hc => hm (by simp [hc])
      rw [List.cons_append, jsMap_get_cons, jsMap_get_cons]
      by_cases hpk' : p.1 = k'
      · rw [if_pos hpk', if_pos hpk']
      · rw [if_neg hpk', if_neg hpk']
        exact ih hm'

/-- `delete` removes the key. -/
theorem jsMap_get_del_self {α} (m : JsMap α) (k : String) :
    JsMap.get? (m.del k) k = none := by
  induction m with
  | nil => rfl
  | cons p m ih =>
    by_cases hpk : p.1 = k
    · rw [JsMap.del, List.filter_cons_of_neg (by simp [hpk])]
      exact ih
    · rw [JsMap.del, List.filter_cons_of_pos (by simp [hpk]), jsMap_get_cons, if_neg hpk]
      exact ih

/-- `delete` leaves other keys alone. -/
theorem jsMap_get_del_ne {α} (m : JsMap α) (k k' : String) (h : k' ≠ k) :
    JsMap.get? (m.del k) k' = JsMap.get? m k' := by
  induction m with
  | nil => rfl
  | cons p m ih =>
    by_cases hpk : p.1 = k
    · have hp' : ¬ p.1 = k' := by rw [hpk]; exact Ne.symm h
      rw [JsMap.del, List.filter_cons_of_neg (by simp [hpk]), jsMap_get_cons, if_neg hp']
      exact ih
    · rw [JsMap.del, List.filter_cons_of_pos (by simp [hpk]), jsMap_get_cons, jsMap_get_cons]
      by_cases hpk' : p.1 = k'
      · rw [if_pos hpk', if_pos hpk']
      · rw [if_neg hpk', if_neg hpk']
        exact ih

/-- Lookup after a replay fold: the last payload record for the key
decides the entry (tombstone → absent, else that record); keys the
payload does not mention keep their old entry. -/
theorem applyUpserts_get {α} (key : α → String) (isDel : α → Bool) (k : String) :
    ∀ (es : List α) (m : JsMap α),
      JsMap.get? (JsMap.applyUpserts key isDel m es) k =
        match lastMatch (fun e => decide (key e = k)) es with
        | some e => if isDel e then none else some e
        | none => JsMap.get? m k := by
  intro es
  induction es with
  | nil => intro m; rfl
  | cons e es ih =>
    intro m
    have hstep : JsMap.applyUpserts key isDel m (e :: es) =
        JsMap.applyUpserts key isDel
          (if isDel e then m.del (key e) else m.set (key e) e) es := rfl
    rw [hstep, ih]
    cases hlm : lastMatch (fun x => decide (key x = k)) es with
    | some y => simp only [lastMatch, hlm]
    | none =>
      simp only [lastMatch, hlm]
      by_cases hek : key e = k
      · rw [if_pos (show decide (key e = k) = true by simp [hek])]
        show JsMap.get? (if isDel e = true then m.del (key e) else m.set (key e) e) k =
          if isDel e = true then none else some e
        by_cases hdel : isDel e = true
        · rw [if_pos hdel, if_pos hdel, ← hek]
          exact jsMap_get_del_self m (key e)
        · rw [if_neg hdel, if_neg hdel, ← hek]
          exact jsMap_get_set_self m (key e) e
      · rw [if_neg (show ¬ decide (key e = k) = true by simp [hek])]
        show JsMap.get? (if isDel e = true then m.del (key e) else m.set (key e) e) k =
          JsMap.get? m k
        by_cases hdel : isDel e = true
        · rw [if_pos hdel]
          exact jsMap_get_del_ne m (key e) k fun hc => hek hc.symm
        · rw [if_neg hdel]
          exact jsMap_get_set_ne m (key e) k e fun hc => hek hc.symm

/-- `set` with a coherent key preserves the keyed-map invariant. -/
theorem keyedBy_set {α} (key : α → String) (m : JsMap α) (v : α)
    (h : m.KeyedBy key) : (m.set (key v) v).KeyedBy key := by
  obtain ⟨hnd, hco⟩ := h
  by_cases hm : m.any (fun q => decide (q.1 = key v)) = true
  · rw [JsMap.set, if_pos hm]
    constructor
    · have : (m.map fun q => if q.1 = key v then (key v, v) else q).map Prod.fst =
          m.map Prod.fst := by
        rw [List.map_map]
        refine List.map_congr_left fun q _ => ?_
        by_cases hq : q.1 = key v
        · simp [hq]
        · simp [hq]
      rw [this]
      exact hnd
    · intro p hp
      obtain ⟨q, hq, rfl⟩ := List.mem_map.mp hp
      by_cases hqk : q.1 = key v
      · simp [hqk]
      · simpa [hqk] using hco q hq
  · rw [JsMap.set, if_neg hm]
    constructor
    · rw [List.map_append]
      simp only [List.map_cons, List.map_nil]
      refine List.Nodup.append hnd (List.nodup_singleton _) ?_
      intro a ha hb
      simp only [List.mem_singleton] at hb
      subst hb
      obtain ⟨q, hq, hfst⟩ := List.mem_map.mp ha
      exact hm (List.any_eq_true.mpr ⟨q, hq, by simp [hfst]⟩)
    · intro p hp
      rcases List.mem_append.mp hp with hp | hp
      · exact hco p hp
      · simp only [List.mem_singleton] at hp
        subst hp
        rfl

/-- `delete` preserves the keyed-map invariant. -/
theorem keyedBy_del {α} (key : α → String) (m : JsMap α) (k : String)
    (h : m.KeyedBy key) : (m.del k).KeyedBy key := by
  obtain ⟨hnd, hco⟩ := h
  refine ⟨?_, fun p hp => hco p (List.mem_of_mem_filter hp)⟩
  exact List.Nodup.sublist (List.Sublist.map Prod.fst (List.filter_sublist m)) hnd

/-- A replay fold preserves the keyed-map invariant. -/
theorem keyedBy_applyUpserts {α} (key : α → String) (isDel : α → Bool) :
    ∀ (es : List α) (m : JsMap α), m.KeyedBy key →
      (JsMap.applyUpserts key isDel m es).KeyedBy key := by
  intro es
  induction es with
  | nil => exact fun m h => h
  | cons e es ih =>
    intro m h
    have hstep : JsMap.applyUpserts key isDel m (e :: es) =
        JsMap.applyUpserts key isDel
          (if isDel e then m.del (key e) else m.set (key e) e) es := rfl
    rw [hstep]
    refine ih _ ?_
    by_cases hdel : isDel e = true
    · rw [if_pos hdel]; exact keyedBy_del key m (key e) h
    · rw [if_neg hdel]; exact keyedBy_set key m e h

/-- The empty map is keyed. -/
theorem keyedBy_nil {α} (key : α → String) : JsMap.KeyedBy key ([] : JsMap α) :=
  ⟨List.nodup_nil, by intro p hp; cases hp⟩

/-- In a keyed map, the values carrying a given key are exactly the
entry under that key. -/
theorem keyedBy_values_filter {α} (key : α → String) (k : String) :
    ∀ (m : JsMap α), JsMap.KeyedBy key m →
      (JsMap.values m).filter (fun v => decide (key v = k)) =
        (match JsMap.get? m k with
         | some x => [x]
         | none => []) := by
  intro m
  induction m with
  | nil => intro _; rfl
  | cons p m ih =>
    intro h
    obtain ⟨hnd, hco⟩ := h
    have hkey : key p.2 = p.1 := hco p (by simp)
    have hnd' : p.1 ∉ m.map Prod.fst ∧ (m.map Prod.fst).Nodup := by
      rw [List.map_cons] at hnd
      exact List.nodup_cons.mp hnd
    have htail : JsMap.KeyedBy key m := ⟨hnd'.2, fun q hq => hco q (by simp [hq])⟩
    by_cases hpk : p.1 = k
    · have htailnil : (JsMap.values m).filter (fun v => decide (key v = k)) = [] := by
        refine List.filter_eq_nil_iff.mpr ?_
        intro v hv
        obtain ⟨q, hq, rfl⟩ := List.mem_map.mp hv
        have : key q.2 = q.1 := hco q (by simp [hq])
        rw [this]
        intro hc
        have hqk : q.1 = p.1 := by
          rw [hpk]
          simpa using hc
        exact hnd'.1 (hqk ▸ List.mem_map_of_mem Prod.fst hq)
      have : JsMap.values (p :: m) = p.2 :: JsMap.values m := rfl
      rw [this, jsMap_get_cons, if_pos hpk,
        List.filter_cons_of_pos (by simp [hkey, hpk]), htailnil]
    · have : JsMap.values (p :: m) = p.2 :: JsMap.values m := rfl
      rw [this, jsMap_get_cons, if_neg hpk,
        List.filter_cons_of_neg (by simp [hkey, hpk])]
      exact ih htail

/-- In a keyed map with no entry under `k`, no value carries key `k`. -/
theorem keyedBy_values_absent {α} (key : α → String) (k : String) (m : JsMap α)
    (h : JsMap.KeyedBy key m) (hget : JsMap.get? m k = none) :
    ∀ v ∈ JsMap.values m, key v ≠ k := by
  intro v hv hkv
  have hfil := keyedBy_values_filter key k m h
  rw [hget] at hfil
  have hmem : v ∈ (JsMap.values m).filter (fun v => decide (key v = k)) :=
    List.mem_filter.mpr ⟨hv, by simp [hkv]⟩
  rw [hfil] at hmem
  cases hmem

/-- In a keyed map with entry `e` under `k`, the values carrying key
`k` are exactly `[e]`. -/
theorem keyedBy_values_unique {α} (key : α → String) (k : String) (m : JsMap α)
    (h : JsMap.KeyedBy key m) (e : α) (hget : JsMap.get? m k = some e) :
    (JsMap.values m).filter (fun v => decide (key v = k)) = [e] := by
  rw [keyedBy_values_filter key k m h, hget]

/-- The task map after `updateFromSync`: a replay over the old map, or
over an empty map on a full sync. -/
theorem updateFromSync_tasks (now : Nat) (resp : TodoistSyncResponse) (st : TodoistState) :
    (st.updateFromSync now resp).tasks =
      JsMap.applyUpserts (fun x => x.id) (fun x => x.is_deleted)
        (if resp.full_sync then [] else st.tasks) resp.items := by
  by_cases hfs : resp.full_sync = true <;>
    simp [TodoistState.updateFromSync, hfs]

/-- The project map after `updateFromSync`. -/
theorem updateFromSync_projects (now : Nat) (resp : TodoistSyncResponse) (st : TodoistState) :
    (st.updateFromSync now resp).projects =
      JsMap.applyUpserts (fun x => x.id) (fun x => x.is_deleted)
        (if resp.full_sync then [] else st.projects) resp.projects := by
  by_cases hfs : resp.full_sync = true <;>
    simp [TodoistState.updateFromSync, hfs]

/-- The section map after `updateFromSync`. -/
theorem updateFromSync_sections (now : Nat) (resp : TodoistSyncResponse) (st : TodoistState) :
    (st.updateFromSync now resp).sections =
      JsMap.applyUpserts (fun x => x.id) (fun x => x.is_deleted)
        (if resp.full_sync then [] else st.sections) resp.sections := by
  by_cases hfs : resp.full_sync = true <;>
    simp [TodoistState.updateFromSync, hfs]

/-- The label map after `updateFromSync`. -/
theorem updateFromSync_labels (now : Nat) (resp : TodoistSyncResponse) (st : TodoistState) :
    (st.updateFromSync now resp).labels =
      JsMap.applyUpserts (fun x => x.id) (fun x => x.is_deleted)
        (if resp.full_sync then [] else st.labels) resp.labels := by
  by_cases hfs : resp.full_sync = true <;>
    simp [TodoistState.updateFromSync, hfs]

/-- After a replay whose last record for a key is a tombstone, no value
in the resulting map carries that key. -/
theorem replay_lastDeleted_absent {α} (key : α → String) (isDel : α → Bool)
    (m0 : JsMap α) (h0 : JsMap.KeyedBy key m0) (es : List α) (k : String) (e : α)
    (hlast : lastMatch (fun x => decide (key x = k)) es = some e)
    (hdel : isDel e = true) :
    ∀ v ∈ JsMap.values (JsMap.applyUpserts key isDel m0 es), key v ≠ k := by
  have hget : JsMap.get? (JsMap.applyUpserts key isDel m0 es) k = none := by
    rw [applyUpserts_get key isDel k es m0, hlast]
    simp [hdel]
  exact keyedBy_values_absent key k _ (keyedBy_applyUpserts key isDel es m0 h0) hget

/-- Interposing another filter keeps a singleton filter result,
provided the singleton survives it. -/
theorem filter_filter_singleton {α} (p q : α → Bool) (e : α) (hp : p e = true) :
    ∀ (l : List α), l.filter q = [e] → (l.filter p).filter q = [e] := by
  intro l
  induction l with
  | nil => intro hq; simp at hq
  | cons x xs ih =>
    intro hq
    by_cases hqx : q x = true
    · rw [List.filter_cons_of_pos hqx] at hq
      have hx : x = e := by
        have := congrArg List.head? hq
        simpa using this
      have hxs : xs.filter q = [] := by
        have := congrArg List.tail hq
        simpa using this
      subst hx
      have hxs' : (xs.filter p).filter q = [] := by
        refine List.filter_eq_nil_iff.mpr ?_
        intro a ha
        exact List.filter_eq_nil_iff.mp hxs a (List.mem_of_mem_filter ha)
      rw [List.filter_cons_of_pos hp, List.filter_cons_of_pos hqx, hxs']
    · rw [List.filter_cons_of_neg hqx] at hq
      by_cases hpx : p x = true
      · rw [List.filter_cons_of_pos hpx, List.filter_cons_of_neg hqx]
        exact ih hq
      · rw [List.filter_cons_of_neg hpx]
        exact ih hq

/-- C7 (counterexample): in a payload that lists id `t1` twice — a
tombstoned record followed by a live one — the entity is "marked
deleted in that payload", yet after replay it is present in
`getAllTasks()` (last write wins). -/
theorem c7_counterexample :
    (Fix.respDelThenAdd.items.any fun t => decide (t.id = "t1") && t.is_deleted) = true ∧
    ((TodoistState.initial.updateFromSync 50 Fix.respDelThenAdd).getAllTasks.any
        fun t => decide (t.id = "t1")) = true :=
  ⟨by decide, by decide⟩

/-- C7 (amended): after replaying any payload into a well-formed Remote
State, every entity whose final record in that payload is marked
deleted is absent from the corresponding `getAll()`; the accessors of
any state return only non-deleted entities, projects additionally only
non-archived ones; and an entity whose final record in a full snapshot
has `deleted = false` appears exactly once in `getAllTasks()` after
replay. -/
theorem c7_amended (st : TodoistState) (resp : TodoistSyncResponse) (now : Nat)
    (hwf : st.WF) :
    (∀ id e, lastMatch (fun x => decide (x.id = id)) resp.items = some e →
        e.is_deleted = true →
        ∀ t ∈ (st.updateFromSync now resp).getAllTasks, t.id ≠ id) ∧
    (∀ id e, lastMatch (fun x => decide (x.id = id)) resp.projects = some e →
        e.is_deleted = true →
        ∀ p ∈ (st.updateFromSync now resp).getAllProjects, p.id ≠ id) ∧
    (∀ id e, lastMatch (fun x => decide (x.id = id)) resp.sections = some e →
        e.is_deleted = true →
        ∀ x ∈ (st.updateFromSync now resp).getAllSections, x.id ≠ id) ∧
    (∀ id e, lastMatch (fun x => decide (x.id = id)) resp.labels = some e →
        e.is_deleted = true →
        ∀ l ∈ (st.updateFromSync now resp).getAllLabels, l.id ≠ id) ∧
    (∀ (st' : TodoistState),
      (∀ t ∈ st'.getAllTasks, t.is_deleted = false) ∧
      (∀ p ∈ st'.getAllProjects, p.is_deleted = false ∧ p.is_archived = false) ∧
      (∀ x ∈ st'.getAllSections, x.is_deleted = false) ∧
      (∀ l ∈ st'.getAllLabels, l.is_deleted = false)) ∧
    (resp.full_sync = true →
      ∀ id e, lastMatch (fun x => decide (x.id = id)) resp.items = some e →
        e.is_deleted = false →
        (st.updateFromSync now resp).getAllTasks.filter (fun t => decide (t.id = id)) =
          [e]) := by
  obtain ⟨hwt, hwp, hws, hwl⟩ := hwf
  have hbt : JsMap.KeyedBy (fun x => x.id)
      (if resp.full_sync then ([] : JsMap TodoistTask) else st.tasks) := by
    by_cases hfs : resp.full_sync = true
    · rw [if_pos hfs]; exact keyedBy_nil _
    · rw [if_neg hfs]; exact hwt
  have hbp : JsMap.KeyedBy (fun x => x.id)
      (if resp.full_sync then ([] : JsMap TodoistProject) else st.projects) := by
    by_cases hfs : resp.full_sync = true
    · rw [if_pos hfs]; exact keyedBy_nil _
    · rw [if_neg hfs]; exact hwp
  have hbs : JsMap.KeyedBy (fun x => x.id)
      (if resp.full_sync then ([] : JsMap TodoistSection) else st.sections) := by
    by_cases hfs : resp.full_sync = true
    · rw [if_pos hfs]; exact keyedBy_nil _
    · rw [if_neg hfs]; exact hws
  have hbl : JsMap.KeyedBy (fun x => x.id)
      (if resp.full_sync then ([] : JsMap TodoistLabel) else st.labels) := by
    by_cases hfs : resp.full_sync = true
    · rw [if_pos hfs]; exact keyedBy_nil _
    · rw [if_neg hfs]; exact hwl
  refine ⟨?_, ?_, ?_, ?_, ?_, ?_⟩
  · intro id e hlast hdel t ht
    have ht' : t ∈ JsMap.values ((st.updateFromSync now resp).tasks) :=
      List.mem_of_mem_filter ht
    rw [updateFromSync_tasks] at ht'
    exact replay_lastDeleted_absent _ _ _ hbt _ id e hlast hdel t ht'
  · intro id e hlast hdel p hp
    have hp' : p ∈ JsMap.values ((st.updateFromSync now resp).projects) :=
      List.mem_of_mem_filter hp
    rw [updateFromSync_projects] at hp'
    exact replay_lastDeleted_absent _ _ _ hbp _ id e hlast hdel p hp'
  · intro id e hlast hdel x hx
    have hx' : x ∈ JsMap.values ((st.updateFromSync now resp).sections) :=
      List.mem_of_mem_filter hx
    rw [updateFromSync_sections] at hx'
    exact replay_lastDeleted_absent _ _ _ hbs _ id e hlast hdel x hx'
  · intro id e hlast hdel l hl
    have hl' : l ∈ JsMap.values ((st.updateFromSync now resp).labels) :=
      List.mem_of_mem_filter hl
    rw [updateFromSync_labels] at hl'
    exact replay_lastDeleted_absent _ _ _ hbl _ id e hlast hdel l hl'
  · intro st'
    refine ⟨?_, ?_, ?_, ?_⟩
    · intro t ht
      have := (List.mem_filter.mp ht).2
      simpa using this
    · intro p hp
      have h2 : (!p.is_deleted && !p.is_archived) = true := (List.mem_filter.mp hp).2
      have := Bool.and_eq_true_iff.mp h2
      exact ⟨by simpa using this.1, by simpa using this.2⟩
    · intro x hx
      have := (List.mem_filter.mp hx).2
      simpa using this
    · intro l hl
      have := (List.mem_filter.mp hl).2
      simpa using this
  · intro hfs id e hlast hlive
    have hmap : (st.updateFromSync now resp).tasks =
        JsMap.applyUpserts (fun x => x.id) (fun x => x.is_deleted) [] resp.items := by
      rw [updateFromSync_tasks, if_pos hfs]
    have hkey : JsMap.KeyedBy (fun x => x.id) ((st.updateFromSync now resp).tasks) := by
      rw [hmap]
      exact keyedBy_applyUpserts _ _ resp.items [] (keyedBy_nil _)
    have hget : JsMap.get? ((st.updateFromSync now resp).tasks) id = some e := by
      rw [hmap, applyUpserts_get, hlast]
      simp [hlive]
    have hsingle : (JsMap.values ((st.updateFromSync now resp).tasks)).filter
        (fun v => decide (v.id = id)) = [e] :=
      keyedBy_values_unique _ id _ hkey e hget
    show ((JsMap.values ((st.updateFromSync now resp).tasks)).filter
        (fun t => !t.is_deleted)).filter (fun t => decide (t.id = id)) = [e]
    exact filter_filter_singleton _ _ e (by simp [hlive]) _ hsingle

/-- Witness for C7 (amended): replaying the lone tombstone for `t1`
into the concrete state removes it from `getAllTasks()`. -/
theorem c7_amended_witness :
    Fix.td.WF ∧
    ∀ t ∈ (Fix.td.updateFromSync 60 Fix.respDelOnly).getAllTasks, t.id ≠ "t1" :=
  ⟨by unfold TodoistState.WF JsMap.KeyedBy; decide,
   fun t ht =>
     (c7_amended Fix.td Fix.respDelOnly 60
         (by unfold TodoistState.WF JsMap.KeyedBy; decide)).1 "t1" Fix.t1del (by decide)
       rfl t ht⟩

/-- A map's linear scan finds a key exactly when it is among the
entry keys. -/
theorem jsMap_any_key_iff {α} (m : JsMap α) (k : String) :
    (m.any fun q => decide (q.1 = k)) = true ↔ k ∈ m.map Prod.fst := by
  constructor
  · intro h
    obtain ⟨q, hq, he⟩ := List.any_eq_true.mp h
    exact (of_decide_eq_true he) ▸ List.mem_map_of_mem Prod.fst hq
  · intro h
    obtain ⟨q, hq, he⟩ := List.mem_map.mp h
    exact List.any_eq_true.mpr ⟨q, hq, by simp [he]⟩

/-- Folding `set` over entries with fresh, pairwise-distinct keys
appends them in order. -/
theorem jsMap_setFold_append {α} :
    ∀ (es : List (String × α)) (m : JsMap α),
      (es.map Prod.fst).Nodup → (∀ q ∈ es, q.1 ∉ m.map Prod.fst) →
      es.foldl (fun m p => JsMap.set m p.1 p.2) m = m ++ es := by
  intro es
  induction es with
  | nil => intro m _ _; simp
  | cons p es ih =>
    intro m hnd hdisj
    have hnd' : p.1 ∉ es.map Prod.fst ∧ (es.map Prod.fst).Nodup := by
      rw [List.map_cons] at hnd
      exact List.nodup_cons.mp hnd
    have hnotany : ¬ (m.any fun q => decide (q.1 = p.1)) = true := fun hc =>
      hdisj p (by simp) ((jsMap_any_key_iff m p.1).mp hc)
    have hset : JsMap.set m p.1 p.2 = m ++ [p] := by
      rw [JsMap.set, if_neg hnotany]
    have hdisj' : ∀ q ∈ es, q.1 ∉ (m ++ [p]).map Prod.fst := by
      intro q hq
      rw [List.map_append]
      intro hmem
      rcases List.mem_append.mp hmem with hmem | hmem
      · exact hdisj q (by simp [hq]) hmem
      · simp only [List.map_cons, List.map_nil, List.mem_singleton] at hmem
        exact hnd'.1 (hmem ▸ List.mem_map_of_mem Prod.fst hq)
    rw [List.foldl_cons, hset, ih (m ++ [p]) hnd'.2 hdisj']
    simp

/-- `new Map(entries)` rebuilds exactly a nodup-keyed entries list. -/
theorem jsMap_ofEntries_self {α} (es : List (String × α))
    (hnd : (es.map Prod.fst).Nodup) : JsMap.ofEntries es = es := by
  rw [JsMap.ofEntries, jsMap_setFold_append es [] hnd (by simp)]
  rfl

/-- A dynamic map's linear scan finds a key exactly when it is among
the entry keys. -/
theorem dyn_any_key_iff {κ α : Type} [DecidableEq κ] (m : List (κ × α)) (k : κ) :
    (m.any fun q => decide (q.1 = k)) = true ↔ k ∈ m.map Prod.fst := by
  constructor
  · intro h
    obtain ⟨q, hq, he⟩ := List.any_eq_true.mp h
    exact (of_decide_eq_true he) ▸ List.mem_map_of_mem Prod.fst hq
  · intro h
    obtain ⟨q, hq, he⟩ := List.mem_map.mp h
    exact List.any_eq_true.mpr ⟨q, hq, by simp [he]⟩

/-- Folding dynamic `set` over entries with fresh, pairwise-distinct
keys appends them in order. -/
theorem dyn_setFold_append {κ α : Type} [DecidableEq κ] :
    ∀ (es m : List (κ × α)),
      (es.map Prod.fst).Nodup → (∀ q ∈ es, q.1 ∉ m.map Prod.fst) →
      es.foldl (fun m p => dynSet m p.1 p.2) m = m ++ es := by
  intro es
  induction es with
  | nil => intro m _ _; simp
  | cons p es ih =>
    intro m hnd hdisj
    have hnd2 : p.1 ∉ es.map Prod.fst ∧ (es.map Prod.fst).Nodup := by
      rw [List.map_cons] at hnd
      exact List.nodup_cons.mp hnd
    have hnotany : ¬ (m.any fun q => decide (q.1 = p.1)) = true := fun hc =>
      hdisj p (by simp) ((dyn_any_key_iff m p.1).mp hc)
    have hset : dynSet m p.1 p.2 = m ++ [p] := by
      rw [dynSet, if_neg hnotany]
    have hdisj2 : ∀ q ∈ es, q.1 ∉ (m ++ [p]).map Prod.fst := by
      intro q hq
      rw [List.map_append]
      intro hmem
      rcases List.mem_append.mp hmem with hmem | hmem
      · exact hdisj q (by simp [hq]) hmem
      · simp only [List.map_cons, List.map_nil, List.mem_singleton] at hmem
        exact hnd2.1 (hmem ▸ List.mem_map_of_mem Prod.fst hq)
    rw [List.foldl_cons, hset, ih (m ++ [p]) hnd2.2 hdisj2]
    simp

/-- `new Map(entries)` rebuilds exactly a nodup-keyed dynamic entries
list. -/
theorem dyn_ofEntries_self {κ α : Type} [DecidableEq κ] (es : List (κ × α))
    (hnd : (es.map Prod.fst).Nodup) : dynOfEntries es = es := by
  rw [dynOfEntries, dyn_setFold_append es [] hnd (by simp)]
  rfl

/-- Lifting well-typed entries to dynamic pairs keeps the keys free of
duplicates. -/
theorem typedEntries_keys_nodup {α : Type} (es : List (String × α))
    (hnd : (es.map Prod.fst).Nodup) :
    ((es.map fun p => ((JsDyn.typed p.1 : JsDyn String),
      (JsDyn.typed p.2 : JsDyn α))).map Prod.fst).Nodup := by
  rw [List.map_map]
  have hcomp : (Prod.fst ∘ fun p : String × α =>
      ((JsDyn.typed p.1 : JsDyn String), (JsDyn.typed p.2 : JsDyn α))) =
      (fun s => (JsDyn.typed s : JsDyn String)) ∘ Prod.fst := rfl
  rw [hcomp, ← List.map_map]
  exact hnd.map fun a b hab => by simpa using hab

/-- C10 (counterexample): a stored string can parse and construct
without throwing and still leave a non-initial, ill-typed state:
`{"syncState":"garbage"}` keeps the truthy string in the sync-state
slot (no sentinel, no reset), and `{"tasks":[["a",42]]}` builds a
nonempty task map holding a number. -/
theorem c10_counterexample :
    ((TodoistState.deserialize (TodoistState.ParsedPersist.ok
        ⟨none, none, none, none, some (JsDyn.other "garbage")⟩)).syncState =
      JsDyn.other "garbage" ∧
     TodoistState.deserialize (TodoistState.ParsedPersist.ok
        ⟨none, none, none, none, some (JsDyn.other "garbage")⟩) ≠
      TodoistState.rawInitial) ∧
    ((TodoistState.deserialize (TodoistState.ParsedPersist.ok
        ⟨some [(JsDyn.typed "a", JsDyn.other "42")], none, none, none, none⟩)).tasks =
      [(JsDyn.typed "a", JsDyn.other "42")] ∧
     TodoistState.deserialize (TodoistState.ParsedPersist.ok
        ⟨some [(JsDyn.typed "a", JsDyn.other "42")], none, none, none, none⟩) ≠
      TodoistState.rawInitial) :=
  ⟨⟨by decide, by decide⟩, ⟨by decide, by decide⟩⟩

/-- C10 (amended): `deserialize` never propagates an exception — the
`catch` path (invalid JSON, property access on a parsed `null`, a map
construction throwing) resets the state to the initial empty state
with the `*` sentinel and zero timestamps; and deserializing the
output of `serialize` on a well-formed state restores the four maps
and the sync bookkeeping exactly.  A string that parses to a non-null
value, however, constructs without a reset, keeping whatever dynamic
values it held. -/
theorem c10_amended (st : TodoistState) (hwf : st.WF) :
    TodoistState.deserialize TodoistState.ParsedPersist.failure =
      TodoistState.rawInitial ∧
    TodoistState.deserialize (TodoistState.ParsedPersist.ok st.serialize) = st.raw := by
  obtain ⟨⟨ht, _⟩, ⟨hp, _⟩, ⟨hs, _⟩, ⟨hl, _⟩⟩ := hwf
  refine ⟨rfl, ?_⟩
  obtain ⟨mt, mp, ms, ml, ss⟩ := st
  simp only [TodoistState.deserialize, TodoistState.serialize, TodoistState.raw,
    JsMap.entries, Option.getD_some]
  congr 1
  · exact dyn_ofEntries_self _ (typedEntries_keys_nodup mt ht)
  · exact dyn_ofEntries_self _ (typedEntries_keys_nodup mp hp)
  · exact dyn_ofEntries_self _ (typedEntries_keys_nodup ms hs)
  · exact dyn_ofEntries_self _ (typedEntries_keys_nodup ml hl)

/-- Witness for amended C10 at the concrete state. -/
theorem c10_amended_witness :
    Fix.td.WF ∧
    (TodoistState.deserialize TodoistState.ParsedPersist.failure =
      TodoistState.rawInitial ∧
     TodoistState.deserialize (TodoistState.ParsedPersist.ok Fix.td.serialize) =
      Fix.td.raw) :=
  ⟨by unfold TodoistState.WF JsMap.KeyedBy; decide,
   c10_amended Fix.td (by unfold TodoistState.WF JsMap.KeyedBy; decide)⟩

/-- `reconcileProject` only ever touches the project-note map (and the
path index) of Source B. -/
theorem reconcileProject_obs_parts (fg : FileGenerator.Config) (now : Nat)
    (p : TodoistProject) (obs : ObsidianState) (v : Vault) :
    (SyncEngine.reconcileProject fg now p obs v).obs.taskNotes = obs.taskNotes ∧
    (SyncEngine.reconcileProject fg now p obs v).obs.sectionNotes = obs.sectionNotes := by
  unfold SyncEngine.reconcileProject
  split
  · exact ⟨rfl, rfl⟩
  · split
    · exact ⟨rfl, rfl⟩
    · exact ⟨rfl, rfl⟩

/-- `reconcileSection` only ever touches the section-note map. -/
theorem reconcileSection_obs_parts (fg : FileGenerator.Config) (now : Nat)
    (s : TodoistSection) (pn : String) (obs : ObsidianState) (v : Vault) :
    (SyncEngine.reconcileSection fg now s pn obs v).obs.taskNotes = obs.taskNotes ∧
    (SyncEngine.reconcileSection fg now s pn obs v).obs.projectNotes = obs.projectNotes := by
  unfold SyncEngine.reconcileSection
  split
  · exact ⟨rfl, rfl⟩
  · split
    · exact ⟨rfl, rfl⟩
    · exact ⟨rfl, rfl⟩

/-- `reconcileTask` only ever touches the task-note map. -/
theorem reconcileTask_obs_parts (fg : FileGenerator.Config) (now : Nat)
    (t : TodoistTask) (pn sn : Option String) (obs : ObsidianState) (v : Vault) :
    (SyncEngine.reconcileTask fg now t pn sn obs v).obs.projectNotes = obs.projectNotes ∧
    (SyncEngine.reconcileTask fg now t pn sn obs v).obs.sectionNotes = obs.sectionNotes := by
  unfold SyncEngine.reconcileTask
  split
  · exact ⟨rfl, rfl⟩
  · split
    · exact ⟨rfl, rfl⟩
    · exact ⟨rfl, rfl⟩

/-- After `reconcileProject`, the note agrees with the remote project. -/
theorem reconcileProject_establishes (fg : FileGenerator.Config) (now : Nat)
    (p : TodoistProject) (obs : ObsidianState) (v : Vault) :
    ProjNoteMatches (SyncEngine.reconcileProject fg now p obs v).obs p := by
  unfold SyncEngine.reconcileProject
  split
  · refine ⟨(FileGenerator.createOrUpdateProjectNote fg v now p).note, ?_, rfl, rfl, rfl⟩
    simp [ObsidianState.getProjectNote, ObsidianState.setProjectNote, jsMap_get_set_self]
  · next n heq =>
    split
    · refine ⟨(FileGenerator.createOrUpdateProjectNote fg v now p).note, ?_, rfl, rfl, rfl⟩
      simp [ObsidianState.getProjectNote, ObsidianState.setProjectNote, jsMap_get_set_self]
    · next hc =>
      push_neg at hc
      exact ⟨n, heq, hc.1, hc.2.1, hc.2.2⟩

/-- A matching note makes `reconcileProject` a no-op skip. -/
theorem reconcileProject_skips (fg : FileGenerator.Config) (now : Nat)
    (p : TodoistProject) (obs : ObsidianState) (v : Vault)
    (h : ProjNoteMatches obs p) :
    SyncEngine.reconcileProject fg now p obs v = ⟨.skipped, obs, v, []⟩ := by
  obtain ⟨n, hget, h1, h2, h3⟩ := h
  unfold SyncEngine.reconcileProject
  split
  · next heq => rw [heq] at hget; cases hget
  · next n' heq =>
    rw [heq] at hget
    injection hget with hget
    subst hget
    split
    · next hc =>
      exfalso
      rcases hc with hc | hc | hc
      · exact hc h1
      · exact hc h2
      · exact hc h3
    · rfl

/-- After `reconcileSection`, the note agrees on the name. -/
theorem reconcileSection_establishes (fg : FileGenerator.Config) (now : Nat)
    (s : TodoistSection) (pn : String) (obs : ObsidianState) (v : Vault) :
    SectNoteMatches (SyncEngine.reconcileSection fg now s pn obs v).obs s := by
  unfold SyncEngine.reconcileSection
  split
  · refine ⟨(FileGenerator.createOrUpdateSectionNote fg v now s pn).note, ?_, rfl⟩
    simp [ObsidianState.getSectionNote, ObsidianState.setSectionNote, jsMap_get_set_self]
  · next n heq =>
    split
    · refine ⟨(FileGenerator.createOrUpdateSectionNote fg v now s pn).note, ?_, rfl⟩
      simp [ObsidianState.getSectionNote, ObsidianState.setSectionNote, jsMap_get_set_self]
    · next hc =>
      push_neg at hc
      exact ⟨n, heq, hc⟩

/-- A matching note makes `reconcileSection` a no-op skip. -/
theorem reconcileSection_skips (fg : FileGenerator.Config) (now : Nat)
    (s : TodoistSection) (pn : String) (obs : ObsidianState) (v : Vault)
    (h : SectNoteMatches obs s) :
    SyncEngine.reconcileSection fg now s pn obs v = ⟨.skipped, obs, v, []⟩ := by
  obtain ⟨n, hget, h1⟩ := h
  unfold SyncEngine.reconcileSection
  split
  · next heq => rw [heq] at hget; cases hget
  · next n' heq =>
    rw [heq] at hget
    injection hget with hget
    subst hget
    split
    · next hc => exact absurd h1 hc
    · rfl

/-- After `reconcileTask` at clock `now ≥ date_added`, the note's
`last_sync` covers the task. -/
theorem reconcileTask_establishes (fg : FileGenerator.Config) (now : Nat)
    (t : TodoistTask) (pn sn : Option String) (obs : ObsidianState) (v : Vault)
    (hd : t.date_added ≤ now) :
    TaskNoteSynced (SyncEngine.reconcileTask fg now t pn sn obs v).obs t := by
  unfold SyncEngine.reconcileTask
  split
  · refine ⟨(FileGenerator.createOrUpdateTaskNote fg v now t pn sn none).note, ?_, hd⟩
    simp [ObsidianState.getTaskNote, ObsidianState.setTaskNote, jsMap_get_set_self]
  · next n heq =>
    split
    · next hc =>
      refine ⟨(FileGenerator.createOrUpdateTaskNote fg v now t pn sn
        (some n.filePath)).note, ?_, hd⟩
      simp [ObsidianState.getTaskNote, ObsidianState.setTaskNote, jsMap_get_set_self]
    · next hc =>
      exact ⟨n, heq, Nat.le_of_not_lt hc⟩

/-- A synced note makes `reconcileTask` a no-op skip. -/
theorem reconcileTask_skips (fg : FileGenerator.Config) (now : Nat)
    (t : TodoistTask) (pn sn : Option String) (obs : ObsidianState) (v : Vault)
    (h : TaskNoteSynced obs t) :
    SyncEngine.reconcileTask fg now t pn sn obs v = ⟨.skipped, obs, v, []⟩ := by
  obtain ⟨n, hget, h1⟩ := h
  unfold SyncEngine.reconcileTask
  split
  · next heq => rw [heq] at hget; cases hget
  · next n' heq =>
    rw [heq] at hget
    injection hget with hget
    subst hget
    split
    · next hc => exact absurd h1 (Nat.not_le.mpr hc)
    · rfl

/-- `reconcileProject` leaves other projects' notes alone. -/
theorem reconcileProject_preserves_other (fg : FileGenerator.Config) (now : Nat)
    (p : TodoistProject) (obs : ObsidianState) (v : Vault) (id : String)
    (hne : id ≠ p.id) :
    (SyncEngine.reconcileProject fg now p obs v).obs.getProjectNote id =
      obs.getProjectNote id := by
  unfold SyncEngine.reconcileProject
  split
  · simp [ObsidianState.getProjectNote, ObsidianState.setProjectNote,
      jsMap_get_set_ne _ _ _ _ hne]
  · split
    · simp [ObsidianState.getProjectNote, ObsidianState.setProjectNote,
        jsMap_get_set_ne _ _ _ _ hne]
    · rfl

/-- `reconcileSection` leaves other sections' notes alone. -/
theorem reconcileSection_preserves_other (fg : FileGenerator.Config) (now : Nat)
    (s : TodoistSection) (pn : String) (obs : ObsidianState) (v : Vault) (id : String)
    (hne : id ≠ s.id) :
    (SyncEngine.reconcileSection fg now s pn obs v).obs.getSectionNote id =
      obs.getSectionNote id := by
  unfold SyncEngine.reconcileSection
  split
  · simp [ObsidianState.getSectionNote, ObsidianState.setSectionNote,
      jsMap_get_set_ne _ _ _ _ hne]
  · split
    · simp [ObsidianState.getSectionNote, ObsidianState.setSectionNote,
        jsMap_get_set_ne _ _ _ _ hne]
    · rfl

/-- `reconcileTask` leaves other tasks' notes alone. -/
theorem reconcileTask_preserves_other (fg : FileGenerator.Config) (now : Nat)
    (t : TodoistTask) (pn sn : Option String) (obs : ObsidianState) (v : Vault)
    (id : String) (hne : id ≠ t.id) :
    (SyncEngine.reconcileTask fg now t pn sn obs v).obs.getTaskNote id =
      obs.getTaskNote id := by
  unfold SyncEngine.reconcileTask
  split
  · simp [ObsidianState.getTaskNote, ObsidianState.setTaskNote,
      jsMap_get_set_ne _ _ _ _ hne]
  · split
    · simp [ObsidianState.getTaskNote, ObsidianState.setTaskNote,
        jsMap_get_set_ne _ _ _ _ hne]
    · rfl

/-- In a keyed map, any filtered selection of the values still has
pairwise-distinct keys. -/
theorem keyedBy_filtered_ids_nodup {α} (key : α → String) (m : JsMap α)
    (h : JsMap.KeyedBy key m) (f : α → Bool) :
    (((JsMap.values m).filter f).map key).Nodup := by
  have hv : (JsMap.values m).map key = m.map Prod.fst := by
    rw [JsMap.values, List.map_map]
    exact List.map_congr_left fun p hp => h.2 p hp
  refine List.Nodup.sublist ?_ (hv ▸ h.1)
  exact List.Sublist.map key (List.filter_sublist _)

/-- The project phase leaves unprocessed projects' notes alone. -/
theorem projPhase_preserves_get (fg : FileGenerator.Config) (now : Nat) :
    ∀ (ps : List TodoistProject) (acc : SyncEngine.RecPass) (id : String),
      (∀ r ∈ ps, r.id ≠ id) →
      ((ps.foldl (SyncEngine.reconcileProjectStep fg now) acc).obs).getProjectNote id =
        acc.obs.getProjectNote id := by
  intro ps
  induction ps with
  | nil => intro acc id _; rfl
  | cons r ps ih =>
    intro acc id hall
    rw [List.foldl_cons]
    rw [ih _ id fun q hq => hall q (by simp [hq])]
    exact reconcileProject_preserves_other fg now r acc.obs acc.vault id
      (Ne.symm (hall r (by simp)))

/-- The section phase leaves unprocessed sections' notes alone. -/
theorem sectPhase_preserves_get (fg : FileGenerator.Config) (now : Nat) :
    ∀ (ss : List TodoistSection) (acc : SyncEngine.RecPass) (id : String),
      (∀ r ∈ ss, r.id ≠ id) →
      ((ss.foldl (SyncEngine.reconcileSectionStep fg now) acc).obs).getSectionNote id =
        acc.obs.getSectionNote id := by
  intro ss
  induction ss with
  | nil => intro acc id _; rfl
  | cons r ss ih =>
    intro acc id hall
    rw [List.foldl_cons, ih _ id fun q hq => hall q (by simp [hq])]
    by_cases hres : jsTruthyStr (JsMap.get? acc.projectMap r.project_id) = true
    · have := reconcileSection_preserves_other fg now r
        ((JsMap.get? acc.projectMap r.project_id).getD "") acc.obs acc.vault id
        (Ne.symm (hall r (by simp)))
      simpa [SyncEngine.reconcileSectionStep, hres] using this
    · simp [SyncEngine.reconcileSectionStep, hres]

/-- The task phase leaves unprocessed tasks' notes alone. -/
theorem taskPhase_preserves_get (fg : FileGenerator.Config) (now : Nat) :
    ∀ (ts : List TodoistTask) (acc : SyncEngine.RecPass) (id : String),
      (∀ r ∈ ts, r.id ≠ id) →
      ((ts.foldl (SyncEngine.reconcileTaskStep fg now) acc).obs).getTaskNote id =
        acc.obs.getTaskNote id := by
  intro ts
  induction ts with
  | nil => intro acc id _; rfl
  | cons r ts ih =>
    intro acc id hall
    rw [List.foldl_cons, ih _ id fun q hq => hall q (by simp [hq])]
    exact reconcileTask_preserves_other fg now r _ _ acc.obs acc.vault id
      (Ne.symm (hall r (by simp)))

/-- The project phase never touches task or section notes. -/
theorem projPhase_other_parts (fg : FileGenerator.Config) (now : Nat) :
    ∀ (ps : List TodoistProject) (acc : SyncEngine.RecPass),
      ((ps.foldl (SyncEngine.reconcileProjectStep fg now) acc).obs).taskNotes =
        acc.obs.taskNotes ∧
      ((ps.foldl (SyncEngine.reconcileProjectStep fg now) acc).obs).sectionNotes =
        acc.obs.sectionNotes := by
  intro ps
  induction ps with
  | nil => exact fun acc => ⟨rfl, rfl⟩
  | cons q ps ih =>
    intro acc
    rw [List.foldl_cons]
    obtain ⟨iht, ihs⟩ := ih (SyncEngine.reconcileProjectStep fg now acc q)
    obtain ⟨ht, hs⟩ := reconcileProject_obs_parts fg now q acc.obs acc.vault
    exact ⟨iht.trans ht, ihs.trans hs⟩

/-- The section phase never touches task or project notes. -/
theorem sectPhase_other_parts (fg : FileGenerator.Config) (now : Nat) :
    ∀ (ss : List TodoistSection) (acc : SyncEngine.RecPass),
      ((ss.foldl (SyncEngine.reconcileSectionStep fg now) acc).obs).taskNotes =
        acc.obs.taskNotes ∧
      ((ss.foldl (SyncEngine.reconcileSectionStep fg now) acc).obs).projectNotes =
        acc.obs.projectNotes := by
  intro ss
  induction ss with
  | nil => exact fun acc => ⟨rfl, rfl⟩
  | cons r ss ih =>
    intro acc
    rw [List.foldl_cons]
    obtain ⟨iht, ihp⟩ := ih (SyncEngine.reconcileSectionStep fg now acc r)
    have hstep : (SyncEngine.reconcileSectionStep fg now acc r).obs.taskNotes =
        acc.obs.taskNotes ∧
        (SyncEngine.reconcileSectionStep fg now acc r).obs.projectNotes =
          acc.obs.projectNotes := by
      by_cases hres : jsTruthyStr (JsMap.get? acc.projectMap r.project_id) = true
      · obtain ⟨h1, h2⟩ := reconcileSection_obs_parts fg now r
          ((JsMap.get? acc.projectMap r.project_id).getD "") acc.obs acc.vault
        constructor
        · simpa [SyncEngine.reconcileSectionStep, hres] using h1
        · simpa [SyncEngine.reconcileSectionStep, hres] using h2
      · constructor <;> simp [SyncEngine.reconcileSectionStep, hres]
    exact ⟨iht.trans hstep.1, ihp.trans hstep.2⟩

/-- The task phase never touches project or section notes. -/
theorem taskPhase_other_parts (fg : FileGenerator.Config) (now : Nat) :
    ∀ (ts : List TodoistTask) (acc : SyncEngine.RecPass),
      ((ts.foldl (SyncEngine.reconcileTaskStep fg now) acc).obs).projectNotes =
        acc.obs.projectNotes ∧
      ((ts.foldl (SyncEngine.reconcileTaskStep fg now) acc).obs).sectionNotes =
        acc.obs.sectionNotes := by
  intro ts
  induction ts with
  | nil => exact fun acc => ⟨rfl, rfl⟩
  | cons t ts ih =>
    intro acc
    rw [List.foldl_cons]
    obtain ⟨ihp, ihs⟩ := ih (SyncEngine.reconcileTaskStep fg now acc t)
    obtain ⟨hp, hs⟩ := reconcileTask_obs_parts fg now t _ _ acc.obs acc.vault
    exact ⟨ihp.trans hp, ihs.trans hs⟩

/-- The project-lookup map the project phase builds is a pure fold over
the remote projects. -/
theorem projPhase_pm (fg : FileGenerator.Config) (now : Nat) :
    ∀ (ps : List TodoistProject) (acc : SyncEngine.RecPass),
      (ps.foldl (SyncEngine.reconcileProjectStep fg now) acc).projectMap =
        ps.foldl (fun m p => m.set p.id p.name) acc.projectMap := by
  intro ps
  induction ps with
  | nil => exact fun _ => rfl
  | cons q ps ih =>
    intro acc
    rw [List.foldl_cons, List.foldl_cons]
    exact ih (SyncEngine.reconcileProjectStep fg now acc q)

/-- The section phase leaves the project-lookup map untouched. -/
theorem sectPhase_pm (fg : FileGenerator.Config) (now : Nat) :
    ∀ (ss : List TodoistSection) (acc : SyncEngine.RecPass),
      (ss.foldl (SyncEngine.reconcileSectionStep fg now) acc).projectMap =
        acc.projectMap := by
  intro ss
  induction ss with
  | nil => exact fun _ => rfl
  | cons r ss ih =>
    intro acc
    rw [List.foldl_cons, ih (SyncEngine.reconcileSectionStep fg now acc r)]
    by_cases hres : jsTruthyStr (JsMap.get? acc.projectMap r.project_id) = true
    · simp [SyncEngine.reconcileSectionStep, hres]
    · simp [SyncEngine.reconcileSectionStep, hres]

/-- The project phase reconciles every (distinct-id) project into
agreement. -/
theorem projPhase_establishes (fg : FileGenerator.Config) (now : Nat) :
    ∀ (ps : List TodoistProject) (acc : SyncEngine.RecPass),
      (ps.map (fun p => p.id)).Nodup →
      ∀ p ∈ ps,
        ProjNoteMatches ((ps.foldl (SyncEngine.reconcileProjectStep fg now) acc).obs) p := by
  intro ps
  induction ps with
  | nil => intro acc _ p hp; cases hp
  | cons q ps ih =>
    intro acc hnd p hp
    have hnd' : q.id ∉ ps.map (fun p => p.id) ∧ (ps.map (fun p => p.id)).Nodup := by
      rw [List.map_cons] at hnd
      exact List.nodup_cons.mp hnd
    rw [List.foldl_cons]
    rcases List.mem_cons.mp hp with rfl | hp'
    · have hstep : ProjNoteMatches ((SyncEngine.reconcileProjectStep fg now acc p).obs) p :=
        reconcileProject_establishes fg now p acc.obs acc.vault
      have hpres := projPhase_preserves_get fg now ps
        (SyncEngine.reconcileProjectStep fg now acc p) p.id
        (fun r hr hc => hnd'.1 (hc ▸ List.mem_map_of_mem (fun p => p.id) hr))
      obtain ⟨n, hget, h1, h2, h3⟩ := hstep
      exact ⟨n, hpres.trans hget, h1, h2, h3⟩
    · exact ih (SyncEngine.reconcileProjectStep fg now acc q) hnd'.2 p hp'

/-- The section phase reconciles every (distinct-id) section whose
project resolves into agreement. -/
theorem sectPhase_establishes (fg : FileGenerator.Config) (now : Nat) :
    ∀ (ss : List TodoistSection) (acc : SyncEngine.RecPass),
      (ss.map (fun s => s.id)).Nodup →
      ∀ s ∈ ss, jsTruthyStr (JsMap.get? acc.projectMap s.project_id) = true →
        SectNoteMatches ((ss.foldl (SyncEngine.reconcileSectionStep fg now) acc).obs) s := by
  intro ss
  induction ss with
  | nil => intro acc _ s hs; cases hs
  | cons r ss ih =>
    intro acc hnd s hs hres
    have hnd' : r.id ∉ ss.map (fun s => s.id) ∧ (ss.map (fun s => s.id)).Nodup := by
      rw [List.map_cons] at hnd
      exact List.nodup_cons.mp hnd
    rw [List.foldl_cons]
    rcases List.mem_cons.mp hs with rfl | hs'
    · have hstepobs : (SyncEngine.reconcileSectionStep fg now acc s).obs =
          (SyncEngine.reconcileSection fg now s
            ((JsMap.get? acc.projectMap s.project_id).getD "") acc.obs acc.vault).obs := by
        simp [SyncEngine.reconcileSectionStep, hres]
      have hstep : SectNoteMatches ((SyncEngine.reconcileSectionStep fg now acc s).obs) s := by
        rw [hstepobs]
        exact reconcileSection_establishes fg now s _ acc.obs acc.vault
      have hpres := sectPhase_preserves_get fg now ss
        (SyncEngine.reconcileSectionStep fg now acc s) s.id
        (fun x hx hc => hnd'.1 (hc ▸ List.mem_map_of_mem (fun s => s.id) hx))
      obtain ⟨n, hget, h1⟩ := hstep
      exact ⟨n, hpres.trans hget, h1⟩
    · have hpm : (SyncEngine.reconcileSectionStep fg now acc r).projectMap =
          acc.projectMap := by
        by_cases hx : jsTruthyStr (JsMap.get? acc.projectMap r.project_id) = true
        · simp [SyncEngine.reconcileSectionStep, hx]
        · simp [SyncEngine.reconcileSectionStep, hx]
      exact ih (SyncEngine.reconcileSectionStep fg now acc r) hnd'.2 s hs'
        (by rw [hpm]; exact hres)

/-- The task phase reconciles every (distinct-id) task into a synced
note, provided the clock is past every task's `date_added`. -/
theorem taskPhase_establishes (fg : FileGenerator.Config) (now : Nat) :
    ∀ (ts : List TodoistTask) (acc : SyncEngine.RecPass),
      (ts.map (fun t => t.id)).Nodup →
      (∀ t ∈ ts, t.date_added ≤ now) →
      ∀ t ∈ ts,
        TaskNoteSynced ((ts.foldl (SyncEngine.reconcileTaskStep fg now) acc).obs) t := by
  intro ts
  induction ts with
  | nil => intro acc _ _ t ht; cases ht
  | cons u ts ih =>
    intro acc hnd hdate t ht
    have hnd' : u.id ∉ ts.map (fun t => t.id) ∧ (ts.map (fun t => t.id)).Nodup := by
      rw [List.map_cons] at hnd
      exact List.nodup_cons.mp hnd
    rw [List.foldl_cons]
    rcases List.mem_cons.mp ht with rfl | ht'
    · have hstep : TaskNoteSynced ((SyncEngine.reconcileTaskStep fg now acc t).obs) t :=
        reconcileTask_establishes fg now t _ _ acc.obs acc.vault (hdate t (by simp))
      have hpres := taskPhase_preserves_get fg now ts
        (SyncEngine.reconcileTaskStep fg now acc t) t.id
        (fun x hx hc => hnd'.1 (hc ▸ List.mem_map_of_mem (fun t => t.id) hx))
      obtain ⟨n, hget, h1⟩ := hstep
      exact ⟨n, hpres.trans hget, h1⟩
    · exact ih (SyncEngine.reconcileTaskStep fg now acc u) hnd'.2
        (fun x hx => hdate x (by simp [hx])) t ht'

/-- `ProjNoteMatches` only reads the project-note map. -/
theorem projNoteMatches_of_eq (o o' : ObsidianState)
    (he : o'.projectNotes = o.projectNotes) (p : TodoistProject) :
    ProjNoteMatches o p → ProjNoteMatches o' p := by
  rintro ⟨n, hget, h1, h2, h3⟩
  refine ⟨n, ?_, h1, h2, h3⟩
  show JsMap.get? o'.projectNotes p.id = some n
  rw [he]
  exact hget

/-- `SectNoteMatches` only reads the section-note map. -/
theorem sectNoteMatches_of_eq (o o' : ObsidianState)
    (he : o'.sectionNotes = o.sectionNotes) (s : TodoistSection) :
    SectNoteMatches o s → SectNoteMatches o' s := by
  rintro ⟨n, hget, h1⟩
  refine ⟨n, ?_, h1⟩
  show JsMap.get? o'.sectionNotes s.id = some n
  rw [he]
  exact hget

/-- On already-matching projects the project phase only counts skips:
decision counters for created/updated, Source B and the vault are
untouched. -/
theorem projPhase_skips (fg : FileGenerator.Config) (now : Nat) :
    ∀ (ps : List TodoistProject) (acc : SyncEngine.RecPass),
      (∀ p ∈ ps, ProjNoteMatches acc.obs p) →
      (ps.foldl (SyncEngine.reconcileProjectStep fg now) acc).stats.created =
        acc.stats.created ∧
      (ps.foldl (SyncEngine.reconcileProjectStep fg now) acc).stats.updated =
        acc.stats.updated ∧
      (ps.foldl (SyncEngine.reconcileProjectStep fg now) acc).obs = acc.obs ∧
      (ps.foldl (SyncEngine.reconcileProjectStep fg now) acc).vault = acc.vault := by
  intro ps
  induction ps with
  | nil => exact fun acc _ => ⟨rfl, rfl, rfl, rfl⟩
  | cons q ps ih =>
    intro acc hall
    have hrec := reconcileProject_skips fg now q acc.obs acc.vault (hall q (by simp))
    have hobs : (SyncEngine.reconcileProjectStep fg now acc q).obs = acc.obs := by
      simp [SyncEngine.reconcileProjectStep, hrec]
    have hvault : (SyncEngine.reconcileProjectStep fg now acc q).vault = acc.vault := by
      simp [SyncEngine.reconcileProjectStep, hrec]
    have hcre : (SyncEngine.reconcileProjectStep fg now acc q).stats.created =
        acc.stats.created := by
      simp [SyncEngine.reconcileProjectStep, hrec, SyncEngine.RecStats.bumpProjects]
    have hupd : (SyncEngine.reconcileProjectStep fg now acc q).stats.updated =
        acc.stats.updated := by
      simp [SyncEngine.reconcileProjectStep, hrec, SyncEngine.RecStats.bumpProjects]
    obtain ⟨i1, i2, i3, i4⟩ := ih (SyncEngine.reconcileProjectStep fg now acc q)
      (fun p hp => projNoteMatches_of_eq acc.obs _ (by rw [hobs]) p (hall p (by simp [hp])))
    rw [List.foldl_cons]
    exact ⟨i1.trans hcre, i2.trans hupd, i3.trans hobs, i4.trans hvault⟩

/-- On already-matching (resolvable) sections the section phase only
counts skips. -/
theorem sectPhase_skips (fg : FileGenerator.Config) (now : Nat) :
    ∀ (ss : List TodoistSection) (acc : SyncEngine.RecPass),
      (∀ s ∈ ss, jsTruthyStr (JsMap.get? acc.projectMap s.project_id) = true →
        SectNoteMatches acc.obs s) →
      (ss.foldl (SyncEngine.reconcileSectionStep fg now) acc).stats.created =
        acc.stats.created ∧
      (ss.foldl (SyncEngine.reconcileSectionStep fg now) acc).stats.updated =
        acc.stats.updated ∧
      (ss.foldl (SyncEngine.reconcileSectionStep fg now) acc).obs = acc.obs ∧
      (ss.foldl (SyncEngine.reconcileSectionStep fg now) acc).vault = acc.vault := by
  intro ss
  induction ss with
  | nil => exact fun acc _ => ⟨rfl, rfl, rfl, rfl⟩
  | cons r ss ih =>
    intro acc hall
    have hstep : (SyncEngine.reconcileSectionStep fg now acc r).stats.created =
        acc.stats.created ∧
        (SyncEngine.reconcileSectionStep fg now acc r).stats.updated =
          acc.stats.updated ∧
        (SyncEngine.reconcileSectionStep fg now acc r).obs = acc.obs ∧
        (SyncEngine.reconcileSectionStep fg now acc r).vault = acc.vault ∧
        (SyncEngine.reconcileSectionStep fg now acc r).projectMap = acc.projectMap := by
      by_cases hres : jsTruthyStr (JsMap.get? acc.projectMap r.project_id) = true
      · have hrec := reconcileSection_skips fg now r
          ((JsMap.get? acc.projectMap r.project_id).getD "") acc.obs acc.vault
          (hall r (by simp) hres)
        refine ⟨?_, ?_, ?_, ?_, ?_⟩ <;>
          simp [SyncEngine.reconcileSectionStep, hres, hrec,
            SyncEngine.RecStats.bumpSections]
      · refine ⟨?_, ?_, ?_, ?_, ?_⟩ <;> simp [SyncEngine.reconcileSectionStep, hres]
    obtain ⟨h1, h2, h3, h4, h5⟩ := hstep
    obtain ⟨i1, i2, i3, i4⟩ := ih (SyncEngine.reconcileSectionStep fg now acc r)
      (fun s hs hres =>
        sectNoteMatches_of_eq acc.obs _ (by rw [h3]) s
          (hall s (by simp [hs]) (by rw [← h5]; exact hres)))
    rw [List.foldl_cons]
    exact ⟨i1.trans h1, i2.trans h2, i3.trans h3, i4.trans h4⟩

/-- On already-synced tasks the task phase only counts skips. -/
theorem taskPhase_skips (fg : FileGenerator.Config) (now : Nat) :
    ∀ (ts : List TodoistTask) (acc : SyncEngine.RecPass),
      (∀ t ∈ ts, TaskNoteSynced acc.obs t) →
      (ts.foldl (SyncEngine.reconcileTaskStep fg now) acc).stats.created =
        acc.stats.created ∧
      (ts.foldl (SyncEngine.reconcileTaskStep fg now) acc).stats.updated =
        acc.stats.updated ∧
      (ts.foldl (SyncEngine.reconcileTaskStep fg now) acc).obs = acc.obs ∧
      (ts.foldl (SyncEngine.reconcileTaskStep fg now) acc).vault = acc.vault := by
  intro ts
  induction ts with
  | nil => exact fun acc _ => ⟨rfl, rfl, rfl, rfl⟩
  | cons u ts ih =>
    intro acc hall
    have hrec := reconcileTask_skips fg now u (JsMap.get? acc.projectMap u.project_id)
      (match u.section_id with
       | some sid => if sid ≠ "" then JsMap.get? acc.sectionMap sid else none
       | none => none) acc.obs acc.vault (hall u (by simp))
    have hobs : (SyncEngine.reconcileTaskStep fg now acc u).obs = acc.obs := by
      simp only [SyncEngine.reconcileTaskStep]
      rw [hrec]
    have hvault : (SyncEngine.reconcileTaskStep fg now acc u).vault = acc.vault := by
      simp only [SyncEngine.reconcileTaskStep]
      rw [hrec]
    have hcre : (SyncEngine.reconcileTaskStep fg now acc u).stats.created =
        acc.stats.created := by
      simp only [SyncEngine.reconcileTaskStep]
      rw [hrec]
      rfl
    have hupd : (SyncEngine.reconcileTaskStep fg now acc u).stats.updated =
        acc.stats.updated := by
      simp only [SyncEngine.reconcileTaskStep]
      rw [hrec]
      rfl
    obtain ⟨i1, i2, i3, i4⟩ := ih (SyncEngine.reconcileTaskStep fg now acc u)
      (fun t ht => by
        obtain ⟨n, hget, hle⟩ := hall t (by simp [ht])
        refine ⟨n, ?_, hle⟩
        show JsMap.get? (SyncEngine.reconcileTaskStep fg now acc u).obs.taskNotes t.id =
          some n
        rw [show (SyncEngine.reconcileTaskStep fg now acc u).obs.taskNotes =
          acc.obs.taskNotes from by rw [hobs]]
        exact hget)
    rw [List.foldl_cons]
    exact ⟨i1.trans hcre, i2.trans hupd, i3.trans hobs, i4.trans hvault⟩

/-- C5: with a well-formed Remote State whose task timestamps do not
lie in the first pass's future, running the reconcile step twice with
no intervening remote or local change produces zero created and zero
updated decisions on the second run. -/
theorem c5_reconcile_idempotent
    (fg : FileGenerator.Config) (now1 now2 : Nat) (td : TodoistState)
    (obs : ObsidianState) (v : Vault) (hwf : td.WF)
    (hdate : ∀ t ∈ td.getAllTasks, t.date_added ≤ now1) :
    (SyncEngine.reconcileStates fg now2 td
        (SyncEngine.reconcileStates fg now1 td obs v).obs
        (SyncEngine.reconcileStates fg now1 td obs v).vault).stats.created =
      SyncEngine.KindCounts.zero ∧
    (SyncEngine.reconcileStates fg now2 td
        (SyncEngine.reconcileStates fg now1 td obs v).obs
        (SyncEngine.reconcileStates fg now1 td obs v).vault).stats.updated =
      SyncEngine.KindCounts.zero := by
  obtain ⟨hwt, hwp, hws, hwl⟩ := hwf
  have hndP : (td.getAllProjects.map (fun p => p.id)).Nodup :=
    keyedBy_filtered_ids_nodup _ td.projects hwp _
  have hndS : (td.getAllSections.map (fun s => s.id)).Nodup :=
    keyedBy_filtered_ids_nodup _ td.sections hws _
  have hndT : (td.getAllTasks.map (fun t => t.id)).Nodup :=
    keyedBy_filtered_ids_nodup _ td.tasks hwt _
  have hunfold : ∀ (nw : Nat) (o : ObsidianState) (vv : Vault),
      SyncEngine.reconcileStates fg nw td o vv =
        td.getAllTasks.foldl (SyncEngine.reconcileTaskStep fg nw)
          (td.getAllSections.foldl (SyncEngine.reconcileSectionStep fg nw)
            (td.getAllProjects.foldl (SyncEngine.reconcileProjectStep fg nw)
              ⟨SyncEngine.RecStats.zero, o, vv, [], [], []⟩)) := fun _ _ _ => rfl
  simp only [hunfold]
  set p0 : SyncEngine.RecPass := ⟨SyncEngine.RecStats.zero, obs, v, [], [], []⟩ with hp0
  set A1 := td.getAllProjects.foldl (SyncEngine.reconcileProjectStep fg now1) p0 with hA1
  set A2 := td.getAllSections.foldl (SyncEngine.reconcileSectionStep fg now1) A1 with hA2
  set A3 := td.getAllTasks.foldl (SyncEngine.reconcileTaskStep fg now1) A2 with hA3
  have hPinv1 : ∀ p ∈ td.getAllProjects, ProjNoteMatches A1.obs p :=
    projPhase_establishes fg now1 td.getAllProjects p0 hndP
  have parts2 := sectPhase_other_parts fg now1 td.getAllSections A1
  have parts3 := taskPhase_other_parts fg now1 td.getAllTasks A2
  have hPinv3 : ∀ p ∈ td.getAllProjects, ProjNoteMatches A3.obs p := fun p hp =>
    projNoteMatches_of_eq A1.obs A3.obs (parts3.1.trans parts2.2) p (hPinv1 p hp)
  have hSinv2 := sectPhase_establishes fg now1 td.getAllSections A1 hndS
  have hSinv3 : ∀ s ∈ td.getAllSections,
      jsTruthyStr (JsMap.get? A1.projectMap s.project_id) = true →
      SectNoteMatches A3.obs s := fun s hs hres =>
    sectNoteMatches_of_eq A2.obs A3.obs parts3.2 s (hSinv2 s hs hres)
  have hTinv3 : ∀ t ∈ td.getAllTasks, TaskNoteSynced A3.obs t :=
    taskPhase_establishes fg now1 td.getAllTasks A2 hndT hdate
  set q0 : SyncEngine.RecPass := ⟨SyncEngine.RecStats.zero, A3.obs, A3.vault, [], [], []⟩
    with hq0
  obtain ⟨c1, u1, o1, v1⟩ := projPhase_skips fg now2 td.getAllProjects q0
    (fun p hp => hPinv3 p hp)
  have hpmB1 : (td.getAllProjects.foldl (SyncEngine.reconcileProjectStep fg now2)
      q0).projectMap = A1.projectMap :=
    (projPhase_pm fg now2 td.getAllProjects q0).trans
      (projPhase_pm fg now1 td.getAllProjects p0).symm
  obtain ⟨c2, u2, o2, v2⟩ := sectPhase_skips fg now2 td.getAllSections
    (td.getAllProjects.foldl (SyncEngine.reconcileProjectStep fg now2) q0)
    (fun s hs hres => by
      refine sectNoteMatches_of_eq A3.obs _ ?_ s (hSinv3 s hs ?_)
      · rw [o1]
      · rw [← hpmB1]
        exact hres)
  obtain ⟨c3, u3, o3, v3⟩ := taskPhase_skips fg now2 td.getAllTasks
    (td.getAllSections.foldl (SyncEngine.reconcileSectionStep fg now2)
      (td.getAllProjects.foldl (SyncEngine.reconcileProjectStep fg now2) q0))
    (fun t ht => by
      obtain ⟨n, hget, hle⟩ := hTinv3 t ht
      refine ⟨n, ?_, hle⟩
      show JsMap.get? _ t.id = some n
      rw [show (td.getAllSections.foldl (SyncEngine.reconcileSectionStep fg now2)
          (td.getAllProjects.foldl (SyncEngine.reconcileProjectStep fg now2)
            q0)).obs.taskNotes = A3.obs.taskNotes from by rw [o2, o1]]
      exact hget)
  constructor
  · rw [c3, c2, c1]
    rfl
  · rw [u3, u2, u1]
    rfl


/-- Witness for C5 at the sample fixture: hypotheses hold and a second
reconcile over the fixture state creates and updates nothing. -/
theorem c5_reconcile_idempotent_witness :
    Fix.td.WF ∧ (∀ t ∈ Fix.td.getAllTasks, t.date_added ≤ 6000) ∧
    ((SyncEngine.reconcileStates Fix.fg 7000 Fix.td
        (SyncEngine.reconcileStates Fix.fg 6000 Fix.td ObsidianState.empty Fix.vault).obs
        (SyncEngine.reconcileStates Fix.fg 6000 Fix.td ObsidianState.empty Fix.vault).vault).stats.created =
      SyncEngine.KindCounts.zero ∧
     (SyncEngine.reconcileStates Fix.fg 7000 Fix.td
        (SyncEngine.reconcileStates Fix.fg 6000 Fix.td ObsidianState.empty Fix.vault).obs
        (SyncEngine.reconcileStates Fix.fg 6000 Fix.td ObsidianState.empty Fix.vault).vault).stats.updated =
      SyncEngine.KindCounts.zero) :=
  ⟨by unfold TodoistState.WF JsMap.KeyedBy; decide,
   by decide,
   c5_reconcile_idempotent Fix.fg 6000 7000 Fix.td ObsidianState.empty Fix.vault
     (by unfold TodoistState.WF JsMap.KeyedBy; decide) (by decide)⟩

/-- Folder-creation effects are neither document writes nor remote
mutations. -/
theorem ensureFolderAt_benign (v : Vault) (p : String) :
    ∀ e ∈ (FileGenerator.ensureFolderAt v p).2,
      e.isDocWrite = false ∧ e.isRemoteMutation = false := by
  unfold FileGenerator.ensureFolderAt
  split
  · intro e he; simp at he
  · intro e he
    simp at he
    subst he
    exact ⟨rfl, rfl⟩

/-- Under dry-run, `writeNoteFile` neither writes nor records an
effect. -/
theorem writeNoteFile_dry (fg : FileGenerator.Config) (v : Vault) (path c : String)
    (h : fg.dryRun = true) : FileGenerator.writeNoteFile fg v path c = (v, []) := by
  unfold FileGenerator.writeNoteFile
  simp [h]

/-- Under dry-run, materializing a task note only ever creates
folders. -/
theorem createOrUpdateTaskNote_dry_benign (fg : FileGenerator.Config) (v : Vault)
    (now : Nat) (task : TodoistTask) (pn sn ex : Option String)
    (h : fg.dryRun = true) :
    ∀ e ∈ (FileGenerator.createOrUpdateTaskNote fg v now task pn sn ex).effects,
      e.isDocWrite = false ∧ e.isRemoteMutation = false := by
  intro e he
  have heff : (FileGenerator.createOrUpdateTaskNote fg v now task pn sn ex).effects =
      (FileGenerator.ensureSyncFolder fg v).2 ++
      (FileGenerator.ensureFolderAt (FileGenerator.ensureSyncFolder fg v).1
        (FileGenerator.taskNotePaths fg task pn sn ex).2).2 ++ [] := by
    simp only [FileGenerator.createOrUpdateTaskNote]
    rw [writeNoteFile_dry fg _ _ _ h]
  rw [heff] at he
  rcases List.mem_append.mp he with he1 | he2
  · rcases List.mem_append.mp he1 with ha | hb
    · exact ensureFolderAt_benign v fg.syncFolderPath e ha
    · exact ensureFolderAt_benign _ _ e hb
  · simp at he2

/-- Under dry-run, materializing a project note only ever creates
folders. -/
theorem createOrUpdateProjectNote_dry_benign (fg : FileGenerator.Config) (v : Vault)
    (now : Nat) (p : TodoistProject) (h : fg.dryRun = true) :
    ∀ e ∈ (FileGenerator.createOrUpdateProjectNote fg v now p).effects,
      e.isDocWrite = false ∧ e.isRemoteMutation = false := by
  intro e he
  have heff : (FileGenerator.createOrUpdateProjectNote fg v now p).effects =
      (FileGenerator.ensureSyncFolder fg v).2 ++
      (FileGenerator.ensureFolderAt (FileGenerator.ensureSyncFolder fg v).1
        (fg.syncFolderPath ++ "/" ++ FileGenerator.sanitizeFileName p.name)).2 ++ [] := by
    simp only [FileGenerator.createOrUpdateProjectNote]
    rw [writeNoteFile_dry fg _ _ _ h]
  rw [heff] at he
  rcases List.mem_append.mp he with he1 | he2
  · rcases List.mem_append.mp he1 with ha | hb
    · exact ensureFolderAt_benign v fg.syncFolderPath e ha
    · exact ensureFolderAt_benign _ _ e hb
  · simp at he2

/-- Under dry-run, materializing a section note only ever creates
folders. -/
theorem createOrUpdateSectionNote_dry_benign (fg : FileGenerator.Config) (v : Vault)
    (now : Nat) (s : TodoistSection) (pn : String) (h : fg.dryRun = true) :
    ∀ e ∈ (FileGenerator.createOrUpdateSectionNote fg v now s pn).effects,
      e.isDocWrite = false ∧ e.isRemoteMutation = false := by
  intro e he
  have heff : (FileGenerator.createOrUpdateSectionNote fg v now s pn).effects =
      (FileGenerator.ensureSyncFolder fg v).2 ++
      (FileGenerator.ensureFolderAt (FileGenerator.ensureSyncFolder fg v).1
        (fg.syncFolderPath ++ "/" ++ FileGenerator.sanitizeFileName pn ++ "/" ++
          FileGenerator.sanitizeFileName s.name)).2 ++ [] := by
    simp only [FileGenerator.createOrUpdateSectionNote]
    rw [writeNoteFile_dry fg _ _ _ h]
  rw [heff] at he
  rcases List.mem_append.mp he with he1 | he2
  · rcases List.mem_append.mp he1 with ha | hb
    · exact ensureFolderAt_benign v fg.syncFolderPath e ha
    · exact ensureFolderAt_benign _ _ e hb
  · simp at he2

/-- Under dry-run, reconciling one task only ever creates folders. -/
theorem reconcileTask_dry_benign (fg : FileGenerator.Config) (now : Nat)
    (task : TodoistTask) (pn sn : Option String) (obs : ObsidianState) (v : Vault)
    (h : fg.dryRun = true) :
    ∀ e ∈ (SyncEngine.reconcileTask fg now task pn sn obs v).effects,
      e.isDocWrite = false ∧ e.isRemoteMutation = false := by
  intro e he
  rcases hn : obs.getTaskNote task.id with _ | note
  · simp only [SyncEngine.reconcileTask, hn] at he
    exact createOrUpdateTaskNote_dry_benign fg v now task pn sn none h e he
  · by_cases hgt : task.date_added > SyncEngine.parseLastSyncTime note.frontmatter.last_sync
    · simp only [SyncEngine.reconcileTask, hn, if_pos hgt] at he
      exact createOrUpdateTaskNote_dry_benign fg v now task pn sn (some note.filePath) h e he
    · simp only [SyncEngine.reconcileTask, hn, if_neg hgt] at he
      simp at he

/-- Under dry-run, reconciling one project only ever creates
folders. -/
theorem reconcileProject_dry_benign (fg : FileGenerator.Config) (now : Nat)
    (p : TodoistProject) (obs : ObsidianState) (v : Vault) (h : fg.dryRun = true) :
    ∀ e ∈ (SyncEngine.reconcileProject fg now p obs v).effects,
      e.isDocWrite = false ∧ e.isRemoteMutation = false := by
  intro e he
  rcases hn : obs.getProjectNote p.id with _ | note
  · simp only [SyncEngine.reconcileProject, hn] at he
    exact createOrUpdateProjectNote_dry_benign fg v now p h e he
  · by_cases hd : note.name ≠ p.name ∨ note.frontmatter.color ≠ some p.color ∨
        note.frontmatter.is_favorite ≠ some p.is_favorite
    · simp only [SyncEngine.reconcileProject, hn, if_pos hd] at he
      exact createOrUpdateProjectNote_dry_benign fg v now p h e he
    · simp only [SyncEngine.reconcileProject, hn, if_neg hd] at he
      simp at he

/-- Under dry-run, reconciling one section only ever creates
folders. -/
theorem reconcileSection_dry_benign (fg : FileGenerator.Config) (now : Nat)
    (s : TodoistSection) (pn : String) (obs : ObsidianState) (v : Vault)
    (h : fg.dryRun = true) :
    ∀ e ∈ (SyncEngine.reconcileSection fg now s pn obs v).effects,
      e.isDocWrite = false ∧ e.isRemoteMutation = false := by
  intro e he
  rcases hn : obs.getSectionNote s.id with _ | note
  · simp only [SyncEngine.reconcileSection, hn] at he
    exact createOrUpdateSectionNote_dry_benign fg v now s pn h e he
  · by_cases hd : note.name ≠ s.name
    · simp only [SyncEngine.reconcileSection, hn, if_pos hd] at he
      exact createOrUpdateSectionNote_dry_benign fg v now s pn h e he
    · simp only [SyncEngine.reconcileSection, hn, if_neg hd] at he
      simp at he

/-- A predicate on effects survives folding steps that each preserve
it. -/
theorem recPass_foldl_pred {β} (P : Effect → Prop)
    (f : SyncEngine.RecPass → β → SyncEngine.RecPass)
    (hf : ∀ acc x, (∀ e ∈ acc.effects, P e) → ∀ e ∈ (f acc x).effects, P e) :
    ∀ (l : List β) (acc : SyncEngine.RecPass),
      (∀ e ∈ acc.effects, P e) → ∀ e ∈ (l.foldl f acc).effects, P e := by
  intro l
  induction l with
  | nil => exact fun acc h => h
  | cons x xs ih => exact fun acc h => ih (f acc x) (hf acc x h)

/-- Under dry-run, a whole reconcile pass only ever creates
folders. -/
theorem reconcileStates_dry_benign (fg : FileGenerator.Config) (now : Nat)
    (td : TodoistState) (obs : ObsidianState) (v : Vault) (h : fg.dryRun = true) :
    ∀ e ∈ (SyncEngine.reconcileStates fg now td obs v).effects,
      e.isDocWrite = false ∧ e.isRemoteMutation = false := by
  have hstepP : ∀ acc p,
      (∀ e ∈ SyncEngine.RecPass.effects acc,
        Effect.isDocWrite e = false ∧ Effect.isRemoteMutation e = false) →
      ∀ e ∈ (SyncEngine.reconcileProjectStep fg now acc p).effects,
        Effect.isDocWrite e = false ∧ Effect.isRemoteMutation e = false := by
    intro acc p hacc e he
    have : (SyncEngine.reconcileProjectStep fg now acc p).effects =
        acc.effects ++ (SyncEngine.reconcileProject fg now p acc.obs acc.vault).effects :=
      rfl
    rw [this] at he
    rcases List.mem_append.mp he with h1 | h2
    · exact hacc e h1
    · exact reconcileProject_dry_benign fg now p acc.obs acc.vault h e h2
  have hstepS : ∀ acc s,
      (∀ e ∈ SyncEngine.RecPass.effects acc,
        Effect.isDocWrite e = false ∧ Effect.isRemoteMutation e = false) →
      ∀ e ∈ (SyncEngine.reconcileSectionStep fg now acc s).effects,
        Effect.isDocWrite e = false ∧ Effect.isRemoteMutation e = false := by
    intro acc s hacc e he
    by_cases hres : jsTruthyStr (JsMap.get? acc.projectMap s.project_id) = true
    · have : (SyncEngine.reconcileSectionStep fg now acc s).effects =
          acc.effects ++ (SyncEngine.reconcileSection fg now s
            ((JsMap.get? acc.projectMap s.project_id).getD "") acc.obs acc.vault).effects := by
        simp [SyncEngine.reconcileSectionStep, hres]
      rw [this] at he
      rcases List.mem_append.mp he with h1 | h2
      · exact hacc e h1
      · exact reconcileSection_dry_benign fg now s _ acc.obs acc.vault h e h2
    · have : SyncEngine.reconcileSectionStep fg now acc s = acc := by
        simp [SyncEngine.reconcileSectionStep, hres]
      rw [this] at he
      exact hacc e he
  have hstepT : ∀ acc t,
      (∀ e ∈ SyncEngine.RecPass.effects acc,
        Effect.isDocWrite e = false ∧ Effect.isRemoteMutation e = false) →
      ∀ e ∈ (SyncEngine.reconcileTaskStep fg now acc t).effects,
        Effect.isDocWrite e = false ∧ Effect.isRemoteMutation e = false := by
    intro acc t hacc e he
    have : (SyncEngine.reconcileTaskStep fg now acc t).effects =
        acc.effects ++ (SyncEngine.reconcileTask fg now t
          (JsMap.get? acc.projectMap t.project_id)
          (match t.section_id with
           | some sid => if sid ≠ "" then JsMap.get? acc.sectionMap sid else none
           | none => none) acc.obs acc.vault).effects := rfl
    rw [this] at he
    rcases List.mem_append.mp he with h1 | h2
    · exact hacc e h1
    · exact reconcileTask_dry_benign fg now t _ _ acc.obs acc.vault h e h2
  exact recPass_foldl_pred _ _ hstepT td.getAllTasks _
    (recPass_foldl_pred _ _ hstepS td.getAllSections _
      (recPass_foldl_pred _ _ hstepP td.getAllProjects _ (by intro e he; simp at he)))

/-- Under dry-run, pushing one task's changes issues nothing and
leaves the vault alone. -/
theorem syncTaskChangesToTodoist_dry (td : TodoistState) (tid : FMValue)
    (ch : SyncEngine.TaskChanges) (file : Option String) (now : Nat) (v : Vault) :
    SyncEngine.syncTaskChangesToTodoist true td tid ch file now v = (v, []) := by
  unfold SyncEngine.syncTaskChangesToTodoist
  cases tid with
  | str s =>
    cases htask : td.getTask s with
    | none => simp [htask]
    | some t => simp [htask]
  | num n => rfl
  | numNonInt s => rfl
  | bool b => rfl
  | arr xs => rfl

/-- Under dry-run, pushing one project's changes issues nothing. -/
theorem syncProjectChangesToTodoist_dry (td : TodoistState) (tid : FMValue)
    (title : Option FMValue) :
    SyncEngine.syncProjectChangesToTodoist true td tid title = [] := by
  unfold SyncEngine.syncProjectChangesToTodoist
  cases tid with
  | str s =>
    cases hproj : td.getProject s with
    | none => simp [hproj]
    | some p => simp [hproj]
  | num n => rfl
  | numNonInt s => rfl
  | bool b => rfl
  | arr xs => rfl

/-- Under dry-run, processing one pending file change is a no-op. -/
theorem processFileChange_dry (td : TodoistState) (now : Nat) (v : Vault)
    (path : String) : SyncEngine.processFileChange true td now v path = (v, []) := by
  unfold SyncEngine.processFileChange
  cases v.read path with
  | none => rfl
  | some content =>
    by_cases hscope : SyncEngine.isInSyncScope content
    · simp [hscope, syncTaskChangesToTodoist_dry, syncProjectChangesToTodoist_dry]
    · simp [hscope]

/-- Under dry-run, draining the pending queue is a no-op. -/
theorem processPendingChanges_dry (td : TodoistState) (now : Nat) (v : Vault)
    (pending : List (String × Nat)) :
    SyncEngine.processPendingChanges true td now v pending = (v, []) := by
  unfold SyncEngine.processPendingChanges
  split
  · rfl
  · have hfix : ∀ (l : List (String × Nat)) (acc : Vault × List Effect),
        l.foldl
          (fun (acc : Vault × List Effect) p =>
            let r := SyncEngine.processFileChange true td now acc.1 p.1
            (r.1, acc.2 ++ r.2))
          acc = acc := by
      intro l
      induction l with
      | nil => intro acc; rfl
      | cons x xs ih =>
        intro acc
        rw [List.foldl_cons, ih]
        simp [processFileChange_dry]
    exact hfix pending (v, [])

/-- Under dry-run, the whole local-to-remote push is a no-op: no
effects, vault unchanged. -/
theorem syncToTodoist_dry (td : TodoistState) (obs : ObsidianState) (now lst : Nat)
    (pending : List (String × Nat)) (v : Vault) :
    SyncEngine.syncToTodoist true td obs now lst pending v = (v, []) := by
  have hfix2 : ∀ (l : List ObsidianTaskNote) (acc : Vault × List Effect),
      l.foldl
        (fun (acc : Vault × List Effect) note =>
          let r := SyncEngine.syncTaskChangesToTodoist true td (.str note.todoistId)
            (SyncEngine.taskChangesOfNote note) none now acc.1
          (r.1, acc.2 ++ r.2))
        acc = acc := by
    intro l
    induction l with
    | nil => intro acc; rfl
    | cons x xs ih =>
      intro acc
      rw [List.foldl_cons, ih]
      simp [syncTaskChangesToTodoist_dry]
  have hfix3 : ∀ (l : List ObsidianProjectNote) (acc : List Effect),
      l.foldl
        (fun acc note =>
          acc ++ SyncEngine.syncProjectChangesToTodoist true td (.str note.todoistId)
            (note.frontmatter.title.map .str))
        acc = acc := by
    intro l
    induction l with
    | nil => intro acc; rfl
    | cons x xs ih =>
      intro acc
      rw [List.foldl_cons, syncProjectChangesToTodoist_dry, List.append_nil, ih]
  unfold SyncEngine.syncToTodoist
  rw [processPendingChanges_dry]
  by_cases hemp : (obs.getModifiedSince lst).1.isEmpty = true ∧
      (obs.getModifiedSince lst).2.1.isEmpty = true ∧
      (obs.getModifiedSince lst).2.2.isEmpty = true
  · simp [hemp]
  · simp [hemp, hfix2, hfix3]

/-- The per-project reconcile decision and resulting Local State do
not depend on the dry-run flag or on the vault. -/
theorem reconcileProject_congr (fg : FileGenerator.Config) (b1 b2 : Bool) (now : Nat)
    (p : TodoistProject) (obs1 obs2 : ObsidianState) (v1 v2 : Vault)
    (ho : obs1 = obs2) :
    (SyncEngine.reconcileProject { fg with dryRun := b1 } now p obs1 v1).decision =
      (SyncEngine.reconcileProject { fg with dryRun := b2 } now p obs2 v2).decision ∧
    (SyncEngine.reconcileProject { fg with dryRun := b1 } now p obs1 v1).obs =
      (SyncEngine.reconcileProject { fg with dryRun := b2 } now p obs2 v2).obs := by
  subst ho
  rcases hn : obs1.getProjectNote p.id with _ | note
  · constructor
    · simp only [SyncEngine.reconcileProject, hn]
    · simp only [SyncEngine.reconcileProject, hn]
      rfl
  · by_cases hd : note.name ≠ p.name ∨ note.frontmatter.color ≠ some p.color ∨
        note.frontmatter.is_favorite ≠ some p.is_favorite
    · constructor
      · simp only [SyncEngine.reconcileProject, hn, if_pos hd]
      · simp only [SyncEngine.reconcileProject, hn, if_pos hd]
        rfl
    · constructor
      · simp only [SyncEngine.reconcileProject, hn, if_neg hd]
      · simp only [SyncEngine.reconcileProject, hn, if_neg hd]

/-- The per-section reconcile decision and resulting Local State do
not depend on the dry-run flag or on the vault. -/
theorem reconcileSection_congr (fg : FileGenerator.Config) (b1 b2 : Bool) (now : Nat)
    (s : TodoistSection) (pn1 pn2 : String) (obs1 obs2 : ObsidianState) (v1 v2 : Vault)
    (hpn : pn1 = pn2) (ho : obs1 = obs2) :
    (SyncEngine.reconcileSection { fg with dryRun := b1 } now s pn1 obs1 v1).decision =
      (SyncEngine.reconcileSection { fg with dryRun := b2 } now s pn2 obs2 v2).decision ∧
    (SyncEngine.reconcileSection { fg with dryRun := b1 } now s pn1 obs1 v1).obs =
      (SyncEngine.reconcileSection { fg with dryRun := b2 } now s pn2 obs2 v2).obs := by
  subst hpn
  subst ho
  rcases hn : obs1.getSectionNote s.id with _ | note
  · constructor
    · simp only [SyncEngine.reconcileSection, hn]
    · simp only [SyncEngine.reconcileSection, hn]
      rfl
  · by_cases hd : note.name ≠ s.name
    · constructor
      · simp only [SyncEngine.reconcileSection, hn, if_pos hd]
      · simp only [SyncEngine.reconcileSection, hn, if_pos hd]
        rfl
    · constructor
      · simp only [SyncEngine.reconcileSection, hn, if_neg hd]
      · simp only [SyncEngine.reconcileSection, hn, if_neg hd]

/-- The per-task reconcile decision and resulting Local State do not
depend on the dry-run flag or on the vault. -/
theorem reconcileTask_congr (fg : FileGenerator.Config) (b1 b2 : Bool) (now : Nat)
    (t : TodoistTask) (pn1 pn2 sn1 sn2 : Option String) (obs1 obs2 : ObsidianState)
    (v1 v2 : Vault) (hpn : pn1 = pn2) (hsn : sn1 = sn2) (ho : obs1 = obs2) :
    (SyncEngine.reconcileTask { fg with dryRun := b1 } now t pn1 sn1 obs1 v1).decision =
      (SyncEngine.reconcileTask { fg with dryRun := b2 } now t pn2 sn2 obs2 v2).decision ∧
    (SyncEngine.reconcileTask { fg with dryRun := b1 } now t pn1 sn1 obs1 v1).obs =
      (SyncEngine.reconcileTask { fg with dryRun := b2 } now t pn2 sn2 obs2 v2).obs := by
  subst hpn
  subst hsn
  subst ho
  rcases hn : obs1.getTaskNote t.id with _ | note
  · constructor
    · simp only [SyncEngine.reconcileTask, hn]
    · simp only [SyncEngine.reconcileTask, hn]
      rfl
  · by_cases hgt : t.date_added > SyncEngine.parseLastSyncTime note.frontmatter.last_sync
    · constructor
      · simp only [SyncEngine.reconcileTask, hn, if_pos hgt]
      · simp only [SyncEngine.reconcileTask, hn, if_pos hgt]
        rfl
    · constructor
      · simp only [SyncEngine.reconcileTask, hn, if_neg hgt]
      · simp only [SyncEngine.reconcileTask, hn, if_neg hgt]

/-- A binary relation on pass accumulators survives folding pairs of
steps that each preserve it. -/
theorem recPass_foldl_rel {β} (R : SyncEngine.RecPass → SyncEngine.RecPass → Prop)
    (f1 f2 : SyncEngine.RecPass → β → SyncEngine.RecPass)
    (hstep : ∀ a1 a2 x, R a1 a2 → R (f1 a1 x) (f2 a2 x)) :
    ∀ (l : List β) (a1 a2 : SyncEngine.RecPass), R a1 a2 →
      R (l.foldl f1 a1) (l.foldl f2 a2) := by
  intro l
  induction l with
  | nil => exact fun a1 a2 h => h
  | cons x xs ih => exact fun a1 a2 h => ih (f1 a1 x) (f2 a2 x) (hstep a1 a2 x h)

/-- The project phase preserves stats/obs/map agreement between a
dry-run pass and a real pass over different vaults. -/
theorem reconcileProjectStep_congr (fg : FileGenerator.Config) (b1 b2 : Bool) (now : Nat)
    (a1 a2 : SyncEngine.RecPass) (p : TodoistProject)
    (hs : a1.stats = a2.stats) (ho : a1.obs = a2.obs)
    (hp : a1.projectMap = a2.projectMap) (hm : a1.sectionMap = a2.sectionMap) :
    (SyncEngine.reconcileProjectStep { fg with dryRun := b1 } now a1 p).stats =
      (SyncEngine.reconcileProjectStep { fg with dryRun := b2 } now a2 p).stats ∧
    (SyncEngine.reconcileProjectStep { fg with dryRun := b1 } now a1 p).obs =
      (SyncEngine.reconcileProjectStep { fg with dryRun := b2 } now a2 p).obs ∧
    (SyncEngine.reconcileProjectStep { fg with dryRun := b1 } now a1 p).projectMap =
      (SyncEngine.reconcileProjectStep { fg with dryRun := b2 } now a2 p).projectMap ∧
    (SyncEngine.reconcileProjectStep { fg with dryRun := b1 } now a1 p).sectionMap =
      (SyncEngine.reconcileProjectStep { fg with dryRun := b2 } now a2 p).sectionMap := by
  obtain ⟨hd, hoo⟩ :=
    reconcileProject_congr fg b1 b2 now p a1.obs a2.obs a1.vault a2.vault ho
  refine ⟨?_, ?_, ?_, ?_⟩
  · show a1.stats.bumpProjects _ = a2.stats.bumpProjects _
    rw [hs, hd]
  · exact hoo
  · show a1.projectMap.set p.id p.name = a2.projectMap.set p.id p.name
    rw [hp]
  · exact hm

/-- The section phase preserves stats/obs/map agreement between a
dry-run pass and a real pass over different vaults. -/
theorem reconcileSectionStep_congr (fg : FileGenerator.Config) (b1 b2 : Bool) (now : Nat)
    (a1 a2 : SyncEngine.RecPass) (s : TodoistSection)
    (hs : a1.stats = a2.stats) (ho : a1.obs = a2.obs)
    (hp : a1.projectMap = a2.projectMap) (hm : a1.sectionMap = a2.sectionMap) :
    (SyncEngine.reconcileSectionStep { fg with dryRun := b1 } now a1 s).stats =
      (SyncEngine.reconcileSectionStep { fg with dryRun := b2 } now a2 s).stats ∧
    (SyncEngine.reconcileSectionStep { fg with dryRun := b1 } now a1 s).obs =
      (SyncEngine.reconcileSectionStep { fg with dryRun := b2 } now a2 s).obs ∧
    (SyncEngine.reconcileSectionStep { fg with dryRun := b1 } now a1 s).projectMap =
      (SyncEngine.reconcileSectionStep { fg with dryRun := b2 } now a2 s).projectMap ∧
    (SyncEngine.reconcileSectionStep { fg with dryRun := b1 } now a1 s).sectionMap =
      (SyncEngine.reconcileSectionStep { fg with dryRun := b2 } now a2 s).sectionMap := by
  by_cases hres : jsTruthyStr (JsMap.get? a1.projectMap s.project_id) = true
  · have hres2 : jsTruthyStr (JsMap.get? a2.projectMap s.project_id) = true := by
      rw [← hp]; exact hres
    obtain ⟨hd, hoo⟩ := reconcileSection_congr fg b1 b2 now s
      ((JsMap.get? a1.projectMap s.project_id).getD "")
      ((JsMap.get? a2.projectMap s.project_id).getD "")
      a1.obs a2.obs a1.vault a2.vault (by rw [hp]) ho
    refine ⟨?_, ?_, ?_, ?_⟩
    · simp only [SyncEngine.reconcileSectionStep, hres, hres2, if_true]
      show a1.stats.bumpSections _ = a2.stats.bumpSections _
      rw [hs, hd]
    · simp only [SyncEngine.reconcileSectionStep, hres, hres2, if_true]
      exact hoo
    · simp only [SyncEngine.reconcileSectionStep, hres, hres2, if_true]
      exact hp
    · simp only [SyncEngine.reconcileSectionStep, hres, hres2, if_true]
      show a1.sectionMap.set s.id s.name = a2.sectionMap.set s.id s.name
      rw [hm]
  · have hres2 : ¬ jsTruthyStr (JsMap.get? a2.projectMap s.project_id) = true := by
      rw [← hp]; exact hres
    have h1 : SyncEngine.reconcileSectionStep { fg with dryRun := b1 } now a1 s = a1 := by
      simp [SyncEngine.reconcileSectionStep, hres]
    have h2 : SyncEngine.reconcileSectionStep { fg with dryRun := b2 } now a2 s = a2 := by
      simp [SyncEngine.reconcileSectionStep, hres2]
    rw [h1, h2]
    exact ⟨hs, ho, hp, hm⟩

/-- The task phase preserves stats/obs/map agreement between a
dry-run pass and a real pass over different vaults. -/
theorem reconcileTaskStep_congr (fg : FileGenerator.Config) (b1 b2 : Bool) (now : Nat)
    (a1 a2 : SyncEngine.RecPass) (t : TodoistTask)
    (hs : a1.stats = a2.stats) (ho : a1.obs = a2.obs)
    (hp : a1.projectMap = a2.projectMap) (hm : a1.sectionMap = a2.sectionMap) :
    (SyncEngine.reconcileTaskStep { fg with dryRun := b1 } now a1 t).stats =
      (SyncEngine.reconcileTaskStep { fg with dryRun := b2 } now a2 t).stats ∧
    (SyncEngine.reconcileTaskStep { fg with dryRun := b1 } now a1 t).obs =
      (SyncEngine.reconcileTaskStep { fg with dryRun := b2 } now a2 t).obs ∧
    (SyncEngine.reconcileTaskStep { fg with dryRun := b1 } now a1 t).projectMap =
      (SyncEngine.reconcileTaskStep { fg with dryRun := b2 } now a2 t).projectMap ∧
    (SyncEngine.reconcileTaskStep { fg with dryRun := b1 } now a1 t).sectionMap =
      (SyncEngine.reconcileTaskStep { fg with dryRun := b2 } now a2 t).sectionMap := by
  obtain ⟨hd, hoo⟩ := reconcileTask_congr fg b1 b2 now t
    (JsMap.get? a1.projectMap t.project_id) (JsMap.get? a2.projectMap t.project_id)
    (match t.section_id with
     | some sid => if sid ≠ "" then JsMap.get? a1.sectionMap sid else none
     | none => none)
    (match t.section_id with
     | some sid => if sid ≠ "" then JsMap.get? a2.sectionMap sid else none
     | none => none)
    a1.obs a2.obs a1.vault a2.vault (by rw [hp]) (by rw [hm]) ho
  refine ⟨?_, ?_, ?_, ?_⟩
  · show a1.stats.bumpTasks _ = a2.stats.bumpTasks _
    rw [hs, hd]
  · exact hoo
  · exact hp
  · exact hm

/-- The reconcile pass's decision stats and resulting Local State are
identical under dry-run and real mode, whatever vaults the two modes
start from. -/
theorem reconcileStates_congr (fg : FileGenerator.Config) (b1 b2 : Bool) (now : Nat)
    (td : TodoistState) (obs : ObsidianState) (v1 v2 : Vault) :
    (SyncEngine.reconcileStates { fg with dryRun := b1 } now td obs v1).stats =
      (SyncEngine.reconcileStates { fg with dryRun := b2 } now td obs v2).stats ∧
    (SyncEngine.reconcileStates { fg with dryRun := b1 } now td obs v1).obs =
      (SyncEngine.reconcileStates { fg with dryRun := b2 } now td obs v2).obs := by
  have main := recPass_foldl_rel
    (fun a1 a2 => a1.stats = a2.stats ∧ a1.obs = a2.obs ∧
      a1.projectMap = a2.projectMap ∧ a1.sectionMap = a2.sectionMap)
    (SyncEngine.reconcileTaskStep { fg with dryRun := b1 } now)
    (SyncEngine.reconcileTaskStep { fg with dryRun := b2 } now)
    (fun a1 a2 x h =>
      reconcileTaskStep_congr fg b1 b2 now a1 a2 x h.1 h.2.1 h.2.2.1 h.2.2.2)
    td.getAllTasks _ _
    (recPass_foldl_rel
      (fun a1 a2 => a1.stats = a2.stats ∧ a1.obs = a2.obs ∧
        a1.projectMap = a2.projectMap ∧ a1.sectionMap = a2.sectionMap)
      (SyncEngine.reconcileSectionStep { fg with dryRun := b1 } now)
      (SyncEngine.reconcileSectionStep { fg with dryRun := b2 } now)
      (fun a1 a2 x h =>
        reconcileSectionStep_congr fg b1 b2 now a1 a2 x h.1 h.2.1 h.2.2.1 h.2.2.2)
      td.getAllSections _ _
      (recPass_foldl_rel
        (fun a1 a2 => a1.stats = a2.stats ∧ a1.obs = a2.obs ∧
          a1.projectMap = a2.projectMap ∧ a1.sectionMap = a2.sectionMap)
        (SyncEngine.reconcileProjectStep { fg with dryRun := b1 } now)
        (SyncEngine.reconcileProjectStep { fg with dryRun := b2 } now)
        (fun a1 a2 x h =>
          reconcileProjectStep_congr fg b1 b2 now a1 a2 x h.1 h.2.1 h.2.2.1 h.2.2.2)
        td.getAllProjects
        ⟨SyncEngine.RecStats.zero, obs, v1, [], [], []⟩
        ⟨SyncEngine.RecStats.zero, obs, v2, [], [], []⟩
        ⟨rfl, rfl, rfl, rfl⟩))
  exact ⟨main.1, main.2.1⟩

/-- C1 (counterexample): a dry-run `performSync` over an empty vault,
with a remote project and task to materialize, still issues storage
writes: folder creation runs before the dry-run check. -/
theorem c1_counterexample :
    (SyncEngine.performSync
        { Fix.engine with settings := { Fix.settings with dryRunMode := true } }
        ⟨true, none, [Fix.p1], [Fix.t1], [], []⟩ ObsidianState.empty Fix.vault
        7).effects.any Effect.isStorageWrite = true ∧
    Effect.createFolder "Todoist" ∈
      (SyncEngine.performSync
        { Fix.engine with settings := { Fix.settings with dryRunMode := true } }
        ⟨true, none, [Fix.p1], [Fix.t1], [], []⟩ ObsidianState.empty Fix.vault
        7).effects := by
  constructor
  · decide
  · decide

/-- C1 (amended): dry-run `performSync` yields exactly the decision
stats of the real run over the same inputs, and issues no document
write and no remote mutation — but it may still create folders. -/
theorem c1_amended (eng : SyncEngine.Engine) (api : SyncEngine.ApiEnv)
    (scanned : ObsidianState) (v : Vault) (now : Nat)
    (hdry : eng.settings.dryRunMode = true) :
    (SyncEngine.performSync eng api scanned v now).stats =
      (SyncEngine.performSync
        { eng with settings := { eng.settings with dryRunMode := false } }
        api scanned v now).stats ∧
    ∀ e ∈ (SyncEngine.performSync eng api scanned v now).effects,
      e.isDocWrite = false ∧ e.isRemoteMutation = false := by
  by_cases hr : eng.isRunning = true
  · constructor
    · simp [SyncEngine.performSync, hr]
    · intro e he
      simp [SyncEngine.performSync, hr] at he
  · by_cases ht : eng.settings.todoistApiToken = ""
    · constructor
      · simp [SyncEngine.performSync, hr, ht]
      · intro e he
        simp [SyncEngine.performSync, hr, ht] at he
    · by_cases hc : api.connectionOk = true
      · have hfg : eng.settings.fgConfig.dryRun = true := hdry
        have hr1 : SyncEngine.syncToTodoist eng.settings.dryRunMode
            (SyncEngine.syncFromTodoist api now eng.todoistState) scanned now
            eng.lastSyncTime eng.pendingChanges v =
            (v, []) := by
          rw [hdry]
          exact syncToTodoist_dry _ _ _ _ _ _
        constructor
        · simp only [SyncEngine.performSync, hr, ht, hc, if_neg, if_pos,
            Bool.not_true, if_false]
          simp [hr, ht, hc]
          exact (reconcileStates_congr eng.settings.fgConfig eng.settings.dryRunMode
            false now (SyncEngine.syncFromTodoist api now eng.todoistState) scanned
            _ _).1
        · intro e he
          simp only [SyncEngine.performSync] at he
          simp [hr, ht, hc, hr1] at he
          exact reconcileStates_dry_benign eng.settings.fgConfig now
            (SyncEngine.syncFromTodoist api now eng.todoistState) scanned _ hfg e he
      · constructor
        · simp [SyncEngine.performSync, hr, ht, hc]
        · intro e he
          simp [SyncEngine.performSync, hr, ht, hc] at he

/-- Witness for amended C1: at the fixture inputs, the dry-run flag is
set, the dry and real runs report identical stats, and every dry-run
effect is neither a document write nor a remote mutation. -/
theorem c1_amended_witness :
    ({ Fix.engine with settings := { Fix.settings with dryRunMode := true } } :
        SyncEngine.Engine).settings.dryRunMode = true ∧
    ((SyncEngine.performSync
        { Fix.engine with settings := { Fix.settings with dryRunMode := true } }
        ⟨true, none, [Fix.p1], [Fix.t1], [], []⟩ ObsidianState.empty Fix.vault 7).stats =
      (SyncEngine.performSync
        { { Fix.engine with settings := { Fix.settings with dryRunMode := true } } with
          settings := { ({ Fix.engine with
            settings := { Fix.settings with dryRunMode := true } } :
              SyncEngine.Engine).settings with dryRunMode := false } }
        ⟨true, none, [Fix.p1], [Fix.t1], [], []⟩ ObsidianState.empty Fix.vault 7).stats ∧
     ∀ e ∈ (SyncEngine.performSync
        { Fix.engine with settings := { Fix.settings with dryRunMode := true } }
        ⟨true, none, [Fix.p1], [Fix.t1], [], []⟩ ObsidianState.empty Fix.vault
        7).effects,
       e.isDocWrite = false ∧ e.isRemoteMutation = false) :=
  ⟨rfl,
   c1_amended { Fix.engine with settings := { Fix.settings with dryRunMode := true } }
     ⟨true, none, [Fix.p1], [Fix.t1], [], []⟩ ObsidianState.empty Fix.vault 7 rfl⟩

/-! ### Codec round-trip helper lemmas (C4) -/

/-- `split` on a separator-free chunk yields one field. -/
theorem splitAux_no_sep (sep : Char) :
    ∀ (cs acc : List Char), sep ∉ cs →
      splitOnCharAux sep cs acc = [acc.reverse ++ cs] := by
  intro cs
  induction cs with
  | nil => intro acc h; simp [splitOnCharAux]
  | cons c cs ih =>
    intro acc h
    have hc : ¬ c = sep := fun hh => h (hh ▸ List.mem_cons_self c cs)
    have hcs : sep ∉ cs := fun hh => h (List.mem_cons_of_mem c hh)
    rw [splitOnCharAux, if_neg hc, ih (c :: acc) hcs]
    simp

/-- `split` peels one separator-free field at each separator. -/
theorem splitAux_append_sep (sep : Char) :
    ∀ (xs rest acc : List Char), sep ∉ xs →
      splitOnCharAux sep (xs ++ sep :: rest) acc =
        (acc.reverse ++ xs) :: splitOnCharAux sep rest [] := by
  intro xs
  induction xs with
  | nil =>
    intro rest acc h
    simp [splitOnCharAux]
  | cons x xs ih =>
    intro rest acc h
    have hx : ¬ x = sep := fun hh => h (hh ▸ List.mem_cons_self x xs)
    have hxs : sep ∉ xs := fun hh => h (List.mem_cons_of_mem x hh)
    rw [List.cons_append, splitOnCharAux, if_neg hx, ih rest (x :: acc) hxs]
    simp

/-- The character data of `String.join`. -/
theorem data_join : ∀ L : List String,
    (String.join L).data = (L.map String.data).flatten := by
  have haux : ∀ (L : List String) (s : String),
      (L.foldl (· ++ ·) s).data = s.data ++ (L.map String.data).flatten := by
    intro L
    induction L with
    | nil => intro s; simp
    | cons l ls ih =>
      intro s
      rw [List.foldl_cons, ih]
      simp
  intro L
  have := haux L ""
  simpa [String.join] using this

/-- Splitting the flattened newline-terminated lines followed by the
closing delimiter recovers the lines and the delimiter. -/
theorem splitAux_lines : ∀ (ls : List String), (∀ l ∈ ls, '\n' ∉ l.data) →
    splitOnCharAux '\n' ((ls.map (fun l => l.data ++ ['\n'])).flatten ++ "---".data) [] =
      ls.map String.data ++ ["---".data] := by
  intro ls
  induction ls with
  | nil =>
    intro h
    rw [List.map_nil, List.flatten_nil, List.nil_append,
      splitAux_no_sep '\n' _ [] (by decide)]
    rfl
  | cons l ls ih =>
    intro h
    have hl : '\n' ∉ l.data := h l (List.mem_cons_self l ls)
    have hls : ∀ x ∈ ls, '\n' ∉ x.data := fun x hx => h x (List.mem_cons_of_mem l hx)
    rw [List.map_cons, List.flatten_cons, List.append_assoc, List.append_assoc,
      List.singleton_append, splitAux_append_sep '\n' l.data _ [] hl, ih hls]
    simp

/-- Splitting a serialized frontmatter document into lines yields the
opening delimiter, the entry lines, and the closing delimiter. -/
theorem jsSplitLines_serialized (ls : List String) (h : ∀ l ∈ ls, '\n' ∉ l.data) :
    jsSplitLines ("---\n" ++ String.join (ls.map (· ++ "\n")) ++ "---") =
      "---" :: (ls ++ ["---"]) := by
  have hdata : ("---\n" ++ String.join (ls.map (· ++ "\n")) ++ "---").data =
      "---".data ++ '\n' :: ((ls.map (fun l => l.data ++ ['\n'])).flatten ++ "---".data) := by
    rw [String.data_append, String.data_append, data_join, List.map_map]
    have : (ls.map (String.data ∘ (· ++ "\n"))) = ls.map (fun l => l.data ++ ['\n']) := by
      apply List.map_congr_left
      intro l _
      simp [String.data_append]
    rw [this]
    simp
  unfold jsSplitLines
  rw [hdata, splitAux_append_sep '\n' "---".data _ [] (by decide), splitAux_lines ls h]
  have hcomp : ((fun x => (⟨x⟩ : String)) ∘ String.data) = id := funext fun s => rfl
  simp only [List.map_append, List.map_cons, List.map_nil, List.map_map, hcomp,
    List.map_id]
  rfl

/-- `findDelim` finds the closing delimiter after any run of
non-delimiter lines. -/
theorem findDelim_lines : ∀ (ls : List String), (∀ l ∈ ls, l ≠ "---") →
    FrontmatterParser.findDelim (ls ++ ["---"]) = some (ls, []) := by
  intro ls
  induction ls with
  | nil => intro h; rfl
  | cons l ls ih =>
    intro h
    have hl : ¬ l = "---" := h l (List.mem_cons_self l ls)
    have hls : ∀ x ∈ ls, x ≠ "---" := fun x hx => h x (List.mem_cons_of_mem l hx)
    rw [List.cons_append, FrontmatterParser.findDelim, if_neg hl, ih hls]
    rfl

/-- Splitting the joined lines recovers them, when none holds a
newline. -/
theorem jsSplitLines_join : ∀ (ls : List String), ls ≠ [] →
    (∀ l ∈ ls, '\n' ∉ l.data) → jsSplitLines (jsJoinLines ls) = ls := by
  intro ls
  induction ls with
  | nil => intro h; exact absurd rfl h
  | cons l ls ih =>
    intro _ h
    have hl : '\n' ∉ l.data := h l (List.mem_cons_self l ls)
    have hls : ∀ x ∈ ls, '\n' ∉ x.data := fun x hx => h x (List.mem_cons_of_mem l hx)
    cases ls with
    | nil =>
      unfold jsSplitLines jsJoinLines
      simp only [List.map_cons, List.map_nil, List.intersperse_single,
        List.flatten_cons, List.flatten_nil, List.append_nil]
      rw [splitAux_no_sep '\n' l.data [] hl]
      simp
    | cons m ms =>
      have hjoin : jsJoinLines (l :: m :: ms) = ⟨l.data ++ '\n' :: (jsJoinLines (m :: ms)).data⟩ := by
        unfold jsJoinLines
        simp [List.intersperse]
      unfold jsSplitLines
      rw [hjoin]
      show (splitOnCharAux '\n' (l.data ++ '\n' :: (jsJoinLines (m :: ms)).data) []).map _ =
        _
      rw [splitAux_append_sep '\n' l.data _ [] hl]
      have ihres := ih (by simp) hls
      unfold jsSplitLines at ihres
      simp only [List.map_cons, List.nil_append] at ihres ⊢
      rw [ihres]
      rfl

/-- Inserting a fresh key appends it. -/
theorem insertJs_fresh (m : List (String × FMValue)) (k : String) (v : FMValue)
    (h : ¬ ∃ p ∈ m, p.1 = k) :
    FrontmatterParser.insertJs m k v = m ++ [(k, v)] := by
  unfold FrontmatterParser.insertJs
  rw [if_neg]
  intro hany
  obtain ⟨p, hp, hpk⟩ := List.any_eq_true.mp hany
  exact h ⟨p, hp, of_decide_eq_true hpk⟩

/-- The digit-emitting worker ignores the exact fuel once it
suffices. -/
theorem natDigitsAux_fuel : ∀ (f1 f2 n : Nat) (acc : List Char), n < f1 → n < f2 →
    natDigitsAux f1 n acc = natDigitsAux f2 n acc := by
  intro f1
  induction f1 with
  | zero => intro f2 n acc h1 _; exact absurd h1 (Nat.not_lt_zero n)
  | succ g ih =>
    intro f2 n acc h1 h2
    cases f2 with
    | zero => exact absurd h2 (Nat.not_lt_zero n)
    | succ g2 =>
      by_cases hn : n < 10
      · rw [natDigitsAux, natDigitsAux, if_pos hn, if_pos hn]
      · rw [natDigitsAux, natDigitsAux, if_neg hn, if_neg hn]
        have hd : n / 10 < n := Nat.div_lt_self (by omega) (by omega)
        exact ih g2 (n / 10) _ (by omega) (by omega)

/-- The worker's accumulator is a suffix. -/
theorem natDigitsAux_append : ∀ (f n : Nat) (acc : List Char), n < f →
    natDigitsAux f n acc = natDigitsAux f n [] ++ acc := by
  intro f
  induction f with
  | zero => intro n acc h; exact absurd h (Nat.not_lt_zero n)
  | succ g ih =>
    intro n acc h
    by_cases hn : n < 10
    · rw [natDigitsAux, natDigitsAux, if_pos hn, if_pos hn]
      rfl
    · rw [natDigitsAux, natDigitsAux, if_neg hn, if_neg hn]
      have hd : n / 10 < n := Nat.div_lt_self (by omega) (by omega)
      rw [ih (n / 10) _ (by omega), ih (n / 10) [Char.ofNat (48 + n % 10)] (by omega)]
      simp

/-- Digits of a single-digit number. -/
theorem natToDigits_lt (n : Nat) (h : n < 10) :
    natToDigits n = [Char.ofNat (48 + n)] := by
  unfold natToDigits
  rw [natDigitsAux, if_pos h]

/-- Digit recursion for multi-digit numbers. -/
theorem natToDigits_ge (n : Nat) (h : ¬ n < 10) :
    natToDigits n = natToDigits (n / 10) ++ [Char.ofNat (48 + n % 10)] := by
  unfold natToDigits
  rw [natDigitsAux, if_neg h]
  have hd : n / 10 < n := Nat.div_lt_self (by omega) (by omega)
  rw [natDigitsAux_fuel n (n / 10 + 1) (n / 10) _ hd (Nat.lt_succ_self _),
    natDigitsAux_append (n / 10 + 1) (n / 10) _ (Nat.lt_succ_self _)]

/-- Code point of an emitted digit character. -/
theorem toNat_digitChar (d : Nat) (h : d < 10) : (Char.ofNat (48 + d)).toNat = 48 + d := by
  interval_cases d <;> decide

/-- Emitted digit characters are digits. -/
theorem isDigit_digitChar (d : Nat) (h : d < 10) :
    isDigitChar (Char.ofNat (48 + d)) = true := by
  interval_cases d <;> decide

/-- All characters of `natToDigits` are digits. -/
theorem natToDigits_all (n : Nat) : (natToDigits n).all isDigitChar = true := by
  induction n using Nat.strong_induction_on with
  | _ n ih =>
    by_cases hn : n < 10
    · rw [natToDigits_lt n hn]
      simp [isDigit_digitChar n hn]
    · rw [natToDigits_ge n hn]
      have hd : n / 10 < n := Nat.div_lt_self (by omega) (by omega)
      rw [List.all_append]
      simp only [ih (n / 10) hd, Bool.true_and, List.all_cons, List.all_nil,
        Bool.and_true]
      exact isDigit_digitChar (n % 10) (Nat.mod_lt n (by omega))

/-- `natToDigits` never returns the empty list. -/
theorem natToDigits_ne_nil (n : Nat) : natToDigits n ≠ [] := by
  by_cases hn : n < 10
  · rw [natToDigits_lt n hn]
    simp
  · rw [natToDigits_ge n hn]
    simp

/-- Reading the emitted digits back gives the number. -/
theorem digitsVal_natToDigits (n : Nat) : digitsVal (natToDigits n) = n := by
  induction n using Nat.strong_induction_on with
  | _ n ih =>
    by_cases hn : n < 10
    · rw [natToDigits_lt n hn]
      unfold digitsVal
      rw [List.foldl_cons, List.foldl_nil, toNat_digitChar n hn]
      omega
    · rw [natToDigits_ge n hn]
      have hd : n / 10 < n := Nat.div_lt_self (by omega) (by omega)
      unfold digitsVal
      rw [List.foldl_append, List.foldl_cons, List.foldl_nil]
      have hmod : n % 10 < 10 := Nat.mod_lt n (by omega)
      rw [toNat_digitChar (n % 10) hmod]
      have hiv := ih (n / 10) hd
      unfold digitsVal at hiv
      rw [hiv]
      omega

/-- A digit character is not whitespace, not a quote, bracket, sign,
letter, comment or newline character. -/
theorem digitChar_facts (c : Char) (h : isDigitChar c = true) :
    jsWhitespace c = false ∧ c ≠ '\n' ∧ c ≠ '"' ∧ c ≠ '\'' ∧ c ≠ '[' ∧ c ≠ '-' ∧
      c ≠ '+' ∧ c ≠ 't' ∧ c ≠ 'f' ∧ c ≠ ']' := by
  refine ⟨?_, ?_, ?_, ?_, ?_, ?_, ?_, ?_, ?_, ?_⟩
  · rcases Bool.eq_false_or_eq_true (jsWhitespace c) with ht | hf
    · exfalso
      simp [jsWhitespace] at ht
      rcases ht with ((((rfl | rfl) | rfl) | rfl) | rfl) | rfl <;>
        exact absurd h (by decide)
    · exact hf
  · rintro rfl; exact absurd h (by decide)
  · rintro rfl; exact absurd h (by decide)
  · rintro rfl; exact absurd h (by decide)
  · rintro rfl; exact absurd h (by decide)
  · rintro rfl; exact absurd h (by decide)
  · rintro rfl; exact absurd h (by decide)
  · rintro rfl; exact absurd h (by decide)
  · rintro rfl; exact absurd h (by decide)
  · rintro rfl; exact absurd h (by decide)

/-- `dropWhile` is the identity when the head fails the predicate. -/
theorem dropWhile_eq_self_of_head (p : Char → Bool) (cs : List Char)
    (h : ∀ c, cs.head? = some c → p c = false) : cs.dropWhile p = cs := by
  cases cs with
  | nil => rfl
  | cons c cs =>
    rw [List.dropWhile_cons, if_neg]
    simp [h c rfl]

/-- `trim()` is the identity when neither end is whitespace. -/
theorem trimL_eq_self (cs : List Char)
    (h1 : ∀ c, cs.head? = some c → jsWhitespace c = false)
    (h2 : ∀ c, cs.getLast? = some c → jsWhitespace c = false) : trimL cs = cs := by
  unfold trimL
  rw [dropWhile_eq_self_of_head jsWhitespace cs h1,
    dropWhile_eq_self_of_head jsWhitespace cs.reverse
      (fun c hc => h2 c (by rwa [List.head?_reverse] at hc)),
    List.reverse_reverse]

/-- `trim()` drops a leading whitespace character. -/
theorem trimL_cons_ws (c : Char) (cs : List Char) (h : jsWhitespace c = true) :
    trimL (c :: cs) = trimL cs := by
  unfold trimL
  rw [List.dropWhile_cons, if_pos (by simp [h])]

/-- Stripping quotes from an explicitly double-quoted chunk. -/
theorem stripMatchingQuotes_quoted (cs : List Char) :
    FrontmatterParser.stripMatchingQuotes ('"' :: cs ++ ['"']) = cs := by
  unfold FrontmatterParser.stripMatchingQuotes
  rw [if_pos]
  · show (cs ++ ['"']).dropLast = cs
    exact List.dropLast_concat
  · exact ⟨rfl, by rw [show ('"' :: cs ++ ['"']) = ('"' :: cs) ++ ['"'] from rfl,
      List.getLast?_concat]⟩

/-- Quote stripping is the identity when the head is no quote. -/
theorem stripMatchingQuotes_eq_self (cs : List Char)
    (h1 : cs.head? ≠ some '"') (h2 : cs.head? ≠ some '\'') :
    FrontmatterParser.stripMatchingQuotes cs = cs := by
  unfold FrontmatterParser.stripMatchingQuotes
  rw [if_neg (fun hc => h1 hc.1), if_neg (fun hc => h2 hc.1)]

/-- The colon split on a serialized line cuts exactly at the
serializer's colon. -/
theorem breakOnColon_append (k rest : List Char) (hk : ':' ∉ k) :
    FrontmatterParser.breakOnColon (k ++ ':' :: rest) = some (k, rest) := by
  induction k with
  | nil => simp [FrontmatterParser.breakOnColon]
  | cons c cs ih =>
    have hc : ¬ c = ':' := fun hh => hk (hh ▸ List.mem_cons_self c cs)
    have hcs : ':' ∉ cs := fun hh => hk (List.mem_cons_of_mem c hh)
    rw [List.cons_append, FrontmatterParser.breakOnColon, if_neg hc, ih hcs]
    rfl

/-- Unpacking `allDigits`. -/
theorem allDigits_props (cs : List Char) (h : allDigits cs = true) :
    cs ≠ [] ∧ ∀ c ∈ cs, isDigitChar c = true := by
  unfold allDigits at h
  rcases Bool.and_eq_true_iff.mp h with ⟨h1, h2⟩
  constructor
  · intro hnil
    rw [hnil] at h1
    exact absurd h1 (by decide)
  · exact fun c hc => List.all_eq_true.mp h2 c hc

/-- `takeWhile` keeps a list all of whose members satisfy the
predicate. -/
theorem takeWhile_all (p : Char → Bool) (cs : List Char)
    (h : ∀ c ∈ cs, p c = true) : cs.takeWhile p = cs := by
  induction cs with
  | nil => rfl
  | cons c cs ih =>
    rw [List.takeWhile_cons, if_pos (h c (List.mem_cons_self c cs)),
      ih fun x hx => h x (List.mem_cons_of_mem c hx)]

/-- `dropWhile` drops a list all of whose members satisfy the
predicate. -/
theorem dropWhile_all (p : Char → Bool) (cs : List Char)
    (h : ∀ c ∈ cs, p c = true) : cs.dropWhile p = [] := by
  induction cs with
  | nil => rfl
  | cons c cs ih =>
    rw [List.dropWhile_cons, if_pos (h c (List.mem_cons_self c cs)),
      ih fun x hx => h x (List.mem_cons_of_mem c hx)]

/-- A pure digit string is a decimal literal body. -/
theorem decCore_allDigits (cs : List Char) (h : allDigits cs = true) :
    decCore cs = true := by
  obtain ⟨hne, hall⟩ := allDigits_props cs h
  unfold decCore
  rw [takeWhile_all isDigitChar cs hall, dropWhile_all isDigitChar cs hall]
  have hemp : cs.isEmpty = false := by
    cases cs with
    | nil => exact absurd rfl hne
    | cons c cs => rfl
  simp only [hemp]
  rfl

/-- The reported last element is a member. -/
theorem mem_of_getLast? {α} : ∀ (l : List α) (a : α), l.getLast? = some a → a ∈ l := by
  intro l
  induction l with
  | nil => intro a h; exact absurd h (by simp)
  | cons x xs ih =>
    intro a h
    cases xs with
    | nil =>
      simp only [List.getLast?_singleton, Option.some.injEq] at h
      exact h ▸ List.mem_cons_self x []
    | cons y ys =>
      rw [List.getLast?_cons_cons] at h
      exact List.mem_cons_of_mem x (ih a h)

/-- `trim()` is the identity on a nonempty all-digit string. -/
theorem trimL_all_digits (cs : List Char) (h : ∀ c ∈ cs, isDigitChar c = true) :
    trimL cs = cs := by
  apply trimL_eq_self
  · intro c hc
    cases cs with
    | nil => exact absurd hc (by simp)
    | cons x xs =>
      simp only [List.head?_cons, Option.some.injEq] at hc
      exact (digitChar_facts c (hc ▸ h x (List.mem_cons_self x xs))).1
  · intro c hc
    exact (digitChar_facts c (h c (mem_of_getLast? cs c hc))).1

/-- A leading-digit string is recognised as numeric-like. -/
theorem jsNumericLikeCore_digits (c : Char) (cs : List Char)
    (h : allDigits (c :: cs) = true) (hc : isDigitChar c = true) :
    jsNumericLikeCore (c :: cs) = true := by
  have hfacts := digitChar_facts c hc
  unfold jsNumericLikeCore
  split
  · next ds heq =>
    exact absurd (List.cons.inj heq).1 hfacts.2.2.2.2.2.2.1
  · next ds heq =>
    exact absurd (List.cons.inj heq).1 hfacts.2.2.2.2.2.1
  · rw [decCore_allDigits (c :: cs) h]
    simp

/-- A signed digit string is recognised as numeric-like. -/
theorem jsNumericLikeCore_neg (ds : List Char) (h : allDigits ds = true) :
    jsNumericLikeCore ('-' :: ds) = true := by
  unfold jsNumericLikeCore
  split
  · next cs heq =>
    exact absurd (List.cons.inj heq).1 (by decide)
  · next cs heq =>
    obtain ⟨-, rfl⟩ := List.cons.inj heq
    rw [decCore_allDigits ds h]
    simp
  · next hne1 hne2 =>
    exact absurd rfl (hne2 ds)

/-- `natToDigits` output satisfies `allDigits`. -/
theorem allDigits_natToDigits (m : Nat) : allDigits (natToDigits m) = true := by
  unfold allDigits
  rw [natToDigits_all m]
  have : (natToDigits m).isEmpty = false := by
    cases hnd : natToDigits m with
    | nil => exact absurd hnd (natToDigits_ne_nil m)
    | cons c cs => rfl
  rw [this]
  rfl

/-- Digit strings pass the `Number(...)` test. -/
theorem jsIsNumeric_natToDigits (m : Nat) : jsIsNumeric (natToDigits m) = true := by
  have hmem : ∀ c ∈ natToDigits m, isDigitChar c = true :=
    fun c hc => List.all_eq_true.mp (natToDigits_all m) c hc
  simp only [jsIsNumeric]
  rw [trimL_all_digits _ hmem]
  cases hnd : natToDigits m with
  | nil => exact absurd hnd (natToDigits_ne_nil m)
  | cons c cs =>
    rw [jsNumericLikeCore_digits c cs (hnd ▸ allDigits_natToDigits m)
      (hmem c (by rw [hnd]; exact List.mem_cons_self c cs))]
    simp

/-- `trim()` is the identity on a minus sign followed by digits. -/
theorem trimL_neg_digits (m : Nat) :
    trimL ('-' :: natToDigits (m + 1)) = '-' :: natToDigits (m + 1) := by
  have hmem : ∀ c ∈ natToDigits (m + 1), isDigitChar c = true :=
    fun c hc => List.all_eq_true.mp (natToDigits_all (m + 1)) c hc
  apply trimL_eq_self
  · intro c hc
    simp only [List.head?_cons, Option.some.injEq] at hc
    rw [← hc]
    decide
  · intro c hc
    cases hnd : natToDigits (m + 1) with
    | nil => exact absurd hnd (natToDigits_ne_nil (m + 1))
    | cons x xs =>
      rw [hnd, List.getLast?_cons_cons] at hc
      exact (digitChar_facts c (hmem c (by
        rw [hnd]
        exact mem_of_getLast? (x :: xs) c hc))).1

/-- Signed digit strings pass the `Number(...)` test. -/
theorem jsIsNumeric_negDigits (m : Nat) :
    jsIsNumeric ('-' :: natToDigits (m + 1)) = true := by
  simp only [jsIsNumeric]
  rw [trimL_neg_digits m,
    jsNumericLikeCore_neg (natToDigits (m + 1)) (allDigits_natToDigits (m + 1))]
  simp

/-- `Number(...)` on an emitted nonnegative number. -/
theorem jsNumberValue_natToDigits (m : Nat) :
    jsNumberValue (natToDigits m) = FMValue.num m := by
  have hmem : ∀ c ∈ natToDigits m, isDigitChar c = true :=
    fun c hc => List.all_eq_true.mp (natToDigits_all m) c hc
  unfold jsNumberValue
  rw [trimL_all_digits _ hmem]
  split
  · next ds heq =>
    have hmm : isDigitChar '-' = true := by
      rw [← List.all_eq_true] at hmem
      have := hmem
      rw [heq] at this
      exact List.all_eq_true.mp this '-' (List.mem_cons_self '-' ds)
    exact absurd hmm (by decide)
  · next ds heq =>
    have hmm : isDigitChar '+' = true := by
      have := hmem
      rw [← List.all_eq_true, heq] at this
      exact List.all_eq_true.mp this '+' (List.mem_cons_self '+' ds)
    exact absurd hmm (by decide)
  · rw [if_pos (allDigits_natToDigits m), digitsVal_natToDigits m]

/-- `Number(...)` on an emitted negative number. -/
theorem jsNumberValue_negDigits (m : Nat) :
    jsNumberValue ('-' :: natToDigits (m + 1)) = FMValue.num (Int.negSucc m) := by
  unfold jsNumberValue
  rw [trimL_neg_digits m]
  split
  · next ds heq =>
    obtain ⟨-, rfl⟩ := List.cons.inj heq
    rw [if_pos (allDigits_natToDigits (m + 1)), digitsVal_natToDigits (m + 1)]
    congr 1
  · next ds heq =>
    exact absurd (List.cons.inj heq).1 (by decide)
  · next hne1 hne2 =>
    exact absurd rfl (hne1 (natToDigits (m + 1)))

/-- The parser's scalar dispatch maps an emitted nonnegative number
back to itself. -/
theorem parseScalar_natToDigits (m : Nat) :
    FrontmatterParser.parseScalar (natToDigits m) = FMValue.num m := by
  obtain ⟨c, cs, hnd⟩ : ∃ c cs, natToDigits m = c :: cs := by
    cases hnd : natToDigits m with
    | nil => exact absurd hnd (natToDigits_ne_nil m)
    | cons c cs => exact ⟨c, cs, rfl⟩
  have hc : isDigitChar c = true :=
    List.all_eq_true.mp (natToDigits_all m) c (by rw [hnd]; exact List.mem_cons_self c cs)
  have facts := digitChar_facts c hc
  unfold FrontmatterParser.parseScalar
  rw [if_neg, if_neg, if_neg, if_pos, jsNumberValue_natToDigits]
  · exact ⟨jsIsNumeric_natToDigits m, by rw [hnd]; simp⟩
  · intro hh
    rw [hnd] at hh
    exact facts.2.2.2.2.2.2.2.2.1 (List.cons.inj hh).1
  · intro hh
    rw [hnd] at hh
    exact facts.2.2.2.2.2.2.2.1 (List.cons.inj hh).1
  · intro hh
    rw [hnd, List.head?_cons, Option.some.injEq] at hh
    exact facts.2.2.2.2.1 hh.1

/-- The parser's scalar dispatch maps an emitted negative number back
to itself. -/
theorem parseScalar_negDigits (m : Nat) :
    FrontmatterParser.parseScalar ('-' :: natToDigits (m + 1)) =
      FMValue.num (Int.negSucc m) := by
  unfold FrontmatterParser.parseScalar
  rw [if_neg, if_neg, if_neg, if_pos, jsNumberValue_negDigits]
  · refine ⟨jsIsNumeric_negDigits m, by simp⟩
  · intro hh
    exact absurd (List.cons.inj hh).1 (by decide)
  · intro hh
    exact absurd (List.cons.inj hh).1 (by decide)
  · intro hh
    rw [List.head?_cons, Option.some.injEq] at hh
    exact absurd hh.1 (by decide)

/-- The parser's scalar dispatch maps a good string to itself. -/
theorem parseScalar_goodStr (s : String) (ht : s ≠ "true") (hf : s ≠ "false")
    (hbr : s.data.head? ≠ some '[') (hnum : ¬ (jsIsNumeric s.data = true ∧ s ≠ "")) :
    FrontmatterParser.parseScalar s.data = FMValue.str s := by
  unfold FrontmatterParser.parseScalar
  rw [if_neg, if_neg, if_neg, if_neg]
  · intro hh
    refine hnum ⟨hh.1, ?_⟩
    intro hs
    rw [hs] at hh
    exact absurd hh.2 (by decide)
  · intro hh
    exact hf (show s = "false" from congrArg String.mk hh)
  · intro hh
    exact ht (show s = "true" from congrArg String.mk hh)
  · intro hh
    exact hbr hh.1

/-- `dropWhile` fixes a list only if the head fails the predicate. -/
theorem dropWhile_self_head (p : Char → Bool) (cs : List Char)
    (h : cs.dropWhile p = cs) : ∀ c, cs.head? = some c → p c = false := by
  intro c hc
  cases cs with
  | nil => simp at hc
  | cons x xs =>
    have hxc : x = c := by simpa using hc
    subst hxc
    rcases Bool.eq_false_or_eq_true (p x) with ht | hf
    · exfalso
      rw [List.dropWhile_cons, if_pos ht] at h
      have hlen := congrArg List.length h
      have hle := (List.dropWhile_suffix (l := xs) p).length_le
      simp only [List.length_cons] at hlen
      omega
    · exact hf

/-- A trim-stable string has no whitespace at either end. -/
theorem trimL_self_parts (cs : List Char) (h : trimL cs = cs) :
    cs.dropWhile jsWhitespace = cs ∧
      cs.reverse.dropWhile jsWhitespace = cs.reverse := by
  have hlen := congrArg List.length h
  unfold trimL at hlen
  have hle1 := (List.dropWhile_suffix (l := cs) jsWhitespace).length_le
  have hle2 :=
    (List.dropWhile_suffix (l := (cs.dropWhile jsWhitespace).reverse) jsWhitespace).length_le
  simp only [List.length_reverse] at hlen hle2
  have heq1 : (cs.dropWhile jsWhitespace).length = cs.length := by omega
  have hdw1 : cs.dropWhile jsWhitespace = cs :=
    (List.dropWhile_suffix jsWhitespace).eq_of_length heq1
  refine ⟨hdw1, ?_⟩
  rw [hdw1] at hlen hle2
  have heq2 : (cs.reverse.dropWhile jsWhitespace).length = cs.reverse.length := by
    simp only [List.length_reverse]
    omega
  exact (List.dropWhile_suffix jsWhitespace).eq_of_length heq2

/-- The last element of an appended list with nonempty right part. -/
theorem getLast?_append_right {α} (l1 l2 : List α) (h : l2 ≠ []) :
    (l1 ++ l2).getLast? = l2.getLast? := by
  induction l1 with
  | nil => rfl
  | cons x xs ih =>
    cases hxl : xs ++ l2 with
    | nil =>
      exact absurd (List.append_eq_nil.mp hxl).2 h
    | cons y ys =>
      rw [List.cons_append, hxl, List.getLast?_cons_cons, ← hxl, ih]

/-- A serialized `key: value` line parses back to the key and the
scalar of the raw value chunk. -/
theorem parseYamlLine_entry (k : String) (wcs : List Char) (hk : SerKey k)
    (hwne : wcs ≠ [])
    (hw_head : ∀ c, wcs.head? = some c → jsWhitespace c = false)
    (hw_last : ∀ c, wcs.getLast? = some c → jsWhitespace c = false) :
    FrontmatterParser.parseYamlLine ⟨k.data ++ ':' :: ' ' :: wcs⟩ =
      some (k, FrontmatterParser.parseScalar
        (FrontmatterParser.stripMatchingQuotes wcs)) := by
  obtain ⟨hkne, hktrim, hkcolon, hknl, hkhash⟩ := hk
  obtain ⟨kc, krest, hkdata⟩ : ∃ kc krest, k.data = kc :: krest := by
    cases hkd : k.data with
    | nil => exact absurd (congrArg String.mk hkd) hkne
    | cons kc krest => exact ⟨kc, krest, rfl⟩
  have hkhead : jsWhitespace kc = false :=
    dropWhile_self_head _ _ (trimL_self_parts k.data hktrim).1 kc
      (by rw [hkdata]; rfl)
  have hline : trimL (k.data ++ ':' :: ' ' :: wcs) = k.data ++ ':' :: ' ' :: wcs := by
    apply trimL_eq_self
    · intro c hc
      rw [hkdata, List.cons_append, List.head?_cons] at hc
      have hkcc : kc = c := by simpa using hc
      rw [← hkcc]
      exact hkhead
    · intro c hc
      rw [show k.data ++ ':' :: ' ' :: wcs = (k.data ++ [':', ' ']) ++ wcs from by simp,
        getLast?_append_right _ wcs hwne] at hc
      exact hw_last c hc
  have hdata : (⟨k.data ++ ':' :: ' ' :: wcs⟩ : String).data =
      k.data ++ ':' :: ' ' :: wcs := rfl
  simp only [FrontmatterParser.parseYamlLine, hdata, hline]
  have hempty : (k.data ++ ':' :: ' ' :: wcs).isEmpty = false := by
    rw [hkdata]
    rfl
  rw [if_neg (by rw [hempty]; simp)]
  have hhash : ¬ (k.data ++ ':' :: ' ' :: wcs).head? = some '#' := by
    rw [hkdata, List.cons_append, List.head?_cons]
    intro hh
    apply hkhash
    rw [hkdata, List.head?_cons]
    exact hh
  rw [if_neg hhash, breakOnColon_append k.data (' ' :: wcs) hkcolon]
  have hwtrim : trimL (' ' :: wcs) = wcs := by
    rw [trimL_cons_ws ' ' wcs (by decide)]
    exact trimL_eq_self wcs hw_head hw_last
  show some ((⟨trimL k.data⟩ : String), FrontmatterParser.parseScalar
      (FrontmatterParser.stripMatchingQuotes (trimL (' ' :: wcs)))) = _
  rw [hwtrim, hktrim]

/-- Quote escaping is the identity on quote-free strings. -/
theorem escapeQuotesL_id : ∀ (cs : List Char), '"' ∉ cs → escapeQuotesL cs = cs := by
  intro cs
  induction cs with
  | nil => intro h; rfl
  | cons c cs ih =>
    intro h
    have hc : c ≠ '"' := fun hh => h (hh ▸ List.mem_cons_self c cs)
    have hcs : '"' ∉ cs := fun hh => h (List.mem_cons_of_mem c hh)
    unfold escapeQuotesL
    split
    · next heq => exact absurd heq (by simp)
    · next cs2 heq =>
      exact absurd (List.cons.inj heq).1 hc
    · next c2 cs2 heq =>
      obtain ⟨rfl, rfl⟩ := List.cons.inj heq
      rw [ih hcs]

/-- Each good entry serializes to exactly one newline-free line that
parses back to the entry. -/
theorem serializeEntry_good (k : String) (v : FMValue) (hk : SerKey k) (hv : SerVal v) :
    ∃ l : String, FileGenerator.serializeEntryLines (k, v) = [l] ∧ '\n' ∉ l.data ∧
      FrontmatterParser.parseYamlLine l = some (k, v) := by
  have hknl : '\n' ∉ k.data := hk.2.2.2.1
  cases v with
  | num n =>
    have hdigits : ∀ c ∈ (jsNumToString n).data, isDigitChar c = true ∨ c = '-' := by
      cases n with
      | ofNat m =>
        intro c hc
        exact Or.inl (List.all_eq_true.mp (natToDigits_all m) c hc)
      | negSucc m =>
        intro c hc
        rcases List.mem_cons.mp hc with rfl | hm
        · exact Or.inr rfl
        · exact Or.inl (List.all_eq_true.mp (natToDigits_all (m + 1)) c hm)
    have hdataeq : (k ++ ": " ++ jsNumToString n).data =
        k.data ++ ':' :: ' ' :: (jsNumToString n).data := by
      rw [String.data_append, String.data_append, List.append_assoc]
      rfl
    refine ⟨k ++ ": " ++ jsNumToString n, rfl, ?_, ?_⟩
    · intro hmem
      rw [hdataeq] at hmem
      rcases List.mem_append.mp hmem with h1 | h2
      · exact hknl h1
      · rcases List.mem_cons.mp h2 with h3 | h4
        · exact absurd h3.symm (by decide)
        · rcases List.mem_cons.mp h4 with h5 | h6
          · exact absurd h5.symm (by decide)
          · rcases hdigits '\n' h6 with hd | hd
            · exact absurd hd (by decide)
            · exact absurd hd (by decide)
    · have hstr : (k ++ ": " ++ jsNumToString n) =
          ⟨k.data ++ ':' :: ' ' :: (jsNumToString n).data⟩ :=
        congrArg String.mk hdataeq
      rw [hstr]
      have hwne : (jsNumToString n).data ≠ [] := by
        cases n with
        | ofNat m => exact natToDigits_ne_nil m
        | negSucc m => simp [jsNumToString]
      have hw_head : ∀ c, (jsNumToString n).data.head? = some c →
          jsWhitespace c = false := by
        intro c hc
        cases hnd : (jsNumToString n).data with
        | nil => exact absurd hnd hwne
        | cons x xs =>
          rw [hnd, List.head?_cons] at hc
          have hxc : x = c := by simpa using hc
          subst hxc
          rcases hdigits x (by rw [hnd]; exact List.mem_cons_self x xs) with hd | hd
          · exact (digitChar_facts x hd).1
          · rw [hd]
            decide
      have hw_last : ∀ c, (jsNumToString n).data.getLast? = some c →
          jsWhitespace c = false := by
        intro c hc
        rcases hdigits c (mem_of_getLast? _ c hc) with hd | hd
        · exact (digitChar_facts c hd).1
        · rw [hd]
          decide
      rw [parseYamlLine_entry k (jsNumToString n).data hk hwne hw_head hw_last]
      have hstrip : FrontmatterParser.stripMatchingQuotes (jsNumToString n).data =
          (jsNumToString n).data := by
        apply stripMatchingQuotes_eq_self
        · intro hc
          cases hnd : (jsNumToString n).data with
          | nil => exact absurd hnd hwne
          | cons x xs =>
            rw [hnd, List.head?_cons] at hc
            have hxc : x = '"' := by simpa using hc
            rcases hdigits x (by rw [hnd]; exact List.mem_cons_self x xs) with hd | hd
            · exact (digitChar_facts x hd).2.2.1 hxc
            · rw [hxc] at hd
              exact absurd hd (by decide)
        · intro hc
          cases hnd : (jsNumToString n).data with
          | nil => exact absurd hnd hwne
          | cons x xs =>
            rw [hnd, List.head?_cons] at hc
            have hxc : x = '\'' := by simpa using hc
            rcases hdigits x (by rw [hnd]; exact List.mem_cons_self x xs) with hd | hd
            · exact (digitChar_facts x hd).2.2.2.1 hxc
            · rw [hxc] at hd
              exact absurd hd (by decide)
      rw [hstrip]
      cases n with
      | ofNat m =>
        rw [show (jsNumToString (Int.ofNat m)).data = natToDigits m from rfl,
          parseScalar_natToDigits m]
        rfl
      | negSucc m =>
        rw [show (jsNumToString (Int.negSucc m)).data = '-' :: natToDigits (m + 1)
            from rfl, parseScalar_negDigits m]
  | bool b =>
    cases b with
    | true =>
      have hdataeq : (k ++ ": " ++ "true").data =
          k.data ++ ':' :: ' ' :: "true".data := by
        rw [String.data_append, String.data_append, List.append_assoc]
        rfl
      refine ⟨k ++ ": " ++ "true", rfl, ?_, ?_⟩
      · intro hmem
        rw [hdataeq] at hmem
        rcases List.mem_append.mp hmem with h1 | h2
        · exact hknl h1
        · exact absurd h2 (by decide)
      · have hstr2 : (k ++ ": " ++ "true") =
            ⟨k.data ++ ':' :: ' ' :: "true".data⟩ := congrArg String.mk hdataeq
        rw [hstr2, parseYamlLine_entry k "true".data hk (by decide)
          (by intro c hc
              have hce : 't' = c := by simpa using hc
              rw [← hce]
              decide)
          (by intro c hc
              have hce : 'e' = c := by simpa using hc
              rw [← hce]
              decide)]
        rw [show FrontmatterParser.stripMatchingQuotes "true".data = "true".data
          from by decide]
        rw [show FrontmatterParser.parseScalar "true".data = FMValue.bool true
          from by decide]
    | false =>
      have hdataeq : (k ++ ": " ++ "false").data =
          k.data ++ ':' :: ' ' :: "false".data := by
        rw [String.data_append, String.data_append, List.append_assoc]
        rfl
      refine ⟨k ++ ": " ++ "false", rfl, ?_, ?_⟩
      · intro hmem
        rw [hdataeq] at hmem
        rcases List.mem_append.mp hmem with h1 | h2
        · exact hknl h1
        · exact absurd h2 (by decide)
      · have hstr2 : (k ++ ": " ++ "false") =
            ⟨k.data ++ ':' :: ' ' :: "false".data⟩ := congrArg String.mk hdataeq
        rw [hstr2, parseYamlLine_entry k "false".data hk (by decide)
          (by intro c hc
              have hce : 'f' = c := by simpa using hc
              rw [← hce]
              decide)
          (by intro c hc
              have hce : 'e' = c := by simpa using hc
              rw [← hce]
              decide)]
        rw [show FrontmatterParser.stripMatchingQuotes "false".data = "false".data
          from by decide]
        rw [show FrontmatterParser.parseScalar "false".data = FMValue.bool false
          from by decide]
  | numNonInt raw => exact hv.elim
  | arr xs => exact hv.elim
  | str s =>
    obtain ⟨hsnl, hsq, hst, hsf, hsbr, hsnum⟩ := hv
    have hcont : ¬ s.data.contains '\n' = true := by
      intro ht
      exact hsnl (List.mem_of_elem_eq_true ht)
    have hesc : escapeQuotesL s.data = s.data := escapeQuotesL_id s.data hsq
    have hser : FileGenerator.serializeEntryLines (k, FMValue.str s) =
        [k ++ ": \"" ++ (⟨escapeQuotesL s.data⟩ : String) ++ "\""] := by
      simp only [FileGenerator.serializeEntryLines]
      rw [if_neg hcont, if_neg hst, if_neg hsf]
    have hdataeq : (k ++ ": \"" ++ (⟨escapeQuotesL s.data⟩ : String) ++ "\"").data =
        k.data ++ ':' :: ' ' :: ('"' :: (s.data ++ ['"'])) := by
      rw [String.data_append, String.data_append, String.data_append,
        show (⟨escapeQuotesL s.data⟩ : String).data = s.data from by
          rw [show (⟨escapeQuotesL s.data⟩ : String).data = escapeQuotesL s.data
            from rfl, hesc],
        List.append_assoc, List.append_assoc]
      rfl
    refine ⟨k ++ ": \"" ++ (⟨escapeQuotesL s.data⟩ : String) ++ "\"", hser, ?_, ?_⟩
    · intro hmem
      rw [hdataeq] at hmem
      rcases List.mem_append.mp hmem with h1 | h2
      · exact hknl h1
      · rcases List.mem_cons.mp h2 with h3 | h4
        · exact absurd h3.symm (by decide)
        · rcases List.mem_cons.mp h4 with h5 | h6
          · exact absurd h5.symm (by decide)
          · rcases List.mem_cons.mp h6 with h7 | h8
            · exact absurd h7.symm (by decide)
            · rcases List.mem_append.mp h8 with h9 | h10
              · exact hsnl h9
              · rw [List.mem_singleton] at h10
                exact absurd h10 (by decide)
    · have hstr2 : (k ++ ": \"" ++ (⟨escapeQuotesL s.data⟩ : String) ++ "\"") =
          ⟨k.data ++ ':' :: ' ' :: ('"' :: (s.data ++ ['"']))⟩ :=
        congrArg String.mk hdataeq
      rw [hstr2, parseYamlLine_entry k ('"' :: (s.data ++ ['"']))
        hk (by simp)
        (by intro c hc
            have hce : '"' = c := by simpa using hc
            rw [← hce]
            decide)
        (by intro c hc
            rw [show ('"' :: (s.data ++ ['"'])) = ('"' :: s.data) ++ ['"'] from rfl,
              List.getLast?_concat] at hc
            have hce : '"' = c := by simpa using hc
            rw [← hce]
            decide)]
      have hsq2 : FrontmatterParser.stripMatchingQuotes ('"' :: (s.data ++ ['"'])) =
          s.data := stripMatchingQuotes_quoted s.data
      rw [hsq2, parseScalar_goodStr s hst hsf hsbr hsnum]

/-- Folding the YAML line parser over the serialized entry lines of a
good bag appends the bag to the accumulator. -/
theorem parseYaml_fold_good :
    ∀ (fm acc : List (String × FMValue)),
      (acc.map Prod.fst ++ fm.map Prod.fst).Nodup →
      (∀ p ∈ fm, SerKey p.1 ∧ SerVal p.2) →
      ((fm.map FileGenerator.serializeEntryLines).flatten).foldl
        (fun acc line =>
          match FrontmatterParser.parseYamlLine line with
          | some (k, v) => FrontmatterParser.insertJs acc k v
          | none => acc)
        acc = acc ++ fm := by
  intro fm
  induction fm with
  | nil => intro acc _ _; simp
  | cons p fm ih =>
    intro acc hnd hgood
    obtain ⟨hkp, hvp⟩ := hgood p (List.mem_cons_self p fm)
    obtain ⟨l, hl1, -, hl3⟩ := serializeEntry_good p.1 p.2 hkp hvp
    have hfresh : ¬ ∃ q ∈ acc, q.1 = p.1 := by
      rintro ⟨q, hq, hqk⟩
      have hmem1 : p.1 ∈ acc.map Prod.fst := hqk ▸ List.mem_map_of_mem Prod.fst hq
      have hmem2 : p.1 ∈ p.1 :: fm.map Prod.fst := List.mem_cons_self _ _
      have := List.disjoint_of_nodup_append hnd
      exact this hmem1 (by simp)
    have hbeta : (match FrontmatterParser.parseYamlLine l with
        | some (k, v) => FrontmatterParser.insertJs acc k v
        | none => acc) = acc ++ [p] := by
      rw [hl3]
      exact insertJs_fresh acc p.1 p.2 hfresh
    rw [List.map_cons, List.flatten_cons, hl1, List.singleton_append,
      List.foldl_cons, hbeta, ih (acc ++ [p]) (by simpa using hnd)
        (fun q hq => hgood q (List.mem_cons_of_mem p hq))]
    simp

/-- Every serialized line of a good bag is newline-free, is not the
document delimiter, and parses to its entry. -/
theorem serialized_line_props (fm : List (String × FMValue))
    (hgood : ∀ p ∈ fm, SerKey p.1 ∧ SerVal p.2) :
    ∀ l ∈ (fm.map FileGenerator.serializeEntryLines).flatten,
      '\n' ∉ l.data ∧ l ≠ "---" := by
  intro l hl
  obtain ⟨ls, hls, hlmem⟩ := List.mem_flatten.mp hl
  obtain ⟨p, hp, hpl⟩ := List.mem_map.mp hls
  obtain ⟨l0, h1, h2, h3⟩ := serializeEntry_good p.1 p.2 (hgood p hp).1 (hgood p hp).2
  have hlsl0 : ls = [l0] := by
    rw [← hpl]
    exact h1
  have hll0 : l = l0 := by
    rw [hlsl0] at hlmem
    simpa using hlmem
  subst hll0
  refine ⟨h2, ?_⟩
  intro hdelim
  rw [hdelim, show FrontmatterParser.parseYamlLine "---" = none from by decide] at h3
  cases h3

/-- C4 (counterexample): a bag holding a string-array value does not
round-trip: the serializer writes the array as a bare `key:` line plus
dash items, and the parser reads the bare line back as the empty
string. -/
theorem c4_counterexample :
    FrontmatterParser.parseFrontmatter
        (FileGenerator.serializeFrontmatter [("labels", FMValue.arr ["work"])]) =
      some ([("labels", FMValue.str "")], "") ∧
    ([("labels", FMValue.str "")] : List (String × FMValue)) ≠
      [("labels", FMValue.arr ["work"])] :=
  ⟨by decide, by decide⟩

/-- C4 (amended): parse–serialize round-trip holds on bags with
distinct good keys and boolean, integer or good single-line string
values (and an empty body remainder). -/
theorem c4_amended (fm : List (String × FMValue))
    (hnd : (fm.map Prod.fst).Nodup)
    (hgood : ∀ p ∈ fm, SerKey p.1 ∧ SerVal p.2) :
    FrontmatterParser.parseFrontmatter (FileGenerator.serializeFrontmatter fm) =
      some (fm, "") := by
  cases hfm : fm with
  | nil => decide
  | cons p0 fm0 =>
    rw [← hfm]
    have hprops := serialized_line_props fm hgood
    have hLnl : ∀ l ∈ (fm.map FileGenerator.serializeEntryLines).flatten,
        '\n' ∉ l.data := fun l hl => (hprops l hl).1
    have hLne : ∀ l ∈ (fm.map FileGenerator.serializeEntryLines).flatten,
        l ≠ "---" := fun l hl => (hprops l hl).2
    have hLnonempty : (fm.map FileGenerator.serializeEntryLines).flatten ≠ [] := by
      obtain ⟨l, hl1, -, -⟩ := serializeEntry_good p0.1 p0.2
        (hgood p0 (by rw [hfm]; exact List.mem_cons_self p0 fm0)).1
        (hgood p0 (by rw [hfm]; exact List.mem_cons_self p0 fm0)).2
      rw [hfm, List.map_cons, List.flatten_cons, hl1]
      simp
    have hsplit : jsSplitLines (FileGenerator.serializeFrontmatter fm) =
        "---" :: ((fm.map FileGenerator.serializeEntryLines).flatten ++ ["---"]) :=
      jsSplitLines_serialized (fm.map FileGenerator.serializeEntryLines).flatten hLnl
    unfold FrontmatterParser.parseFrontmatter
    rw [hsplit]
    show (if ("---" : String) ≠ "---" then none
      else
        match FrontmatterParser.findDelim
            ((fm.map FileGenerator.serializeEntryLines).flatten ++ ["---"]) with
        | none => none
        | some (fmLines, bodyLines) =>
          some (FrontmatterParser.parseYaml (jsJoinLines fmLines),
            jsJoinLines bodyLines)) = some (fm, "")
    rw [if_neg (by simp),
      findDelim_lines (fm.map FileGenerator.serializeEntryLines).flatten hLne]
    show some (FrontmatterParser.parseYaml
        (jsJoinLines (fm.map FileGenerator.serializeEntryLines).flatten),
      jsJoinLines []) = some (fm, "")
    unfold FrontmatterParser.parseYaml
    rw [jsSplitLines_join (fm.map FileGenerator.serializeEntryLines).flatten
      hLnonempty hLnl, parseYaml_fold_good fm [] (by simpa using hnd) hgood]
    rfl

/-- Witness for amended C4 at a concrete good bag of a string, two
numbers and a boolean. -/
theorem c4_amended_witness :
    ((([("title", FMValue.str "hello"), ("priority", FMValue.num 4),
        ("completed", FMValue.bool false), ("neg", FMValue.num (-7))] :
        List (String × FMValue)).map Prod.fst).Nodup ∧
     (∀ p ∈ ([("title", FMValue.str "hello"), ("priority", FMValue.num 4),
        ("completed", FMValue.bool false), ("neg", FMValue.num (-7))] :
        List (String × FMValue)), SerKey p.1 ∧ SerVal p.2)) ∧
    FrontmatterParser.parseFrontmatter (FileGenerator.serializeFrontmatter
        [("title", FMValue.str "hello"), ("priority", FMValue.num 4),
         ("completed", FMValue.bool false), ("neg", FMValue.num (-7))]) =
      some ([("title", FMValue.str "hello"), ("priority", FMValue.num 4),
        ("completed", FMValue.bool false), ("neg", FMValue.num (-7))], "") :=
  ⟨⟨by decide, by decide⟩,
   c4_amended
     [("title", FMValue.str "hello"), ("priority", FMValue.num 4),
      ("completed", FMValue.bool false), ("neg", FMValue.num (-7))]
     (by decide) (by decide)⟩
